import Mathlib

/-!
# Whisper intelligibility measure: circular buffer, region scheduler, aggregator

A shallow embedding of `src/plugin/Types.h`, `src/plugin/CircularBuffer.cpp` and
`src/plugin/AnalysisRegions.cpp`, followed by theorems about it.

Modelling conventions

* The typedefs `SampleCounter` and `PlayheadTime` (`int64_t`) are `Int`, `SampleRate`
  (`uint32_t`) is `Nat`; the machine ranges are not modelled except where they decide the
  result: the signed/unsigned comparisons of `getSamples` (`toUInt64`), the `uint32_t`
  product in the buffer constructor and the `uint16_t` region count.
* `size_t` positions and lengths are `Nat`.
* `float` samples and results are only stored and copied by the code under study;
  they are an arbitrary type `F` with a zero (`0.f`).
* `std::vector<float>` is `List F`; `std::set` / `std::map` are key-sorted lists.
* `std::optional` is `Option`.
* Undefined behaviour or an exception in the source (`%` by zero, `.value()` on an
  empty optional, a vector access out of range) is the result `none`.
* Mutexes are not modelled: every operation is atomic.
-/

namespace audio_plugin

/-! ## Types.h -/

/-- A point of audio time: transport counter plus optional playhead time. -/
structure TimePoint where
  sampleRate : Nat
  sampleCounter : Int
  playheadTime : Option Int
deriving DecidableEq, Repr

/-- Playback time point: a time point whose playhead time is always known. -/
structure PlaybackTimePoint where
  sampleRate : Nat
  sampleCounter : Int
  playheadTime : Int
deriving DecidableEq, Repr

/-- The last observed playing span; `end_` absent means still playing. -/
structure PlaybackRegion where
  start : Option PlaybackTimePoint
  end_ : Option PlaybackTimePoint
deriving DecidableEq, Repr

/-- `TimePoint::operator+(T delta)`: shifts the counter, and the playhead time when present. -/
def TimePoint.addDelta (t : TimePoint) (delta : Int) : TimePoint :=
  { t with sampleCounter := t.sampleCounter + delta,
           playheadTime := t.playheadTime.map (fun p => p + delta) }

/-- `TimePoint::operator-(T delta)`. -/
def TimePoint.subDelta (t : TimePoint) (delta : Int) : TimePoint :=
  { t with sampleCounter := t.sampleCounter - delta,
           playheadTime := t.playheadTime.map (fun p => p - delta) }

/-- `toTimePoint` of Utils.h. -/
def toTimePoint (src : PlaybackTimePoint) : TimePoint :=
  ⟨src.sampleRate, src.sampleCounter, some src.playheadTime⟩

/-- The `double` computations of `TimePoint::operator/=` and `asSampleRate`. A `double` is
given by its exact rational value and the three computations are parameters, so that what
does not depend on the rounding holds for every arithmetic; `binary64` below is the IEEE-754
instance. `ratio a b` is `static_cast<double>(a) / static_cast<double>(b)`, `scaleRate x q`
is `static_cast<SampleRate>(static_cast<double>(x) / q)` and `scaleCounter x q` is
`static_cast<int64_t>(static_cast<double>(x) / q)`. -/
structure DoubleArith where
  ratio : Nat → Nat → ℚ
  scaleRate : Nat → ℚ → Nat
  scaleCounter : Int → ℚ → Int

/-- Rounding of a rational to the nearest integer, ties to the even one. -/
def roundHalfEven (q : ℚ) : Int :=
  if q - Int.floor q < 1 / 2 then Int.floor q
  else if 1 / 2 < q - Int.floor q then Int.floor q + 1
  else if Int.floor q % 2 = 0 then Int.floor q else Int.floor q + 1

/-- The IEEE-754 binary64 value of a real result: 53 significant bits, round to nearest,
ties to even. The exponent range is not modelled (no overflow, no subnormal numbers): the
values met here are quotients of integers below 2^64 by sample rate ratios. -/
def toDouble (q : ℚ) : ℚ :=
  if q = 0 then 0
  else (roundHalfEven (q / 2 ^ (Int.log 2 |q| - 52)) : ℚ) * 2 ^ (Int.log 2 |q| - 52)

/-- Conversion of a `double` to an integer type: the fraction is discarded. A value outside
the range of the integer type is not modelled. -/
def truncate (q : ℚ) : Int := if 0 ≤ q then Int.floor q else Int.ceil q

/-- The `double` computations in IEEE-754 binary64 arithmetic: every conversion of an
integer to `double` and every division rounds with `toDouble`. A division by zero (infinite
or not a number in the source) is not modelled. -/
def binary64 : DoubleArith :=
  { ratio := fun a b => toDouble (toDouble a / toDouble b),
    scaleRate := fun x q => (truncate (toDouble (toDouble x / q))).toNat,
    scaleCounter := fun x q => truncate (toDouble (toDouble x / q)) }

/-- `TimePoint::operator/(double downsampleRatio)`: unchanged for the ratio `1.0`, otherwise
rate, counter and playhead time (when present) are divided in `double` arithmetic. -/
def TimePoint.div (fp : DoubleArith) (t : TimePoint) (downsampleRatio : ℚ) : TimePoint :=
  if downsampleRatio = 1 then t
  else
    ⟨fp.scaleRate t.sampleRate downsampleRatio,
     fp.scaleCounter t.sampleCounter downsampleRatio,
     t.playheadTime.map (fun p => fp.scaleCounter p downsampleRatio)⟩

/-- `TimePoint::asSampleRate`. -/
def TimePoint.asSampleRate (fp : DoubleArith) (t : TimePoint) (newSampleRate : Nat) :
    TimePoint :=
  if newSampleRate = t.sampleRate then t
  else t.div fp (fp.ratio t.sampleRate newSampleRate)

/-- `PlaybackTimePoint::asSampleRate`. -/
def PlaybackTimePoint.asSampleRate (fp : DoubleArith) (t : PlaybackTimePoint)
    (newSampleRate : Nat) : PlaybackTimePoint :=
  if newSampleRate = t.sampleRate then t
  else
    let downsampleRatio := fp.ratio t.sampleRate newSampleRate
    ⟨fp.scaleRate t.sampleRate downsampleRatio,
     fp.scaleCounter t.sampleCounter downsampleRatio,
     fp.scaleCounter t.playheadTime downsampleRatio⟩

/-- `TimePoint::operator+(const TimePoint& other)`. The ratio `other.sampleRate / sampleRate`
is a `uint32_t` division, `none` for a zero `sampleRate`; it is converted to `double`
exactly. The assertion on the converted sample rate does not change the result. -/
def TimePoint.add (fp : DoubleArith) (t other : TimePoint) : Option TimePoint :=
  if t.sampleRate = 0 then none
  else
    let ratio : Nat := other.sampleRate / t.sampleRate
    let otherConv := other.div fp (ratio : ℚ)
    some { t with
      sampleCounter := t.sampleCounter + otherConv.sampleCounter,
      playheadTime :=
        match t.playheadTime, otherConv.playheadTime with
        | some p, some q => some (p + q)
        | _, _ => none }

/-- `TimePoint::operator-(const TimePoint& other)`. -/
def TimePoint.sub (fp : DoubleArith) (t other : TimePoint) : Option TimePoint :=
  if t.sampleRate = 0 then none
  else
    let ratio : Nat := other.sampleRate / t.sampleRate
    let otherConv := other.div fp (ratio : ℚ)
    some { t with
      sampleCounter := t.sampleCounter - otherConv.sampleCounter,
      playheadTime :=
        match t.playheadTime, otherConv.playheadTime with
        | some p, some q => some (p - q)
        | _, _ => none }

/-- Conversion of an `int64_t` to `uint64_t` (value modulo 2^64), as C++ applies it when a
signed operand meets a `size_t` one. -/
def toUInt64 (x : Int) : Int := x % 18446744073709551616

/-! ## CircularBuffer.cpp -/

/-- `WriteTracker`: last write slot and time point of the newest sample. The
default-constructed `latestDataEnd_` is never read before the first write. -/
structure WriteTracker where
  positionLimit : Nat
  haveWritten : Bool
  latestPosition : Nat
  latestDataEnd : TimePoint
deriving DecidableEq, Repr

/-- `WriteTracker::WriteTracker(positionLimit)`. -/
def WriteTracker.new (positionLimit : Nat) : WriteTracker :=
  ⟨positionLimit, false, 0, ⟨0, 0, none⟩⟩

/-- The condition asserted at the top of `recordWrite`: the sample counter moves on by
exactly one from the previous write. -/
def WriteTracker.sequentialAssertion (t : WriteTracker) (latestDataStart : TimePoint)
    (latestDataOffset : Int) : Prop :=
  t.haveWritten = true →
    latestDataStart.sampleCounter + latestDataOffset = t.latestDataEnd.sampleCounter + 1

/-- `WriteTracker::recordWrite` (the assertion is `sequentialAssertion`; it does not
change the state). -/
def WriteTracker.recordWrite (t : WriteTracker) (latestDataStart : TimePoint)
    (latestDataOffset : Int) : WriteTracker :=
  let latestDataEnd := latestDataStart.addDelta latestDataOffset
  let latestPosition :=
    if t.haveWritten then
      (if t.positionLimit ≠ 0 ∧ t.latestPosition + 1 ≥ t.positionLimit then 0
       else t.latestPosition + 1)
    else t.latestPosition
  { t with latestDataEnd := latestDataEnd, latestPosition := latestPosition,
           haveWritten := true }

/-- `WriteTracker::getNextWritePosition`. -/
def WriteTracker.getNextWritePosition (t : WriteTracker) : Nat :=
  if ¬ t.haveWritten then 0
  else
    let nextPosition := t.latestPosition + 1
    if t.positionLimit ≠ 0 ∧ nextPosition ≥ t.positionLimit then 0 else nextPosition

/-- `WriteTracker::getLatestWritePosition` (asserts `haveWritten_`). -/
def WriteTracker.getLatestWritePosition (t : WriteTracker) : Nat := t.latestPosition

/-- `WriteTracker::getLatestDataTimePoint` (asserts `haveWritten_`). -/
def WriteTracker.getLatestDataTimePoint (t : WriteTracker) : TimePoint := t.latestDataEnd

/-- `MonoCircularBuffer`: ring store of mono samples. -/
structure MonoCircularBuffer (F : Type) where
  buffer : List F
  writeTracker : WriteTracker
  sampleRate : Nat

/-- The state the constructor builds for a computed length `bufferLength`: a zeroed
vector and a fresh tracker limited to that length. -/
def MonoCircularBuffer.ofLength {F : Type} [Zero F] (bufferLength : Nat)
    (sampleRate : Nat) : MonoCircularBuffer F :=
  ⟨List.replicate bufferLength 0, WriteTracker.new bufferLength, sampleRate⟩

/-- `MonoCircularBuffer::MonoCircularBuffer(bufferLengthMs, sampleRate)`: the product of
the two `uint32_t` arguments is taken modulo 2^32 before the division by 1000. -/
def MonoCircularBuffer.new {F : Type} [Zero F] (bufferLengthMs : Nat)
    (sampleRate : Nat) : MonoCircularBuffer F :=
  MonoCircularBuffer.ofLength ((bufferLengthMs * sampleRate) % 4294967296 / 1000) sampleRate

/-- One iteration of the loop of `updateFrom`: store sample `x` (source index `s`) at the
next write position and record the write. With an empty vector the source writes out of
range; `List.set` leaves the list as it is. -/
def MonoCircularBuffer.writeSample {F : Type} (b : MonoCircularBuffer F) (x : F)
    (startTime : TimePoint) (s : Nat) : MonoCircularBuffer F :=
  let bufferNextWritePos := b.writeTracker.getNextWritePosition
  { b with buffer := b.buffer.set bufferNextWritePos x,
           writeTracker := b.writeTracker.recordWrite startTime s }

/-- The loop of `updateFrom` from source index `s` on (`src` holds the samples from index
`s`). -/
def MonoCircularBuffer.updateFromLoop {F : Type} :
    List F → Nat → TimePoint → MonoCircularBuffer F → MonoCircularBuffer F
  | [], _, _, b => b
  | x :: xs, s, startTime, b => updateFromLoop xs (s + 1) startTime (b.writeSample x startTime s)

/-- `MonoCircularBuffer::updateFrom`. -/
def MonoCircularBuffer.updateFrom {F : Type} (b : MonoCircularBuffer F) (srcBuffer : List F)
    (startTime : TimePoint) : MonoCircularBuffer F :=
  MonoCircularBuffer.updateFromLoop srcBuffer 0 startTime b

/-- The loop of `getLatestSamples`: `n` is `i + 1`, destination index `i` runs downwards,
`readPos` steps backwards through the ring. -/
def MonoCircularBuffer.getLatestSamplesLoop {F : Type} [Zero F] (buffer : List F) :
    Nat → Nat → List F → List F
  | 0, _, dst => dst
  | i + 1, readPos, dst =>
    getLatestSamplesLoop buffer i (if readPos = 0 then buffer.length - 1 else readPos - 1)
      (dst.set i (buffer.getD readPos 0))

/-- `MonoCircularBuffer::getLatestSamples`: the filled destination and the returned
time point. -/
def MonoCircularBuffer.getLatestSamples {F : Type} [Zero F] (b : MonoCircularBuffer F)
    (dstBuffer : List F) : List F × TimePoint :=
  if dstBuffer.length = 0 then (dstBuffer, ⟨b.sampleRate, 0, none⟩)
  else if b.buffer.length = 0 ∨ ¬ b.writeTracker.haveWritten then
    (List.replicate dstBuffer.length 0, ⟨b.sampleRate, 0, none⟩)
  else
    (MonoCircularBuffer.getLatestSamplesLoop b.buffer dstBuffer.length
        b.writeTracker.getLatestWritePosition dstBuffer,
      b.writeTracker.getLatestDataTimePoint)

/-- One read of the loop of `getSamples`: the ring slot of destination index `s`;
`none` when the index is outside the vector. -/
def MonoCircularBuffer.readSlot {F : Type} (buffer : List F) (buffEndPos : Int)
    (startPosDelta : Int) (s : Nat) : Option F :=
  let buffReadPos := buffEndPos - startPosDelta + s
  let buffReadPos := if buffReadPos < 0 then buffReadPos + buffer.length else buffReadPos
  if buffReadPos < 0 then none else buffer[buffReadPos.toNat]?

/-- The loop of `getSamples` from destination index `s` on, `n` iterations left. -/
def MonoCircularBuffer.getSamplesLoop {F : Type} (buffer : List F) (buffEndPos : Int)
    (startPosDelta : Int) : Nat → Nat → List F → Option (List F)
  | 0, _, dst => some dst
  | n + 1, s, dst =>
    match MonoCircularBuffer.readSlot buffer buffEndPos startPosDelta s with
    | none => none
    | some x => getSamplesLoop buffer buffEndPos startPosDelta n (s + 1) (dst.set s x)

/-- `MonoCircularBuffer::getSamples`: `some (ok, dst)` is the returned flag and the
destination afterwards; `none` is an out-of-range read. The first two comparisons mix
`int64_t` with `size_t`, so both sides are compared as `uint64_t`. -/
def MonoCircularBuffer.getSamples {F : Type} (b : MonoCircularBuffer F) (startTime : TimePoint)
    (dstBuffer : List F) : Option (Bool × List F) :=
  if startTime.sampleRate ≠ b.sampleRate then some (false, dstBuffer)
  else if b.buffer.length = 0 ∨ ¬ b.writeTracker.haveWritten then some (false, dstBuffer)
  else
    let buffEnd := b.writeTracker.getLatestDataTimePoint
    if toUInt64 (startTime.sampleCounter + dstBuffer.length) > toUInt64 buffEnd.sampleCounter then
      some (false, dstBuffer)
    else
      let startPosDelta : Int := buffEnd.sampleCounter - startTime.sampleCounter
      if toUInt64 startPosDelta > (b.buffer.length : Int) then some (false, dstBuffer)
      else
        let buffEndPos : Int := b.writeTracker.getLatestWritePosition
        (MonoCircularBuffer.getSamplesLoop b.buffer buffEndPos startPosDelta
            dstBuffer.length 0 dstBuffer).map (fun dst => (true, dst))

/-- `MonoCircularBuffer::getNumStoredSamples`. -/
def MonoCircularBuffer.getNumStoredSamples {F : Type} (b : MonoCircularBuffer F) : Nat :=
  b.buffer.length

/-- `MonoCircularBuffer::getSampleRate`. -/
def MonoCircularBuffer.getSampleRate {F : Type} (b : MonoCircularBuffer F) : Nat :=
  b.sampleRate

/-- `MonoCircularBuffer::getDurationMs`: the product is formed in `size_t` (modulo 2^64),
the quotient is returned as `uint32_t` (modulo 2^32); `none` is the division by a zero
sample rate. -/
def MonoCircularBuffer.getDurationMs {F : Type} (b : MonoCircularBuffer F) : Option Nat :=
  if b.sampleRate = 0 then none
  else some ((b.buffer.length * 1000 % 18446744073709551616) / b.sampleRate % 4294967296)

/-! ## AnalysisRegions.h: regions -/

/-- `Region::State`. -/
inductive Region.State where
  | PENDING
  | IN_PROGRESS
  | COMPLETE
  | TIMEOUT
  | FAILURE
deriving DecidableEq, Repr

/-- `Region`: ordered in the region set by `start.sampleCounter`; `count` is a
`uint16_t`. -/
structure Region (F : Type) where
  start : TimePoint
  end_ : TimePoint
  count : Nat
  wasDuringPlayback : Bool
  analysisState : Region.State
  stale : Bool
  analysisResult : F
deriving DecidableEq, Repr

/-- The four-argument constructor of `Region`: state `PENDING`, not stale, result `0.f`. -/
def Region.new {F : Type} [Zero F] (startTime endTime : TimePoint) (counter : Nat)
    (duringPlayback : Bool) : Region F :=
  ⟨startTime, endTime, counter, duringPlayback, Region.State.PENDING, false, 0⟩

/-! ## Sorted containers standing for `std::set` and `std::map` -/

/-- `std::set<int64_t>::insert`: ordered insertion, nothing changes when the key is there. -/
def setInsert (x : Int) : List Int → List Int
  | [] => [x]
  | y :: ys =>
    if x < y then x :: y :: ys
    else if x = y then y :: ys
    else y :: setInsert x ys

/-- `std::map<int64_t, V>::find`. -/
def mapFind {V : Type} (k : Int) : List (Int × V) → Option V
  | [] => none
  | (k', v) :: rest => if k = k' then some v else mapFind k rest

/-- Assignment `m[k] = v` on a `std::map<int64_t, V>`: ordered insertion or overwrite. -/
def mapAssign {V : Type} (k : Int) (v : V) : List (Int × V) → List (Int × V)
  | [] => [(k, v)]
  | (k', v') :: rest =>
    if k < k' then (k, v) :: (k', v') :: rest
    else if k = k' then (k, v) :: rest
    else (k', v') :: mapAssign k v rest

/-! ## AnalysisRegions.cpp: file-local helpers -/

/-- `roundUpToAlignmentBoundary`; `/` and `%` of C++ truncate toward zero, and a zero
`boundarySpacing` is a division by zero (`none`). The quotient `fullRegions` of the source
is computed there and never used. -/
def roundUpToAlignmentBoundary (inTimePoint : PlaybackTimePoint)
    (boundarySpacing : Int) : Option TimePoint :=
  if inTimePoint.playheadTime < 0 then
    some ((toTimePoint inTimePoint).subDelta inTimePoint.playheadTime)
  else if boundarySpacing = 0 then none
  else
    let regionRemainder := Int.tmod inTimePoint.playheadTime boundarySpacing
    if regionRemainder = 0 then some (toTimePoint inTimePoint)
    else
      let additionalSamplesToBoundary :=
        if regionRemainder < 0 then -regionRemainder else boundarySpacing - regionRemainder
      some ((toTimePoint inTimePoint).addDelta additionalSamplesToBoundary)

/-- `calcPlaybackAlignmentOffsetFromZero`: `playheadTime % regionFrequency`, truncating;
`none` for a zero `regionFrequency`. -/
def calcPlaybackAlignmentOffsetFromZero (playheadTime : Int)
    (regionFrequency : Int) : Option Int :=
  if regionFrequency = 0 then none else some (Int.tmod playheadTime regionFrequency)

/-! ## PlaybackResults -/

/-- `PlaybackResults::Results`. -/
structure PlaybackResults.Results (F : Type) where
  playheadStartTimes : List Int
  playthroughOffsets : List Int
  regions : List (Int × List (Int × Region F))
deriving DecidableEq, Repr

/-- `Results()`: empty sets and map. -/
def PlaybackResults.Results.empty {F : Type} : PlaybackResults.Results F := ⟨[], [], []⟩

/-- `PlaybackResults`; the `uint64_t` update counter is a `Nat` (2^64 updates are out of
reach). -/
structure PlaybackResults (F : Type) where
  updateCounter : Nat
  alignmentOffset : Int
  regionSize : Int
  regionFrequency : Int
  results : PlaybackResults.Results F
deriving DecidableEq, Repr

/-- A default-constructed `PlaybackResults`. -/
def PlaybackResults.new {F : Type} : PlaybackResults F :=
  ⟨0, 0, 0, 0, PlaybackResults.Results.empty⟩

/-- `PlaybackResults::addResult`. `none`: `.value()` on a missing playhead start, or
`%` by a zero `regionFrequency_`. -/
def PlaybackResults.addResult {F : Type} (pr : PlaybackResults F)
    (resultantRegion : Region F) : Option (PlaybackResults F) :=
  let resultantRegionSize :=
    resultantRegion.end_.sampleCounter - resultantRegion.start.sampleCounter
  if resultantRegionSize = pr.regionSize then
    match resultantRegion.start.playheadTime with
    | none => none
    | some resultantRegionStartPlayheadTime =>
      match calcPlaybackAlignmentOffsetFromZero resultantRegionStartPlayheadTime
          pr.regionFrequency with
      | none => none
      | some resultantRegionAlignment =>
        if pr.alignmentOffset = resultantRegionAlignment then
          let resultantRegionPlaythroughOffset :=
            resultantRegion.start.sampleCounter - resultantRegionStartPlayheadTime
          let inner := (mapFind resultantRegionPlaythroughOffset pr.results.regions).getD []
          some { pr with
            results :=
              { playheadStartTimes :=
                  setInsert resultantRegionStartPlayheadTime pr.results.playheadStartTimes,
                playthroughOffsets :=
                  setInsert resultantRegionPlaythroughOffset pr.results.playthroughOffsets,
                regions :=
                  mapAssign resultantRegionPlaythroughOffset
                    (mapAssign resultantRegionStartPlayheadTime resultantRegion inner)
                    pr.results.regions },
            updateCounter := pr.updateCounter + 1 }
        else some pr
  else some pr

/-- `PlaybackResults::getResults`. -/
def PlaybackResults.getResults {F : Type} (pr : PlaybackResults F) :
    PlaybackResults.Results F := pr.results

/-- `PlaybackResults::getUpdateCounter`. -/
def PlaybackResults.getUpdateCounter {F : Type} (pr : PlaybackResults F) : Nat :=
  pr.updateCounter

/-- `PlaybackResults::setConfig`. -/
def PlaybackResults.setConfig {F : Type} (pr : PlaybackResults F)
    (alignmentOffset regionSize regionFrequency : Int) : PlaybackResults F :=
  if pr.alignmentOffset = alignmentOffset ∧ pr.regionSize = regionSize ∧
      pr.regionFrequency = regionFrequency then pr
  else
    { alignmentOffset := alignmentOffset, regionSize := regionSize,
      regionFrequency := regionFrequency, results := PlaybackResults.Results.empty,
      updateCounter := pr.updateCounter + 1 }

/-- `PlaybackResults::setConfigFromRegion`; `none` for a zero `regionFrequency`. -/
def PlaybackResults.setConfigFromRegion {F : Type} (pr : PlaybackResults F)
    (aligningRegionStart aligningRegionEnd : Int)
    (regionFrequency : Int) : Option (PlaybackResults F) :=
  let regionSize := aligningRegionEnd - aligningRegionStart
  match calcPlaybackAlignmentOffsetFromZero aligningRegionStart regionFrequency with
  | none => none
  | some offset => some (pr.setConfig offset regionSize regionFrequency)

/-- `PlaybackResults::clear`. -/
def PlaybackResults.clear {F : Type} (pr : PlaybackResults F) : PlaybackResults F :=
  { pr with results := PlaybackResults.Results.empty, updateCounter := pr.updateCounter + 1 }

/-! ## Comms.h: the remote analysis channel -/

/-- `ServiceCommunicator::Response`. -/
structure Response (F : Type) where
  reqId : Int
  result : F
  success : Bool
deriving DecidableEq, Repr

/-- The part of `ServiceCommunicator` the scheduler calls. The socket behind it is outside
the program: each call is an answer together with the next channel state `C`. -/
structure ServiceCommunicator (C F : Type) where
  readyToSend : C → Bool × C
  sendRequest : C → TimePoint → Int → Bool × C
  getResponse : C → Option (Response F) × C

/-! ## Comms.cpp: `sendRequest` -/

/-- What the non-blocking `requester_.send` does with a message: it throws, it returns no
result (the message was not queued), or the message is sent. -/
inductive SendOutcome where
  | threw
  | noResult
  | sent
deriving DecidableEq, Repr

/-- The members of `ServiceCommunicator` that `sendRequest` touches: `outstandingReplies_`
(a `uint32_t`, here a `Nat`) and, for the record, the messages the socket has taken. A
message is the request id with the sample values that follow it in the buffer. -/
structure Comms.State (F : Type) where
  outstandingReplies : Nat
  sent : List (Int × List F)
deriving DecidableEq, Repr

/-- `ServiceCommunicator::sendRequest` of Comms.cpp; `socket` is the behaviour of
`requester_.send`. The sample area is value-initialised (zeros) and handed to `getSamples`,
whose returned flag the source does not read; `none` is an out-of-range read inside
`getSamples`. A negative `length` is not modelled. -/
def Comms.sendRequest {F : Type} [Zero F] (socket : Int × List F → SendOutcome)
    (st : Comms.State F) (start : TimePoint) (length : Int)
    (readBuff : MonoCircularBuffer F) : Option (Bool × Comms.State F) :=
  let reqId := start.sampleCounter
  let samplesArea : List F := List.replicate length.toNat 0
  match readBuff.getSamples start samplesArea with
  | none => none
  | some read =>
    match socket (reqId, read.2) with
    | SendOutcome.threw => some (false, st)
    | SendOutcome.noResult => some (false, st)
    | SendOutcome.sent =>
      some (true, { st with outstandingReplies := st.outstandingReplies + 1,
                            sent := st.sent ++ [(reqId, read.2)] })

/-! ## AnalysisRegions -/

/-- `AnalysisRegions::Alignment`. -/
inductive Alignment where
  | NONE
  | TIME_ZERO
  | PLAYBACK_BEGIN
deriving DecidableEq, Repr

/-- `AnalysisRegions`: `regions` is the `std::set<Region>` in ascending order of
`start.sampleCounter`. -/
structure AnalysisRegions (F : Type) where
  regions : List (Region F)
  playbackResults : PlaybackResults F
  refSampleRate : Nat
  regionSize : Int
  regionFrequency : Int
  curTime : TimePoint
  lastKnownPlaybackRegion : PlaybackRegion
  maxRegionAge : Int
  alignment : Alignment
  generateRegions : Bool
deriving DecidableEq, Repr

/-- `maxPendingRegions_`. -/
def maxPendingRegions : Nat := 3

/-- `AnalysisRegions::AnalysisRegions`: reference rate and retention horizon come from the
circular buffer; the other members have their in-class initialisers (`curTime_` is
default-constructed: counter 0, no playhead time, sample rate not initialised, 0 here). -/
def AnalysisRegions.new {F : Type} (bufferSampleRate : Nat)
    (numStoredSamples : Nat) : AnalysisRegions F :=
  { regions := [], playbackResults := PlaybackResults.new,
    refSampleRate := bufferSampleRate, regionSize := 16000 * 5,
    regionFrequency := (16000 * 5) / 2, curTime := ⟨0, 0, none⟩,
    lastKnownPlaybackRegion := ⟨none, none⟩, maxRegionAge := numStoredSamples,
    alignment := Alignment.TIME_ZERO, generateRegions := true }

/-- `regions_.emplace(...)`: ordered insertion keyed by `start.sampleCounter`; the flag
tells whether the region went in (no region with that start was there). -/
def regionsEmplace {F : Type} (r : Region F) : List (Region F) → List (Region F) × Bool
  | [] => ([r], true)
  | x :: xs =>
    if r.start.sampleCounter < x.start.sampleCounter then (r :: x :: xs, true)
    else if x.start.sampleCounter < r.start.sampleCounter then
      ((x :: (regionsEmplace r xs).1), (regionsEmplace r xs).2)
    else (x :: xs, false)

/-- `AnalysisRegions::getLastAddedRegionSampleCounters`. -/
def AnalysisRegions.getLastAddedRegionSampleCounters {F : Type} (a : AnalysisRegions F) :
    Option (Int × Int) :=
  a.regions.getLast?.map (fun r => (r.start.sampleCounter, r.end_.sampleCounter))

/-- The playback tagging block of `addNewRegion`: the flags `wasDuringPlayback`,
`startedDuringPlayback`, `endedDuringPlayback` for a region with the given start and end
counters, when the window has start `playheadSyncStart`. -/
def playbackFlags (playheadSyncStart : PlaybackTimePoint)
    (windowEnd : Option PlaybackTimePoint) (startCounter endCounter : Int) :
    Bool × Bool × Bool :=
  match windowEnd with
  | some playheadSyncEnd =>
    if startCounter < playheadSyncEnd.sampleCounter ∧
        endCounter > playheadSyncStart.sampleCounter then
      (true,
       decide (startCounter ≥ playheadSyncStart.sampleCounter ∧
               startCounter < playheadSyncEnd.sampleCounter),
       decide (endCounter > playheadSyncStart.sampleCounter ∧
               endCounter ≤ playheadSyncEnd.sampleCounter))
    else (false, false, false)
  | none =>
    if endCounter > playheadSyncStart.sampleCounter then
      (true, decide (startCounter ≥ playheadSyncStart.sampleCounter), true)
    else (false, false, false)

/-- The start and end time points and the `wasDuringPlayback` flag `addNewRegion` gives a
region starting at `startTime`. -/
def AnalysisRegions.taggedEdges {F : Type} (a : AnalysisRegions F) (startTime : Int) :
    TimePoint × TimePoint × Bool :=
  let nextRegionStartTime : TimePoint := ⟨a.refSampleRate, startTime, none⟩
  let nextRegionEndTime := nextRegionStartTime.addDelta a.regionSize
  match a.lastKnownPlaybackRegion.start with
  | none => (nextRegionStartTime, nextRegionEndTime, false)
  | some playheadSyncStart =>
    let playheadDelta := playheadSyncStart.sampleCounter - playheadSyncStart.playheadTime
    let flags := playbackFlags playheadSyncStart a.lastKnownPlaybackRegion.end_
      nextRegionStartTime.sampleCounter nextRegionEndTime.sampleCounter
    ({ nextRegionStartTime with
        playheadTime :=
          if flags.2.1 then some (nextRegionStartTime.sampleCounter - playheadDelta)
          else none },
     { nextRegionEndTime with
        playheadTime :=
          if flags.2.2 then some (nextRegionEndTime.sampleCounter - playheadDelta)
          else none },
     flags.1)

/-- `AnalysisRegions::addNewRegion`: the returned flag and the state afterwards; `none`
when `setConfigFromRegion` divides by a zero `regionFrequency_`. -/
def AnalysisRegions.addNewRegion {F : Type} [Zero F] (a : AnalysisRegions F)
    (startTime : Int) : Option (Bool × AnalysisRegions F) :=
  if startTime + a.regionSize ≥ a.curTime.sampleCounter then some (false, a)
  else
    let edges := a.taggedEdges startTime
    let nextRegionStartTime := edges.1
    let nextRegionEndTime := edges.2.1
    let nextCount : Nat :=
      match a.regions.getLast? with
      | some r => (r.count + 1) % 65536
      | none => 0
    let empRes := regionsEmplace
      (Region.new nextRegionStartTime nextRegionEndTime nextCount edges.2.2) a.regions
    let playbackResults :=
      match nextRegionStartTime.playheadTime, nextRegionEndTime.playheadTime with
      | some ps, some pe => a.playbackResults.setConfigFromRegion ps pe a.regionFrequency
      | _, _ => some a.playbackResults
    playbackResults.map
      (fun pr => (empRes.2, { a with regions := empRes.1, playbackResults := pr }))

/-- `AnalysisRegions::addNewRegionIfRequired`. -/
def AnalysisRegions.addNewRegionIfRequired {F : Type} [Zero F] (a : AnalysisRegions F) :
    Option (Bool × AnalysisRegions F) :=
  let lastAddedRegionSpan := a.getLastAddedRegionSampleCounters
  let freeRun : Option (Bool × AnalysisRegions F) :=
    let regionStartNow := a.curTime.sampleCounter - a.regionSize - 1
    let nextRegionStart :=
      match lastAddedRegionSpan with
      | some span => span.1 + a.regionFrequency
      | none => if regionStartNow > 0 then regionStartNow else 0
    a.addNewRegion nextRegionStart
  match a.lastKnownPlaybackRegion.start with
  | some playbackSyncStart =>
    if a.alignment ≠ Alignment.NONE ∧ a.curTime.playheadTime.isSome then
      let needsAligning : Bool :=
        match lastAddedRegionSpan with
        | none => true
        | some span => decide (span.1 < playbackSyncStart.sampleCounter)
      if needsAligning then
        match a.alignment with
        | Alignment.PLAYBACK_BEGIN => a.addNewRegion playbackSyncStart.sampleCounter
        | Alignment.TIME_ZERO =>
          match roundUpToAlignmentBoundary playbackSyncStart a.regionFrequency with
          | none => none
          | some nextTimePoint => a.addNewRegion nextTimePoint.sampleCounter
        | Alignment.NONE => some (false, a)
      else freeRun
    else freeRun
  | none => freeRun

/-- `AnalysisRegions::restartRegions`. -/
def AnalysisRegions.restartRegions {F : Type} (a : AnalysisRegions F) : AnalysisRegions F :=
  { a with regions := [] }

/-- `AnalysisRegions::updateAsStale`. -/
def AnalysisRegions.updateAsStale {F : Type} (a : AnalysisRegions F) : AnalysisRegions F :=
  let kept := a.regions.filter (fun region =>
    ¬ (region.analysisState = Region.State.PENDING ∨
       region.analysisState = Region.State.TIMEOUT ∨
       region.analysisState = Region.State.FAILURE))
  { a with regions := kept.map (fun region => { region with stale := true }) }

/-- `AnalysisRegions::abortInProgress`. -/
def AnalysisRegions.abortInProgress {F : Type} (a : AnalysisRegions F) : AnalysisRegions F :=
  { a with regions :=
      a.regions.map (fun region =>
        if region.analysisState = Region.State.IN_PROGRESS then
          { region with analysisState := Region.State.TIMEOUT }
        else region) }

/-- First block of `updateRegions`: erase the regions that start before
`curTime_ - maxRegionAge_`, when that cutoff is not negative. -/
def AnalysisRegions.eraseOldRegions {F : Type} (a : AnalysisRegions F) : List (Region F) :=
  let regionStartCutoff := a.curTime.sampleCounter - a.maxRegionAge
  if regionStartCutoff ≥ 0 then
    a.regions.filter (fun region => ¬ (region.start.sampleCounter < regionStartCutoff))
  else a.regions

/-- Second block of `updateRegions`, on the regions in iteration order (newest first):
send off pending jobs until the channel is not ready. -/
def sendPendingLoop {C F : Type} (comms : ServiceCommunicator C F) (regionSize : Int) :
    List (Region F) → C → List (Region F) × C
  | [], c => ([], c)
  | region :: rest, c =>
    if region.analysisState = Region.State.PENDING then
      if ¬ (comms.readyToSend c).1 then (region :: rest, (comms.readyToSend c).2)
      else
        let res := comms.sendRequest (comms.readyToSend c).2 region.start regionSize
        let next := sendPendingLoop comms regionSize rest res.2
        ((if res.1 then { region with analysisState := Region.State.IN_PROGRESS }
          else region) :: next.1, next.2)
    else
      let next := sendPendingLoop comms regionSize rest c
      (region :: next.1, next.2)

/-- Third block of `updateRegions`, on the regions in iteration order (newest first):
pending regions beyond `maxPendingRegions_` become `TIMEOUT`. -/
def abortPendingLoop {F : Type} : List (Region F) → Nat → List (Region F)
  | [], _ => []
  | region :: rest, pendingCount =>
    if region.analysisState = Region.State.PENDING then
      (if pendingCount + 1 > maxPendingRegions then
          { region with analysisState := Region.State.TIMEOUT }
        else region) :: abortPendingLoop rest (pendingCount + 1)
    else region :: abortPendingLoop rest pendingCount

/-- The update the response loop applies to a region whose start equals the request id. -/
def Region.applyResponse {F : Type} (region : Region F) (resp : Response F) : Region F :=
  if resp.success then
    { region with analysisResult := resp.result, analysisState := Region.State.COMPLETE }
  else { region with analysisState := Region.State.FAILURE }

/-- Last block of `updateRegions`: the loop over the regions (oldest first) for a received
response; `none` when `addResult` fails. -/
def responseLoop {F : Type} (resp : Response F) :
    List (Region F) → PlaybackResults F → Option (List (Region F) × PlaybackResults F)
  | [], pr => some ([], pr)
  | region :: rest, pr =>
    if region.start.sampleCounter = resp.reqId then
      let updated := region.applyResponse resp
      let added :=
        if updated.start.playheadTime.isSome ∧ updated.end_.playheadTime.isSome then
          pr.addResult updated
        else some pr
      match added with
      | none => none
      | some pr1 =>
        match responseLoop resp rest pr1 with
        | none => none
        | some next => some (updated :: next.1, next.2)
    else
      match responseLoop resp rest pr with
      | none => none
      | some next => some (region :: next.1, next.2)

/-- The regions after the first three blocks of `updateRegions` (erase, send, abort), and
the channel state. -/
def AnalysisRegions.dispatched {C F : Type} (comms : ServiceCommunicator C F)
    (a : AnalysisRegions F) (c : C) : List (Region F) × C :=
  let sent := sendPendingLoop comms a.regionSize a.eraseOldRegions.reverse c
  ((abortPendingLoop sent.1 0).reverse, sent.2)

/-- `AnalysisRegions::updateRegions`: one control tick against channel state `c`. -/
def AnalysisRegions.updateRegions {C F : Type} (comms : ServiceCommunicator C F)
    (a : AnalysisRegions F) (c : C) : Option (AnalysisRegions F × C) :=
  let d := a.dispatched comms c
  let polled := comms.getResponse d.2
  match polled.1 with
  | none => some ({ a with regions := d.1 }, polled.2)
  | some resp =>
    match responseLoop resp d.1 a.playbackResults with
    | none => none
    | some res => some ({ a with regions := res.1, playbackResults := res.2 }, polled.2)

/-- `AnalysisRegions::getResults`. -/
def AnalysisRegions.getResults {F : Type} (a : AnalysisRegions F) :
    PlaybackResults.Results F := a.playbackResults.getResults

/-- `AnalysisRegions::getResultsUpdateCount`. -/
def AnalysisRegions.getResultsUpdateCount {F : Type} (a : AnalysisRegions F) : Nat :=
  a.playbackResults.getUpdateCounter

/-- `AnalysisRegions::resetResults`. -/
def AnalysisRegions.resetResults {F : Type} (a : AnalysisRegions F) : AnalysisRegions F :=
  { a with playbackResults := a.playbackResults.clear }

/-! ## AnalysisRegions.cpp: `updateFrom` -/

/-- `PlaybackRegion::asSampleRate`. -/
def PlaybackRegion.asSampleRate (fp : DoubleArith) (r : PlaybackRegion)
    (newSampleRate : Nat) : PlaybackRegion :=
  ⟨r.start.map (fun s => s.asSampleRate fp newSampleRate),
   r.end_.map (fun e => e.asSampleRate fp newSampleRate)⟩

/-- `AnalysisRegions::updateFrom`: the flag `addNewRegionIfRequired` returns is dropped;
the block start time is not used by the source. -/
def AnalysisRegions.updateFrom {F : Type} [Zero F] (fp : DoubleArith) (a : AnalysisRegions F)
    (_blockStartTime curTime : TimePoint) (currentPlaybackRegion : PlaybackRegion) :
    Option (AnalysisRegions F) :=
  let a1 : AnalysisRegions F :=
    { a with curTime := curTime.asSampleRate fp a.refSampleRate,
             lastKnownPlaybackRegion := currentPlaybackRegion.asSampleRate fp a.refSampleRate }
  if a1.generateRegions then a1.addNewRegionIfRequired.map Prod.snd else some a1

/-! ## CircularBuffer.cpp: `Buff` -/

/-- `Buff::PlaybackState`. -/
inductive Buff.PlaybackState where
  | IDLE
  | JUST_STARTED
  | PLAYING
  | JUST_STOPPED
deriving DecidableEq, Repr

/-- What one call of `interp_.process` does. The interpolator is a JUCE class and not part
of this repository: the output sample at each index and the number of input samples it says
it consumed are given. -/
structure InterpolatorResult (F : Type) where
  output : Nat → F
  samplesConsumed : Int

/-- The members of `Buff` that outlive a call of `updateFrom`; the vectors
`latestBlockForResampling_` and `latestResampledBlock_` are rebuilt in every call. The
`double` arithmetic of `Buff` is that of `binary64`. -/
structure Buff (F : Type) where
  analysisRegions : AnalysisRegions F
  circBuff : MonoCircularBuffer F
  srcSampleRate : Nat
  downsampleRatio : ℚ
  buffSampleRate : Nat
  playbackState : Buff.PlaybackState
  lastUpdateEndPlayheadTime : Option Int
  playbackRegion : PlaybackRegion
  unconsumedSamples : List F
  interpPrimingSamples : Option Nat

/-- The constructor `Buff::Buff` for a given circular buffer (the reserved capacities of
the vectors are not modelled). -/
def Buff.withBuffer {F : Type} (srcSampleRate targetSampleRate : Nat)
    (circBuff : MonoCircularBuffer F) : Buff F :=
  { analysisRegions :=
      AnalysisRegions.new circBuff.getSampleRate circBuff.getNumStoredSamples,
    circBuff := circBuff,
    srcSampleRate := srcSampleRate,
    downsampleRatio := binary64.ratio srcSampleRate targetSampleRate,
    buffSampleRate := targetSampleRate,
    playbackState := Buff.PlaybackState.IDLE,
    lastUpdateEndPlayheadTime := none,
    playbackRegion := ⟨none, none⟩,
    unconsumedSamples := [],
    interpPrimingSamples := none }

/-- `Buff::Buff`: the circular buffer is `MonoCircularBuffer(1200000, targetSampleRate)`. -/
def Buff.new {F : Type} [Zero F] (srcSampleRate targetSampleRate : Nat) : Buff F :=
  Buff.withBuffer srcSampleRate targetSampleRate
    (MonoCircularBuffer.new 1200000 targetSampleRate)

/-- `Buff::justStopped`. -/
def Buff.justStopped {F : Type} (b : Buff F) : Buff F :=
  { b with playbackState := Buff.PlaybackState.JUST_STOPPED }

/-- First block of `Buff::updateFrom`: the playback window and
`lastUpdateEndPlayheadTime_` for a block of `numSamples` samples starting at `startTime`.
`none`: `.value()` on the missing playhead time of the first block after `justStarted`. -/
def Buff.trackPlayback {F : Type} (b : Buff F) (startTime : TimePoint)
    (numSamples : Int) : Option (Buff F) :=
  let tracked : Option PlaybackRegion :=
    match b.playbackState with
    | Buff.PlaybackState.JUST_STARTED =>
      match startTime.playheadTime with
      | none => none
      | some playheadTime =>
        some ⟨some ⟨startTime.sampleRate, startTime.sampleCounter, playheadTime⟩, none⟩
    | Buff.PlaybackState.JUST_STOPPED =>
      match b.playbackRegion.start with
      | some start =>
        let delta := startTime.sampleCounter - start.sampleCounter
        some { b.playbackRegion with
          end_ := some ⟨startTime.sampleRate, startTime.sampleCounter + numSamples,
            start.sampleCounter + delta⟩ }
      | none => some { b.playbackRegion with end_ := none }
    | Buff.PlaybackState.PLAYING =>
      match b.lastUpdateEndPlayheadTime, startTime.playheadTime with
      | some lastEnd, some playheadTime =>
        if lastEnd ≠ playheadTime then
          some ⟨some ⟨startTime.sampleRate, startTime.sampleCounter, playheadTime⟩, none⟩
        else some { b.playbackRegion with end_ := none }
      | _, _ => some { b.playbackRegion with end_ := none }
    | Buff.PlaybackState.IDLE => some b.playbackRegion
  tracked.map (fun region =>
    { b with playbackRegion := region,
             lastUpdateEndPlayheadTime := startTime.playheadTime.map (fun p => p + numSamples) })

/-- The `double` product `static_cast<int>(x * q)` of `Buff::updateFrom` in binary64. -/
def binary64Product (x : Int) (q : ℚ) : Int := truncate (toDouble (toDouble x * q))

/-- Second block of `Buff::updateFrom`: resampling. `mono` holds the mono samples of the
incoming block (the downmix is `float` arithmetic and is taken as given), `interp` is what
`interp_.process` does with an input block and a number of output samples. The result is
the state with the new unconsumed samples and priming count, the resampled block and its
start time. The difference `unconsumedSamples_.size() - interpPrimingSamples_` is formed in
`size_t` and converted to `int64_t`, which gives the signed difference. `none`: the
interpolator reports a count outside the block, so that the iterator range of the
unconsumed samples is out of range. -/
def Buff.resample {F : Type} (b : Buff F)
    (interp : List F → Nat → InterpolatorResult F) (mono : List F) (startTime : TimePoint) :
    Option (Buff F × List F × TimePoint) :=
  let latestBlockForResampling := b.unconsumedSamples ++ mono
  let requiredSamples : Int :=
    binary64.scaleCounter latestBlockForResampling.length b.downsampleRatio
  let processed := interp latestBlockForResampling requiredSamples.toNat
  let latestResampledBlock := (List.range requiredSamples.toNat).map processed.output
  let samplesConsumed := processed.samplesConsumed
  let interpPrimingSamples : Nat :=
    match b.interpPrimingSamples with
    | some primed => primed
    | none =>
      let expectedSamplesConsumed := binary64Product requiredSamples b.downsampleRatio
      ((expectedSamplesConsumed - samplesConsumed) % 256).toNat
  let latestBlockForResamplingStartTime :=
    startTime.subDelta ((b.unconsumedSamples.length : Int) - interpPrimingSamples)
  let latestResampledBlockStartTime :=
    latestBlockForResamplingStartTime.div binary64 b.downsampleRatio
  if samplesConsumed < 0 ∨ samplesConsumed > latestBlockForResampling.length then none
  else
    some ({ b with
        unconsumedSamples := latestBlockForResampling.drop samplesConsumed.toNat,
        interpPrimingSamples := some interpPrimingSamples },
      latestResampledBlock, latestResampledBlockStartTime)

/-- Last block of `Buff::updateFrom`: the playback state after the call. -/
def Buff.PlaybackState.next : Buff.PlaybackState → Buff.PlaybackState
  | Buff.PlaybackState.JUST_STARTED => Buff.PlaybackState.PLAYING
  | Buff.PlaybackState.JUST_STOPPED => Buff.PlaybackState.IDLE
  | s => s

/-- `Buff::updateFrom`. -/
def Buff.updateFrom {F : Type} [Zero F] (b : Buff F)
    (interp : List F → Nat → InterpolatorResult F) (mono : List F) (startTime : TimePoint) :
    Option (Buff F) :=
  match b.trackPlayback startTime mono.length with
  | none => none
  | some tracked =>
    match tracked.resample interp mono startTime with
    | none => none
    | some resampled =>
      let latestResampledBlock := resampled.2.1
      let latestResampledBlockStartTime := resampled.2.2
      let circBuff :=
        resampled.1.circBuff.updateFrom latestResampledBlock latestResampledBlockStartTime
      match resampled.1.analysisRegions.updateFrom binary64 latestResampledBlockStartTime
          ((latestResampledBlockStartTime.addDelta latestResampledBlock.length).subDelta 1)
          resampled.1.playbackRegion with
      | none => none
      | some regions =>
        some { resampled.1 with
          circBuff := circBuff, analysisRegions := regions,
          playbackState := resampled.1.playbackState.next }

/-! ## Runs of `Buff` (specification side) -/

/-- The resampling block of `Buff::updateFrom` for a whole ratio `m` (source rate `m * r`,
buffer rate `r`) written with integer arithmetic: what `Buff.resample` computes as long as
the numbers are exact in `double` (specification side). -/
def Buff.resampleExact {F : Type} (m r : Nat) (b : Buff F)
    (interp : List F → Nat → InterpolatorResult F) (mono : List F) (startTime : TimePoint) :
    Option (Buff F × List F × TimePoint) :=
  let block := b.unconsumedSamples ++ mono
  let required : Nat := block.length / m
  let processed := interp block required
  let priming : Nat :=
    match b.interpPrimingSamples with
    | some primed => primed
    | none => ((((required * m : Nat) : Int) - processed.samplesConsumed) % 256).toNat
  let delta : Int := (b.unconsumedSamples.length : Int) - priming
  if processed.samplesConsumed < 0 ∨ processed.samplesConsumed > block.length then none
  else
    some ({ b with
        unconsumedSamples := block.drop processed.samplesConsumed.toNat,
        interpPrimingSamples := some priming },
      (List.range required).map processed.output,
      ⟨r, Int.tdiv (startTime.sampleCounter - delta) m,
        startTime.playheadTime.map (fun p => Int.tdiv (p - delta) m)⟩)

/-- The interpolator as the resampling claim describes it: it consumes the number of output
samples times `ratio` input samples, less `priming` samples when `first` is set. The output
samples are zero. -/
def primedInterpolator (ratio priming : Nat) (first : Bool) :
    List Int → Nat → InterpolatorResult Int :=
  fun _ numOutputSamplesToProduce =>
    ⟨fun _ => 0, (numOutputSamplesToProduce * ratio : Nat) - (if first then priming else 0)⟩

/-! ## Append histories (specification side) -/

/-- The writes of one `updateFrom` call from source index `s` on: each sample with the
time point `recordWrite` is given for it. -/
def chunkLog {F : Type} : List F → Nat → TimePoint → List (TimePoint × F)
  | [], _, _ => []
  | x :: xs, s, startTime => (startTime.addDelta s, x) :: chunkLog xs (s + 1) startTime

/-- All writes of a sequence of `updateFrom` calls, oldest first. -/
def appendLog {F : Type} : List (List F × TimePoint) → List (TimePoint × F)
  | [] => []
  | chunk :: rest => chunkLog chunk.1 0 chunk.2 ++ appendLog rest

/-- A sequence of `updateFrom` calls. -/
def MonoCircularBuffer.appendAll {F : Type} (b : MonoCircularBuffer F) :
    List (List F × TimePoint) → MonoCircularBuffer F
  | [] => b
  | chunk :: rest => (b.updateFrom chunk.1 chunk.2).appendAll rest

/-- Sample-sequential appends: every write is at the transport position after the one
before (what `recordWrite` asserts). -/
def SampleSequential {F : Type} (log : List (TimePoint × F)) : Prop :=
  List.Chain' (fun e e' => e'.1.sampleCounter = e.1.sampleCounter + 1) log

/-- The last `k` appended samples in their original order, zero-padded at the front when
fewer than `k` were written. -/
def lastSamples {F : Type} [Zero F] (log : List (TimePoint × F)) (k : Nat) : List F :=
  List.replicate (k - log.length) 0 ++ (log.map Prod.snd).drop (log.length - k)

/-- Representation invariant of the ring after the writes `log` (oldest first) into a
buffer of `N` slots: the slot `u % N` holds write number `u - N` for every `u` in
`[log.length, log.length + N)`, and zero when that write does not exist. -/
structure RingInv {F : Type} [Zero F] (b : MonoCircularBuffer F) (N : Nat)
    (log : List (TimePoint × F)) : Prop where
  len : b.buffer.length = N
  limit : b.writeTracker.positionLimit = N
  written : b.writeTracker.haveWritten = !log.isEmpty
  pos : b.writeTracker.latestPosition = (log.length - 1) % N
  content : ∀ u, log.length ≤ u → u < log.length + N →
    b.buffer.getD (u % N) 0 = if N ≤ u then (log.map Prod.snd).getD (u - N) 0 else 0
  time : ∀ e ∈ log.getLast?, b.writeTracker.latestDataEnd = e.1

/-! ## Scheduler runs (specification side) -/

/-- Number of `PENDING` regions in a list. -/
def pendingCount {F : Type} (l : List (Region F)) : Nat :=
  l.countP (fun region => decide (region.analysisState = Region.State.PENDING))

/-- A channel that accepts exactly one send: `readyToSend` is true until one `sendRequest`
has succeeded, then false. The channel state tells whether a send has been accepted;
`resp` is what `getResponse` answers. -/
def oneSendChannel {F : Type} (resp : Option (Response F)) : ServiceCommunicator Bool F :=
  { readyToSend := fun sent => (!sent, sent),
    sendRequest := fun sent _ _ => (!sent, true),
    getResponse := fun sent => (resp, sent) }

/-- State changes made by dispatch, the pending cap and `abortInProgress`:
`PENDING → IN_PROGRESS`, `PENDING → TIMEOUT`, `IN_PROGRESS → TIMEOUT`, or none. -/
def Region.State.advances : Region.State → Region.State → Bool
  | Region.State.PENDING, Region.State.IN_PROGRESS => true
  | Region.State.PENDING, Region.State.TIMEOUT => true
  | Region.State.IN_PROGRESS, Region.State.TIMEOUT => true
  | s, s' => decide (s = s')

/-- State changes of a region over scheduler operations: those of `advances`, or any
state to `COMPLETE` or `FAILURE` (what a matching response does). -/
def Region.State.mayBecome (s s' : Region.State) : Bool :=
  s.advances s' || decide (s' = Region.State.COMPLETE) || decide (s' = Region.State.FAILURE)

/-- The scheduler operations that change region states. -/
inductive SchedulerOp where
  | updateRegions
  | abortInProgress
  | updateAsStale
deriving DecidableEq, Repr

/-- One scheduler operation on the scheduler and channel state. -/
def AnalysisRegions.applyOp {C F : Type} (comms : ServiceCommunicator C F) (op : SchedulerOp)
    (st : AnalysisRegions F × C) : Option (AnalysisRegions F × C) :=
  match op with
  | SchedulerOp.updateRegions => st.1.updateRegions comms st.2
  | SchedulerOp.abortInProgress => some (st.1.abortInProgress, st.2)
  | SchedulerOp.updateAsStale => some (st.1.updateAsStale, st.2)

/-- A sequence of scheduler operations. -/
def AnalysisRegions.applyOps {C F : Type} (comms : ServiceCommunicator C F) :
    List SchedulerOp → AnalysisRegions F × C → Option (AnalysisRegions F × C)
  | [], st => some st
  | op :: ops, st =>
    match AnalysisRegions.applyOp comms op st with
    | none => none
    | some st' => applyOps comms ops st'

/-- Every region of `new` is a region of `old` (same start and end) whose state has
changed along `R`. -/
def RegionsEvolve {F : Type} (R : Region.State → Region.State → Bool)
    (old new : List (Region F)) : Prop :=
  ∀ x' ∈ new, ∃ x ∈ old, x'.start = x.start ∧ x'.end_ = x.end_ ∧
    R x.analysisState x'.analysisState = true

/-! ## Aggregator runs (specification side) -/

/-- The operations that change a `PlaybackResults`. -/
inductive PlaybackResults.Op (F : Type) where
  | addResult (resultantRegion : Region F)
  | setConfig (alignmentOffset regionSize regionFrequency : Int)
  | setConfigFromRegion (aligningRegionStart aligningRegionEnd regionFrequency : Int)
  | clear

/-- One operation on the aggregator. -/
def PlaybackResults.applyOp {F : Type} (pr : PlaybackResults F) :
    PlaybackResults.Op F → Option (PlaybackResults F)
  | PlaybackResults.Op.addResult r => pr.addResult r
  | PlaybackResults.Op.setConfig o sz f => some (pr.setConfig o sz f)
  | PlaybackResults.Op.setConfigFromRegion st en f => pr.setConfigFromRegion st en f
  | PlaybackResults.Op.clear => some pr.clear

/-- A sequence of operations on the aggregator, first operation first. -/
def PlaybackResults.applyOps {F : Type} :
    List (PlaybackResults.Op F) → PlaybackResults F → Option (PlaybackResults F)
  | [], pr => some pr
  | op :: ops, pr =>
    match pr.applyOp op with
    | none => none
    | some pr' => applyOps ops pr'

/-- The regions stored in the aggregator lie on the configured alignment phase: each is
stored under (start transport - playhead start, playhead start), has the configured size
and the configured alignment offset; the outer keys are in ascending order and the derived
sets hold exactly the outer and the inner keys of the map. -/
structure PlaybackResults.OnePhase {F : Type} (pr : PlaybackResults F) : Prop where
  stored : ∀ off inner ps r, (off, inner) ∈ pr.results.regions → (ps, r) ∈ inner →
    r.end_.sampleCounter - r.start.sampleCounter = pr.regionSize ∧
    r.start.playheadTime = some ps ∧
    calcPlaybackAlignmentOffsetFromZero ps pr.regionFrequency = some pr.alignmentOffset ∧
    off = r.start.sampleCounter - ps
  ascending : (pr.results.regions.map Prod.fst).Pairwise (fun x y => x < y)
  offsets : ∀ off, off ∈ pr.results.playthroughOffsets ↔
    off ∈ pr.results.regions.map Prod.fst
  startTimes : ∀ ps, ps ∈ pr.results.playheadStartTimes ↔
    ∃ off inner, (off, inner) ∈ pr.results.regions ∧ ps ∈ inner.map Prod.fst

/-! ## Concrete scenarios -/

/-- An aggregator configured for offset 0, region size 10, region frequency 5. -/
def configuredResults : PlaybackResults Int := PlaybackResults.new.setConfig 0 10 5

/-- A completed region `[100, 110)` with playhead times 0 and 10, result 7. -/
def alignedRegion : Region Int :=
  ⟨⟨16000, 100, some 0⟩, ⟨16000, 110, some 10⟩, 0, true, Region.State.COMPLETE, false, 7⟩

/-- A scheduler with no region yet, region size 50 and region frequency 10, at transport
position 2000 while playing: the playback window started at transport position 1000 with
playhead time 7 and is still open. -/
def playingScheduler (alignment : Alignment) : AnalysisRegions Int :=
  { (AnalysisRegions.new 16000 1000000 : AnalysisRegions Int) with
    regionSize := 50, regionFrequency := 10, alignment := alignment,
    curTime := ⟨16000, 2000, some 1007⟩,
    lastKnownPlaybackRegion := ⟨some ⟨16000, 1000, 7⟩, none⟩ }

/-- The same scheduler after playback stopped at transport position 1500: the window is
closed and the current time carries no playhead time. -/
def stoppedScheduler (alignment : Alignment) : AnalysisRegions Int :=
  { playingScheduler alignment with
    curTime := ⟨16000, 2000, none⟩,
    lastKnownPlaybackRegion := ⟨some ⟨16000, 1000, 7⟩, some ⟨16000, 1500, 507⟩⟩ }

/-- The playing scheduler with a playback window that closed at transport position 1002,
before the first boundary. -/
def shortWindowScheduler (alignment : Alignment) : AnalysisRegions Int :=
  { playingScheduler alignment with
    lastKnownPlaybackRegion := ⟨some ⟨16000, 1000, 7⟩, some ⟨16000, 1002, 9⟩⟩ }

/-- The transport start positions and start playhead times of the regions of a scheduler
state. -/
def regionStarts {F : Type} (a : AnalysisRegions F) : List (Int × Option Int) :=
  a.regions.map (fun r => (r.start.sampleCounter, r.start.playheadTime))

/-- A `PENDING` region `[start, start + 50)` without playhead times. -/
def pendingRegion (start : Int) (count : Nat) : Region Int :=
  Region.new ⟨16000, start, none⟩ ⟨16000, start + 50, none⟩ count false

/-- A scheduler at transport position 2000 holding the given regions (region size 50,
retention 1000000 samples). -/
def schedulerWith (regions : List (Region Int)) : AnalysisRegions Int :=
  { (AnalysisRegions.new 16000 1000000 : AnalysisRegions Int) with
    regionSize := 50, regionFrequency := 10, curTime := ⟨16000, 2000, none⟩,
    regions := regions }

/-- Five `PENDING` regions starting at 100, 110, 120, 130 and 140. -/
def fivePending : AnalysisRegions Int :=
  schedulerWith [pendingRegion 100 0, pendingRegion 110 1, pendingRegion 120 2,
    pendingRegion 130 3, pendingRegion 140 4]

/-- One region starting at 100 that has timed out. -/
def oneTimedOut : AnalysisRegions Int :=
  schedulerWith [{ pendingRegion 100 0 with analysisState := Region.State.TIMEOUT }]

/-- A channel that is never ready to send and answers `resp` when polled. -/
def deafChannel (resp : Option (Response Int)) : ServiceCommunicator Unit Int :=
  { readyToSend := fun c => (false, c),
    sendRequest := fun c _ _ => (true, c),
    getResponse := fun c => (resp, c) }

/-- A channel that is always ready, accepts every send and has no response. -/
def acceptingChannel : ServiceCommunicator Unit Int :=
  { readyToSend := fun c => (true, c),
    sendRequest := fun c _ _ => (true, c),
    getResponse := fun c => (none, c) }

/-- The start positions and states of the regions of a scheduler state. -/
def regionStates {F : Type} (a : AnalysisRegions F) : List (Int × Region.State) :=
  a.regions.map (fun r => (r.start.sampleCounter, r.analysisState))

/-- A scheduler whose aggregator is configured for offset 0, size 50 and frequency 10, with
an `IN_PROGRESS` region `[100, 150)` carrying playhead times 0 and 50 and a `PENDING`
region `[110, 160)` without playhead times. -/
def awaitingScheduler : AnalysisRegions Int :=
  { schedulerWith
      [{ Region.new ⟨16000, 100, some 0⟩ ⟨16000, 150, some 50⟩ 0 true with
          analysisState := Region.State.IN_PROGRESS },
       pendingRegion 110 1] with
    playbackResults := PlaybackResults.new.setConfig 0 50 10 }

/-- A ring of capacity 4 holding the samples 1, 2, 3 of transport positions 0, 1, 2. -/
def threeSamples : MonoCircularBuffer Int :=
  (MonoCircularBuffer.ofLength 4 16000 : MonoCircularBuffer Int).appendAll
    [([1, 2, 3], ⟨16000, 0, none⟩)]

/-- A socket that takes every message. -/
def openSocket : Int × List Int → SendOutcome := fun _ => SendOutcome.sent

/-- A region `[99, 109)` of transport positions with playhead times -1 and 9: it started
one sample before playhead time zero. -/
def prerollRegion : Region Int :=
  ⟨⟨16000, 99, some (-1)⟩, ⟨16000, 109, some 9⟩, 0, true, Region.State.COMPLETE, false, 7⟩

/-- The start positions and sequence counts of the regions of a scheduler state. -/
def regionCounts {F : Type} (a : AnalysisRegions F) : List (Int × Nat) :=
  a.regions.map (fun r => (r.start.sampleCounter, r.count))

/-- A `Buff` from 48000 Hz to 16000 Hz (ratio 3) with a circular buffer of 8 samples, as
constructed. -/
def resampler48k : Buff Int :=
  Buff.withBuffer 48000 16000 (MonoCircularBuffer.ofLength 8 16000)

/-- The same `Buff` after its first block: two unconsumed samples and a priming count
of 2. -/
def resampler48kPrimed : Buff Int :=
  { resampler48k with unconsumedSamples := [0, 0], interpPrimingSamples := some 2 }

/-- The primed `Buff` while playing: the window started at transport position 1000 with
playhead time 7, and the previous block ended at playhead time 100. -/
def playingBuff : Buff Int :=
  { resampler48kPrimed with
    playbackState := Buff.PlaybackState.PLAYING,
    lastUpdateEndPlayheadTime := some 100,
    playbackRegion := ⟨some ⟨48000, 1000, 7⟩, none⟩ }

/-! # Theorems -/

/-! ## Circular buffer -/

theorem next_pos_mod (w N : Nat) (hw : 0 < w) (hN : 0 < N) :
    (if N ≠ 0 ∧ (w - 1) % N + 1 ≥ N then 0 else (w - 1) % N + 1) = w % N := by
  have hr : (w - 1) % N < N := Nat.mod_lt _ hN
  have hw1 : w = (w - 1) + 1 := by omega
  have key : w % N = ((w - 1) % N + 1) % N := by
    conv_lhs => rw [hw1]
    exact (Nat.mod_add_mod (w - 1) N 1).symm
  rw [key]
  by_cases h : (w - 1) % N + 1 ≥ N
  · have h2 : (w - 1) % N + 1 = N := by omega
    rw [if_pos ⟨by omega, h⟩, h2, Nat.mod_self]
  · rw [if_neg (fun hh => h hh.2), Nat.mod_eq_of_lt (show (w - 1) % N + 1 < N by omega)]

theorem prev_pos_mod (u N : Nat) (hu : 0 < u) (hN : 0 < N) :
    (if u % N = 0 then N - 1 else u % N - 1) = (u - 1) % N := by
  have hr : u % N < N := Nat.mod_lt _ hN
  have e1 : (u - 1) % N = (u % N + (N - 1)) % N := by
    rw [Nat.mod_add_mod, ← Nat.add_mod_right (u - 1) N]
    congr 1; omega
  rw [e1]
  by_cases h : u % N = 0
  · rw [if_pos h, h, Nat.zero_add, Nat.mod_eq_of_lt (show N - 1 < N by omega)]
  · rw [if_neg h]
    have : u % N + (N - 1) = (u % N - 1) + N := by omega
    rw [this, Nat.add_mod_right, Nat.mod_eq_of_lt (show u % N - 1 < N by omega)]

theorem mod_ne_of_between (w u N : Nat) (h1 : w < u) (h2 : u < w + N) : u % N ≠ w % N := by
  intro h
  have hd : N ∣ u - w := (Nat.modEq_iff_dvd' (le_of_lt h1)).mp h.symm
  have := Nat.le_of_dvd (by omega) hd
  omega

theorem ringInv_ofLength {F : Type} [Zero F] (N : Nat) (rate : Nat) :
    RingInv (MonoCircularBuffer.ofLength N rate : MonoCircularBuffer F) N [] := by
  refine ⟨by simp [MonoCircularBuffer.ofLength], rfl, rfl, by simp [MonoCircularBuffer.ofLength, WriteTracker.new], ?_, by simp⟩
  intro u _ hu
  simp only [List.length_nil, Nat.zero_add] at hu
  have : ¬ N ≤ u := by omega
  simp [MonoCircularBuffer.ofLength, this, List.getD_eq_getElem?_getD, List.getElem?_replicate]
  split <;> rfl

theorem getNextWritePosition_of_ringInv {F : Type} [Zero F] {b : MonoCircularBuffer F} {N : Nat}
    {log : List (TimePoint × F)} (h : RingInv b N log) (hN : 0 < N) :
    b.writeTracker.getNextWritePosition = log.length % N := by
  unfold WriteTracker.getNextWritePosition
  rw [h.written, h.pos, h.limit]
  cases log with
  | nil => simp
  | cons e es =>
    simp only [List.isEmpty_cons, Bool.not_false, not_true_eq_false, if_false]
    exact next_pos_mod _ N (by simp) hN

theorem ringInv_writeSample {F : Type} [Zero F] {b : MonoCircularBuffer F} {N : Nat}
    {log : List (TimePoint × F)} (h : RingInv b N log) (hN : 0 < N) (x : F)
    (startTime : TimePoint) (s : Nat) :
    RingInv (b.writeSample x startTime s) N (log ++ [(startTime.addDelta s, x)]) := by
  have hnext := getNextWritePosition_of_ringInv h hN
  refine ⟨?_, ?_, ?_, ?_, ?_, ?_⟩
  · simp [MonoCircularBuffer.writeSample, h.len]
  · simp [MonoCircularBuffer.writeSample, WriteTracker.recordWrite, h.limit]
  · simp [MonoCircularBuffer.writeSample, WriteTracker.recordWrite]
  · simp only [MonoCircularBuffer.writeSample, WriteTracker.recordWrite, List.length_append,
      List.length_singleton, Nat.add_sub_cancel]
    rw [h.written, h.pos, h.limit]
    cases log with
    | nil => simp
    | cons e es =>
      simp only [List.isEmpty_cons, Bool.not_false, if_true]
      exact next_pos_mod _ N (by simp) hN
  · intro u hu1 hu2
    simp only [List.length_append, List.length_singleton] at hu1 hu2
    simp only [MonoCircularBuffer.writeSample, hnext]
    have hlen : log.length % N < b.buffer.length := by rw [h.len]; exact Nat.mod_lt _ hN
    by_cases hu : u = log.length + N
    · subst hu
      have hNle : N ≤ log.length + N := by omega
      rw [if_pos hNle, Nat.add_mod_right, Nat.add_sub_cancel]
      simp [List.getD_eq_getElem?_getD, List.getElem?_set, hlen]
    · have hne : u % N ≠ log.length % N := mod_ne_of_between _ _ _ (by omega) (by omega)
      have hold := h.content u (by omega) (by omega)
      rw [List.getD_eq_getElem?_getD, List.getElem?_set_ne (Ne.symm hne),
        ← List.getD_eq_getElem?_getD, hold]
      by_cases hNu : N ≤ u
      · simp only [if_pos hNu, List.map_append, List.getD_eq_getElem?_getD]
        rw [List.getElem?_append_left (by simp; omega)]
      · simp only [if_neg hNu]
  · intro e he
    simp only [List.getLast?_concat, Option.mem_def, Option.some.injEq] at he
    subst he
    simp [MonoCircularBuffer.writeSample, WriteTracker.recordWrite]

theorem ringInv_updateFromLoop {F : Type} [Zero F] {N : Nat} (hN : 0 < N) (startTime : TimePoint) :
    ∀ (src : List F) (s : Nat) (b : MonoCircularBuffer F) (log : List (TimePoint × F)),
      RingInv b N log →
      RingInv (MonoCircularBuffer.updateFromLoop src s startTime b) N
        (log ++ chunkLog src s startTime) := by
  intro src
  induction src with
  | nil => intro s b log h; simpa [MonoCircularBuffer.updateFromLoop, chunkLog] using h
  | cons x xs ih =>
    intro s b log h
    have h1 := ringInv_writeSample h hN x startTime s
    have h2 := ih (s + 1) _ _ h1
    simpa [MonoCircularBuffer.updateFromLoop, chunkLog, List.append_assoc] using h2

theorem ringInv_appendAll {F : Type} [Zero F] {N : Nat} (hN : 0 < N) :
    ∀ (chunks : List (List F × TimePoint)) (b : MonoCircularBuffer F)
      (log : List (TimePoint × F)),
      RingInv b N log → RingInv (b.appendAll chunks) N (log ++ appendLog chunks) := by
  intro chunks
  induction chunks with
  | nil => intro b log h; simpa [MonoCircularBuffer.appendAll, appendLog] using h
  | cons c cs ih =>
    intro b log h
    have h1 := ringInv_updateFromLoop hN c.2 c.1 0 b log h
    have h2 := ih _ _ h1
    simpa [MonoCircularBuffer.appendAll, MonoCircularBuffer.updateFrom, appendLog,
      List.append_assoc] using h2

theorem getLatestSamplesLoop_length {F : Type} [Zero F] (buffer : List F) :
    ∀ (n readPos : Nat) (dst : List F),
      (MonoCircularBuffer.getLatestSamplesLoop buffer n readPos dst).length = dst.length := by
  intro n
  induction n with
  | zero => intro r dst; rfl
  | succ m ih =>
    intro r dst
    simp [MonoCircularBuffer.getLatestSamplesLoop, ih]

theorem getLatestSamplesLoop_getD {F : Type} [Zero F] {b : MonoCircularBuffer F} {N : Nat}
    {log : List (TimePoint × F)} (h : RingInv b N log) (hN : 0 < N) :
    ∀ (n u readPos : Nat) (dst : List F),
      n ≤ dst.length → log.length + n ≤ u + 1 → u < log.length + N →
      (0 < n → readPos = u % N) →
      ∀ i, i < dst.length →
        (MonoCircularBuffer.getLatestSamplesLoop b.buffer n readPos dst).getD i 0 =
          if i < n then
            (if N ≤ u + 1 + i - n then (log.map Prod.snd).getD (u + 1 + i - n - N) 0 else 0)
          else dst.getD i 0 := by
  intro n
  induction n with
  | zero =>
    intro u r dst _ _ _ _ i _
    simp [MonoCircularBuffer.getLatestSamplesLoop]
  | succ m ih =>
    intro u r dst hn hu1 hu2 hr i hi
    have hr0 : r = u % N := hr (Nat.succ_pos m)
    simp only [MonoCircularBuffer.getLatestSamplesLoop]
    have hstep := ih (u - 1) (if r = 0 then b.buffer.length - 1 else r - 1)
      (dst.set m (b.buffer.getD r 0)) (by simp; omega) (by omega) (by omega)
      (by
        intro hm
        rw [hr0, h.len]
        exact prev_pos_mod u N (by omega) hN)
      i (by simpa using hi)
    rw [hstep]
    by_cases h1 : i < m
    · have h2 : i < m + 1 := by omega
      have e : u - 1 + 1 + i - m = u + 1 + i - (m + 1) := by omega
      simp only [if_pos h1, if_pos h2, e]
    · rw [if_neg h1]
      by_cases h3 : i = m
      · subst h3
        have hc := h.content u (by omega) hu2
        rw [hr0] at *
        have e : u + 1 + i - (i + 1) = u := by omega
        simp only [if_pos (Nat.lt_succ_self i), e]
        rw [List.getD_eq_getElem?_getD, List.getElem?_set_self (by omega)]
        simpa using hc
      · have h2 : ¬ i < m + 1 := by omega
        rw [if_neg h2, List.getD_eq_getElem?_getD, List.getElem?_set_ne (Ne.symm h3),
          ← List.getD_eq_getElem?_getD]

theorem lastSamples_length {F : Type} [Zero F] (log : List (TimePoint × F)) (k : Nat) :
    (lastSamples log k).length = k := by
  simp [lastSamples]; omega

theorem lastSamples_getD {F : Type} [Zero F] (log : List (TimePoint × F)) (k i : Nat) :
    (lastSamples log k).getD i 0 =
      if k ≤ log.length + i then (log.map Prod.snd).getD (log.length + i - k) 0 else 0 := by
  unfold lastSamples
  rw [List.getD_eq_getElem?_getD]
  by_cases hk : i < k - log.length
  · rw [List.getElem?_append_left (by simpa using hk)]
    have : ¬ k ≤ log.length + i := by omega
    simp [this, List.getElem?_replicate, hk]
  · rw [List.getElem?_append_right (by simp; omega)]
    have hle : k ≤ log.length + i := by omega
    simp only [List.length_replicate, if_pos hle, List.getElem?_drop, List.getD_eq_getElem?_getD]
    congr 2
    omega

theorem getLatestSamples_of_ringInv {F : Type} [Zero F] {b : MonoCircularBuffer F} {N : Nat}
    {log : List (TimePoint × F)} (h : RingInv b N log) (hN : 0 < N) (dst : List F)
    (hk1 : 1 ≤ dst.length) (hkN : dst.length ≤ N) :
    (b.getLatestSamples dst).1 = lastSamples log dst.length ∧
    (∀ e ∈ log.getLast?, (b.getLatestSamples dst).2 = e.1) ∧
    (log = [] → (b.getLatestSamples dst).2 = ⟨b.sampleRate, 0, none⟩) := by
  unfold MonoCircularBuffer.getLatestSamples
  have hd : ¬ dst.length = 0 := by omega
  rw [if_neg hd]
  by_cases hlog : log = []
  · subst hlog
    have hw : b.writeTracker.haveWritten = false := by simpa using h.written
    simp [hw, lastSamples]
  · have hwpos : 0 < log.length := List.length_pos.mpr hlog
    have hw : b.writeTracker.haveWritten = true := by
      rw [h.written]
      cases log with
      | nil => exact absurd rfl hlog
      | cons e0 es => rfl
    have hb : ¬ (b.buffer.length = 0 ∨ ¬ b.writeTracker.haveWritten = true) := by
      rw [h.len, hw]; simp; omega
    rw [if_neg hb]
    refine ⟨?_, fun e he => h.time e he, fun hh => absurd hh hlog⟩
    apply List.ext_getElem
    · rw [getLatestSamplesLoop_length, lastSamples_length]
    · intro i h1 h2
      rw [getLatestSamplesLoop_length] at h1
      have key := getLatestSamplesLoop_getD h hN dst.length (log.length - 1 + N)
        b.writeTracker.getLatestWritePosition dst (le_refl _) (by omega) (by omega)
        (by intro _; rw [Nat.add_mod_right]; exact h.pos) i h1
      rw [if_pos h1] at key
      have key2 := lastSamples_getD log dst.length i
      rw [List.getD_eq_getElem?_getD,
        List.getElem?_eq_getElem (by rw [getLatestSamplesLoop_length]; exact h1)] at key
      rw [List.getD_eq_getElem?_getD,
        List.getElem?_eq_getElem (by rw [lastSamples_length]; exact h1)] at key2
      simp only [Option.getD_some] at key key2
      rw [key, key2]
      by_cases hc : dst.length ≤ log.length + i
      · have hc2 : N ≤ log.length - 1 + N + 1 + i - dst.length := by omega
        rw [if_pos hc, if_pos hc2]
        congr 1; omega
      · have hc2 : ¬ N ≤ log.length - 1 + N + 1 + i - dst.length := by omega
        rw [if_neg hc, if_neg hc2]

/-- C1 (as amended): for every capacity `N ≥ 1`, every sequence of appends and every
destination length `k` with `1 ≤ k ≤ N`, `getLatestSamples` fills the destination with the
last `k` appended samples in their original order, zero-padded at the front when fewer than
`k` were written, and returns the time point of the newest written sample (the zero time
point without playhead time when nothing was written). -/
theorem getLatestSamples_within_capacity {F : Type} [Zero F] (N : Nat) (rate : Nat)
    (chunks : List (List F × TimePoint)) (dst : List F)
    (hN : 1 ≤ N) (hk1 : 1 ≤ dst.length) (hkN : dst.length ≤ N) :
    (((MonoCircularBuffer.ofLength N rate).appendAll chunks).getLatestSamples dst).1 =
        lastSamples (appendLog chunks) dst.length ∧
    (∀ e ∈ (appendLog chunks).getLast?,
      (((MonoCircularBuffer.ofLength N rate).appendAll chunks).getLatestSamples dst).2 = e.1) ∧
    (appendLog chunks = [] →
      (((MonoCircularBuffer.ofLength N rate).appendAll chunks).getLatestSamples dst).2 =
        ⟨rate, 0, none⟩) := by
  have hinv := ringInv_appendAll (Nat.lt_of_lt_of_le Nat.zero_lt_one hN) chunks _ []
    (ringInv_ofLength N rate)
  rw [List.nil_append] at hinv
  have hrate : ∀ (cs : List (List F × TimePoint)) (b : MonoCircularBuffer F),
      (b.appendAll cs).sampleRate = b.sampleRate := by
    intro cs
    induction cs with
    | nil => intro b; rfl
    | cons c cs ih =>
      intro b
      have hloop : ∀ (src : List F) (s : Nat) (b : MonoCircularBuffer F),
          (MonoCircularBuffer.updateFromLoop src s c.2 b).sampleRate = b.sampleRate := by
        intro src
        induction src with
        | nil => intro s b; rfl
        | cons x xs ihx =>
          intro s b
          simp [MonoCircularBuffer.updateFromLoop, ihx, MonoCircularBuffer.writeSample]
      simp [MonoCircularBuffer.appendAll, ih, MonoCircularBuffer.updateFrom, hloop]
  have h := getLatestSamples_of_ringInv hinv (Nat.lt_of_lt_of_le Nat.zero_lt_one hN) dst hk1 hkN
  rw [hrate] at h
  exact h

/-- Witness of C1 (as amended): capacity 2, appends `[1, 2]` then `[3]`, destination length 2. -/
theorem getLatestSamples_within_capacity_witness :
    (((MonoCircularBuffer.ofLength 2 16000 : MonoCircularBuffer Int).appendAll
        [([1, 2], ⟨16000, 0, none⟩), ([3], ⟨16000, 2, none⟩)]).getLatestSamples [0, 0]).1 =
      lastSamples (appendLog [([1, 2], ⟨16000, 0, none⟩), ([(3 : Int)], ⟨16000, 2, none⟩)]) 2 ∧
    lastSamples (appendLog [([1, 2], ⟨16000, 0, none⟩), ([(3 : Int)], ⟨16000, 2, none⟩)]) 2 =
      [2, 3] :=
  ⟨(getLatestSamples_within_capacity 2 16000
      [([1, 2], ⟨16000, 0, none⟩), ([(3 : Int)], ⟨16000, 2, none⟩)] [0, 0]
      (by decide) (by decide) (by decide)).1, by decide⟩

/-- C1 as stated fails for a destination longer than the capacity: with capacity 2, the
sample-sequential appends `[1, 2]`, `[3]` and a destination of length 3, `getLatestSamples`
yields `[3, 2, 3]`, whereas the last three appended samples are `[1, 2, 3]`. -/
theorem getLatestSamples_beyond_capacity :
    SampleSequential
      (appendLog [([1, 2], ⟨16000, 0, none⟩), ([(3 : Int)], ⟨16000, 2, none⟩)]) ∧
    (((MonoCircularBuffer.ofLength 2 16000 : MonoCircularBuffer Int).appendAll
        [([1, 2], ⟨16000, 0, none⟩), ([3], ⟨16000, 2, none⟩)]).getLatestSamples
          [0, 0, 0]).1 = [3, 2, 3] ∧
    lastSamples (appendLog [([1, 2], ⟨16000, 0, none⟩), ([(3 : Int)], ⟨16000, 2, none⟩)]) 3 =
      [1, 2, 3] ∧
    (((MonoCircularBuffer.ofLength 2 16000 : MonoCircularBuffer Int).appendAll
        [([1, 2], ⟨16000, 0, none⟩), ([3], ⟨16000, 2, none⟩)]).getLatestSamples
          [0, 0, 0]).1 ≠
      lastSamples (appendLog [([1, 2], ⟨16000, 0, none⟩), ([(3 : Int)], ⟨16000, 2, none⟩)]) 3 := by
  refine ⟨by simp [SampleSequential, appendLog, chunkLog, TimePoint.addDelta], by decide, by decide, by decide⟩

/-- C2 at a failing input: capacity 4, the sample-sequential append `[1, 2, 3]` at transport
positions 0, 1, 2. Position 2 holds the newest sample (`getLatestSamples` returns it with
time point 2), yet `getSamples` for start 2, length 1 returns `false`; the position before
it is read correctly. With capacity 8 and the append `[1, 2, 3, 4]` at transport positions
-2, -1, 0, 1 the retained position -2 is rejected too (the sum `start + length = -1` is
compared as an unsigned number), while position -1 is read correctly. -/
theorem getSamples_rejects_newest_sample :
    SampleSequential (appendLog [([(1 : Int), 2, 3], ⟨16000, 0, none⟩)]) ∧
    ((MonoCircularBuffer.ofLength 4 16000 : MonoCircularBuffer Int).appendAll
        [([1, 2, 3], ⟨16000, 0, none⟩)]).getLatestSamples [0] = ([3], ⟨16000, 2, none⟩) ∧
    ((MonoCircularBuffer.ofLength 4 16000 : MonoCircularBuffer Int).appendAll
        [([1, 2, 3], ⟨16000, 0, none⟩)]).getSamples ⟨16000, 2, none⟩ [0] = some (false, [0]) ∧
    ((MonoCircularBuffer.ofLength 4 16000 : MonoCircularBuffer Int).appendAll
        [([1, 2, 3], ⟨16000, 0, none⟩)]).getSamples ⟨16000, 1, none⟩ [0] = some (true, [2]) ∧
    SampleSequential (appendLog [([(1 : Int), 2, 3, 4], ⟨16000, -2, none⟩)]) ∧
    ((MonoCircularBuffer.ofLength 8 16000 : MonoCircularBuffer Int).appendAll
        [([1, 2, 3, 4], ⟨16000, -2, none⟩)]).getSamples ⟨16000, -2, none⟩ [0] =
      some (false, [0]) ∧
    ((MonoCircularBuffer.ofLength 8 16000 : MonoCircularBuffer Int).appendAll
        [([1, 2, 3, 4], ⟨16000, -2, none⟩)]).getSamples ⟨16000, -1, none⟩ [0] =
      some (true, [2]) := by
  refine ⟨by simp [SampleSequential, appendLog, chunkLog, TimePoint.addDelta], by decide,
    by decide, by decide, by simp [SampleSequential, appendLog, chunkLog, TimePoint.addDelta],
    by decide, by decide⟩

/-- C3 at a failing input: capacity 2, the sample-sequential append `[1, 2, 3]` at transport
positions 0, 1, 2, so the ring has wrapped and holds positions 1 and 2 only. `getSamples`
for start 0 (newest minus capacity), length 1 returns `true` and delivers the newest sample
3 instead of the overwritten sample 1. -/
theorem getSamples_accepts_overwritten_start :
    SampleSequential (appendLog [([(1 : Int), 2, 3], ⟨16000, 0, none⟩)]) ∧
    ((MonoCircularBuffer.ofLength 2 16000 : MonoCircularBuffer Int).appendAll
        [([1, 2, 3], ⟨16000, 0, none⟩)]).buffer = [3, 2] ∧
    ((MonoCircularBuffer.ofLength 2 16000 : MonoCircularBuffer Int).appendAll
        [([1, 2, 3], ⟨16000, 0, none⟩)]).getSamples ⟨16000, 0, none⟩ [0] = some (true, [3]) := by
  refine ⟨by simp [SampleSequential, appendLog, chunkLog, TimePoint.addDelta], by decide, by decide⟩

/-! ## Playback result aggregator -/

theorem setInsert_idem (x : Int) : ∀ l : List Int, setInsert x (setInsert x l) = setInsert x l := by
  intro l
  induction l with
  | nil => simp [setInsert]
  | cons y ys ih =>
    by_cases h1 : x < y
    · simp [setInsert, h1]
    · by_cases h2 : x = y
      · subst h2; simp [setInsert]
      · simp [setInsert, h1, h2, ih]

theorem mapAssign_idem {V : Type} (k : Int) (v : V) :
    ∀ m : List (Int × V), mapAssign k v (mapAssign k v m) = mapAssign k v m := by
  intro m
  induction m with
  | nil => simp [mapAssign]
  | cons e rest ih =>
    obtain ⟨k', v'⟩ := e
    by_cases h1 : k < k'
    · simp [mapAssign, h1]
    · by_cases h2 : k = k'
      · subst h2; simp [mapAssign]
      · simp [mapAssign, h1, h2, ih]

theorem mapFind_mapAssign {V : Type} (k : Int) (v : V) :
    ∀ m : List (Int × V), mapFind k (mapAssign k v m) = some v := by
  intro m
  induction m with
  | nil => simp [mapAssign, mapFind]
  | cons e rest ih =>
    obtain ⟨k', v'⟩ := e
    by_cases h1 : k < k'
    · simp [mapAssign, mapFind, h1]
    · by_cases h2 : k = k'
      · subst h2; simp [mapAssign, mapFind]
      · simp [mapAssign, mapFind, h1, h2, ih]

/-- C9 (as amended): a second `addResult` with the same region succeeds whenever the first
did and leaves the snapshot returned by `getResults` exactly as it was after the first call;
the update counter moves by the same amount as in the first call: one more when the region
is accepted (once per accepted call, duplicates included), zero when it is rejected. -/
theorem addResult_twice {F : Type} (pr pr1 : PlaybackResults F) (region : Region F)
    (h : pr.addResult region = some pr1) :
    ∃ pr2, pr1.addResult region = some pr2 ∧
      pr2.getResults = pr1.getResults ∧
      pr2.getUpdateCounter =
        pr1.getUpdateCounter + (pr1.getUpdateCounter - pr.getUpdateCounter) ∧
      (pr1.getUpdateCounter = pr.getUpdateCounter ∨
        pr1.getUpdateCounter = pr.getUpdateCounter + 1) := by
  unfold PlaybackResults.addResult at h ⊢
  unfold PlaybackResults.getResults PlaybackResults.getUpdateCounter
  by_cases hsize : region.end_.sampleCounter - region.start.sampleCounter = pr.regionSize
  · simp only [hsize, if_true] at h
    cases hps : region.start.playheadTime with
    | none => simp [hps] at h
    | some ps =>
      simp only [hps] at h
      cases hal : calcPlaybackAlignmentOffsetFromZero ps pr.regionFrequency with
      | none => simp [hal] at h
      | some al =>
        simp only [hal] at h
        by_cases hoff : pr.alignmentOffset = al
        · simp only [hoff, if_true, Option.some.injEq] at h
          subst h
          simp only [hsize, hps, hal, hoff, if_true]
          refine ⟨_, rfl, ?_, ?_, ?_⟩
          · simp [setInsert_idem, mapFind_mapAssign, mapAssign_idem]
          · simp
          · simp
        · simp only [hoff, if_false, Option.some.injEq] at h
          subst h
          simp [hsize, hps, hal, hoff]
  · simp only [hsize, if_false, Option.some.injEq] at h
    subst h
    simp [hsize]


/-- Witness of C9 (as amended): the aligned region added twice to the configured aggregator. -/
theorem addResult_twice_witness :
    ∃ pr1, configuredResults.addResult alignedRegion = some pr1 ∧
      ∃ pr2, pr1.addResult alignedRegion = some pr2 ∧
        pr2.getResults = pr1.getResults ∧
        pr2.getUpdateCounter =
          pr1.getUpdateCounter + (pr1.getUpdateCounter - configuredResults.getUpdateCounter) ∧
        (pr1.getUpdateCounter = configuredResults.getUpdateCounter ∨
          pr1.getUpdateCounter = configuredResults.getUpdateCounter + 1) :=
  ⟨_, rfl, addResult_twice configuredResults _ alignedRegion rfl⟩

/-- C9 as stated fails on the update counter: the configured aggregator has counter 1, the
first `addResult` of the aligned region makes it 2 and the second, identical call makes it 3. -/
theorem addResult_twice_counts :
    configuredResults.getUpdateCounter = 1 ∧
    (configuredResults.addResult alignedRegion).map PlaybackResults.getUpdateCounter = some 2 ∧
    ((configuredResults.addResult alignedRegion).bind
      (fun pr1 => pr1.addResult alignedRegion)).map PlaybackResults.getUpdateCounter = some 3 := by
  decide

/-- C10: `setConfig(offset, size, frequency)` changes the aggregator if and only if one of
the three values differs from the current configuration. The stored values are the given
ones afterwards; with identical values the results and the update counter are unchanged,
otherwise the results are empty and the update counter is one higher. -/
theorem setConfig_changes_iff_differs {F : Type} (pr : PlaybackResults F)
    (alignmentOffset regionSize regionFrequency : Int) :
    (pr.setConfig alignmentOffset regionSize regionFrequency).alignmentOffset = alignmentOffset ∧
    (pr.setConfig alignmentOffset regionSize regionFrequency).regionSize = regionSize ∧
    (pr.setConfig alignmentOffset regionSize regionFrequency).regionFrequency =
      regionFrequency ∧
    (pr.setConfig alignmentOffset regionSize regionFrequency).getResults =
      (if pr.alignmentOffset = alignmentOffset ∧ pr.regionSize = regionSize ∧
          pr.regionFrequency = regionFrequency then pr.getResults
       else PlaybackResults.Results.empty) ∧
    (pr.setConfig alignmentOffset regionSize regionFrequency).getUpdateCounter =
      (if pr.alignmentOffset = alignmentOffset ∧ pr.regionSize = regionSize ∧
          pr.regionFrequency = regionFrequency then pr.getUpdateCounter
       else pr.getUpdateCounter + 1) ∧
    (pr.setConfig alignmentOffset regionSize regionFrequency = pr ↔
      (pr.alignmentOffset = alignmentOffset ∧ pr.regionSize = regionSize ∧
        pr.regionFrequency = regionFrequency)) := by
  unfold PlaybackResults.setConfig PlaybackResults.getResults PlaybackResults.getUpdateCounter
  by_cases h : pr.alignmentOffset = alignmentOffset ∧ pr.regionSize = regionSize ∧
      pr.regionFrequency = regionFrequency
  · rw [if_pos h, if_pos h, if_pos h]
    exact ⟨h.1, h.2.1, h.2.2, rfl, rfl, iff_of_true rfl h⟩
  · rw [if_neg h, if_neg h, if_neg h]
    refine ⟨rfl, rfl, rfl, rfl, rfl, iff_of_false ?_ h⟩
    intro heq
    have := congrArg PlaybackResults.updateCounter heq
    simp at this


/-! ## Region creation and alignment -/

theorem roundUpToAlignmentBoundary_spec (w : PlaybackTimePoint) (f : Int)
    (hf : 0 < f) :
    ∃ b : Int, f ∣ b ∧ 0 ≤ b ∧ w.playheadTime ≤ b ∧
      (∀ b' : Int, f ∣ b' → 0 ≤ b' → w.playheadTime ≤ b' → b ≤ b') ∧
      roundUpToAlignmentBoundary w f =
        some ⟨w.sampleRate, w.sampleCounter + (b - w.playheadTime), some b⟩ := by
  unfold roundUpToAlignmentBoundary
  by_cases hneg : w.playheadTime < 0
  · refine ⟨0, dvd_zero f, le_refl 0, le_of_lt hneg, fun b' _ h0 _ => h0, ?_⟩
    rw [if_pos hneg]
    simp only [toTimePoint, TimePoint.subDelta, Option.map_some', Option.some.injEq,
      TimePoint.mk.injEq, true_and]
    constructor
    · omega
    · simp
  · have hp : 0 ≤ w.playheadTime := not_lt.mp hneg
    have hf0 : f ≠ 0 := ne_of_gt hf
    rw [if_neg hneg, if_neg hf0, Int.tmod_eq_emod hp (le_of_lt hf)]
    have hr0 : 0 ≤ w.playheadTime % f := Int.emod_nonneg _ hf0
    have hr1 : w.playheadTime % f < f := Int.emod_lt_of_pos _ hf
    have hdiv := Int.ediv_add_emod w.playheadTime f
    by_cases hrem : w.playheadTime % f = 0
    · refine ⟨w.playheadTime, Int.dvd_of_emod_eq_zero hrem, hp, le_refl _,
        fun b' _ _ h => h, ?_⟩
      simp [hrem, toTimePoint]
    · have hrpos : 0 < w.playheadTime % f := lt_of_le_of_ne hr0 (Ne.symm hrem)
      refine ⟨w.playheadTime + (f - w.playheadTime % f), ?_, by omega, by omega, ?_, ?_⟩
      · refine ⟨w.playheadTime / f + 1, ?_⟩
        rw [mul_add, mul_one]
        omega
      · intro b' hb' _ hle
        by_contra hlt
        have hlt : b' < w.playheadTime + (f - w.playheadTime % f) := not_le.mp hlt
        have hm : b' % f = 0 := Int.emod_eq_zero_of_dvd hb'
        have hsplit : b' = w.playheadTime + (b' - w.playheadTime) := by omega
        have h1 : b' % f = (w.playheadTime % f + (b' - w.playheadTime)) % f := by
          conv_lhs => rw [hsplit]
          exact (Int.emod_add_emod w.playheadTime f (b' - w.playheadTime)).symm
        have h2 : (w.playheadTime % f + (b' - w.playheadTime)) % f =
            w.playheadTime % f + (b' - w.playheadTime) :=
          Int.emod_eq_of_lt (by omega) (by omega)
        omega
      · have hnl : ¬ w.playheadTime % f < 0 := not_lt.mpr hr0
        simp only [hrem, if_false, hnl, toTimePoint, TimePoint.addDelta, Option.map_some',
          Option.some.injEq, TimePoint.mk.injEq, true_and]
        exact ⟨by omega, trivial⟩

theorem regionsEmplace_mem {F : Type} (r : Region F) :
    ∀ l : List (Region F), (regionsEmplace r l).2 = true → r ∈ (regionsEmplace r l).1 := by
  intro l
  induction l with
  | nil => intro _; simp [regionsEmplace]
  | cons x xs ih =>
    intro h
    unfold regionsEmplace at h ⊢
    by_cases h1 : r.start.sampleCounter < x.start.sampleCounter
    · simp [h1]
    · by_cases h2 : x.start.sampleCounter < r.start.sampleCounter
      · simp only [h1, h2, if_false, if_true] at h ⊢
        exact List.mem_cons_of_mem _ (ih h)
      · simp [h1, h2] at h

theorem regionsEmplace_of_all_lt {F : Type} (r : Region F) :
    ∀ l : List (Region F), (∀ x ∈ l, x.start.sampleCounter < r.start.sampleCounter) →
      regionsEmplace r l = (l ++ [r], true) := by
  intro l
  induction l with
  | nil => intro _; rfl
  | cons x xs ih =>
    intro h
    have hx := h x (List.mem_cons_self _ _)
    have h1 : ¬ r.start.sampleCounter < x.start.sampleCounter := by omega
    unfold regionsEmplace
    rw [if_neg h1, if_pos hx, ih (fun y hy => h y (List.mem_cons_of_mem _ hy))]
    rfl

theorem all_lt_of_sorted_of_last_lt {F : Type} (c : Int) :
    ∀ l : List (Region F),
      l.Pairwise (fun x y => x.start.sampleCounter < y.start.sampleCounter) →
      (∀ r ∈ l.getLast?, r.start.sampleCounter < c) →
      ∀ x ∈ l, x.start.sampleCounter < c := by
  intro l hs hlast x hx
  cases hl : l.getLast? with
  | none =>
    rw [List.getLast?_eq_none_iff] at hl
    subst hl
    cases hx
  | some r =>
    have hr := hlast r (by rw [hl]; rfl)
    have hmem : r ∈ l := List.mem_of_getLast?_eq_some hl
    obtain ⟨pre, hpre⟩ : ∃ pre, l = pre ++ [r] := by
      have := List.getLast?_eq_some_iff.mp hl
      exact this
    subst hpre
    rw [List.mem_append] at hx
    rcases hx with hx | hx
    · have := (List.pairwise_append.mp hs).2.2 x hx r (List.mem_singleton_self r)
      omega
    · rw [List.mem_singleton] at hx
      subst hx
      exact hr

theorem taggedEdges_start {F : Type} (a : AnalysisRegions F) (w : PlaybackTimePoint)
    (s : Int) (hstart : a.lastKnownPlaybackRegion.start = some w)
    (hsize : 0 < a.regionSize) (hs : w.sampleCounter ≤ s)
    (hend : ∀ e ∈ a.lastKnownPlaybackRegion.end_, s < e.sampleCounter) :
    (a.taggedEdges s).1 =
      ⟨a.refSampleRate, s, some (s - (w.sampleCounter - w.playheadTime))⟩ := by
  unfold AnalysisRegions.taggedEdges
  simp only [hstart, TimePoint.addDelta, playbackFlags]
  cases he : a.lastKnownPlaybackRegion.end_ with
  | none =>
    have h1 : s + a.regionSize > w.sampleCounter := by omega
    simp [h1, hs]
  | some e =>
    have h0 := hend e (by rw [he]; rfl)
    have h1 : s + a.regionSize > w.sampleCounter := by omega
    simp [h0, h1, hs]

theorem addNewRegion_created {F : Type} [Zero F] (a a' : AnalysisRegions F) (s : Int)
    (h : a.addNewRegion s = some (true, a')) :
    ∃ r ∈ a'.regions, r.start = (a.taggedEdges s).1 ∧ r.end_ = (a.taggedEdges s).2.1 ∧
      r.analysisState = Region.State.PENDING ∧ r.stale = false := by
  unfold AnalysisRegions.addNewRegion at h
  by_cases hfut : s + a.regionSize ≥ a.curTime.sampleCounter
  · simp [hfut] at h
  · simp only [hfut, if_false, Option.map_eq_some'] at h
    obtain ⟨pr, _, hpair⟩ := h
    simp only [Prod.mk.injEq] at hpair
    obtain ⟨hok, ha'⟩ := hpair
    subst ha'
    exact ⟨_, regionsEmplace_mem _ _ hok, rfl, rfl, rfl, rfl⟩

theorem addNewRegion_creates {F : Type} [Zero F] (a : AnalysisRegions F) (s : Int)
    (hall : ∀ x ∈ a.regions, x.start.sampleCounter < s)
    (hf : a.regionFrequency ≠ 0) (hcur : s + a.regionSize < a.curTime.sampleCounter) :
    ∃ a', a.addNewRegion s = some (true, a') := by
  unfold AnalysisRegions.addNewRegion
  have hfut : ¬ s + a.regionSize ≥ a.curTime.sampleCounter := by omega
  rw [if_neg hfut]
  have hstartc : (a.taggedEdges s).1.sampleCounter = s := by
    unfold AnalysisRegions.taggedEdges
    cases a.lastKnownPlaybackRegion.start <;> rfl
  have hemp : ∀ (e : TimePoint) (n : Nat) (d : Bool),
      regionsEmplace (Region.new (a.taggedEdges s).1 e n d : Region F) a.regions =
        (a.regions ++ [Region.new (a.taggedEdges s).1 e n d], true) := by
    intro e n d
    apply regionsEmplace_of_all_lt
    intro x hx
    simpa [Region.new, hstartc] using hall x hx
  simp only [hemp]
  cases (a.taggedEdges s).1.playheadTime with
  | none => exact ⟨_, rfl⟩
  | some ps =>
    cases (a.taggedEdges s).2.1.playheadTime with
    | none => exact ⟨_, rfl⟩
    | some pe =>
      simp only [PlaybackResults.setConfigFromRegion, calcPlaybackAlignmentOffsetFromZero,
        if_neg hf]
      exact ⟨_, rfl⟩

theorem addNewRegionIfRequired_aligned {F : Type} [Zero F] (a : AnalysisRegions F)
    (w : PlaybackTimePoint) (hne : a.alignment ≠ Alignment.NONE)
    (hplaying : a.curTime.playheadTime.isSome = true)
    (hstart : a.lastKnownPlaybackRegion.start = some w)
    (hlast : ∀ r ∈ a.regions.getLast?, r.start.sampleCounter < w.sampleCounter) :
    a.addNewRegionIfRequired =
      match a.alignment with
      | Alignment.PLAYBACK_BEGIN => a.addNewRegion w.sampleCounter
      | Alignment.TIME_ZERO =>
        match roundUpToAlignmentBoundary w a.regionFrequency with
        | none => none
        | some nextTimePoint => a.addNewRegion nextTimePoint.sampleCounter
      | Alignment.NONE => some (false, a) := by
  unfold AnalysisRegions.addNewRegionIfRequired
  simp only [hstart]
  have hcond : a.alignment ≠ Alignment.NONE ∧ a.curTime.playheadTime.isSome = true :=
    ⟨hne, hplaying⟩
  rw [if_pos hcond]
  have hneeds : (match a.getLastAddedRegionSampleCounters with
      | none => true
      | some span => decide (span.1 < w.sampleCounter)) = true := by
    unfold AnalysisRegions.getLastAddedRegionSampleCounters
    cases hl : a.regions.getLast? with
    | none => rfl
    | some r =>
      have := hlast r (by rw [hl]; rfl)
      simpa using this
  exact if_pos hneeds

/-- C4 (as amended): under `TIME_ZERO` alignment, while the current time carries a
playhead time (the guard of the alignment branch), for every playback window start with
transport position `c` and playhead time `p` and every `regionFrequency` `f > 0`, when no
region exists yet or the newest region starts before `c`, `addNewRegionIfRequired` is
`addNewRegion` at `c + (b - p)`, where `b` is the smallest non-negative multiple of `f`
with `b ≥ p`; if that call creates the region, with `regionSize > 0` and the playback
window open or ending after the region start, the region is `PENDING` and its start
playhead time is `b`. -/
theorem addNewRegionIfRequired_time_zero {F : Type} [Zero F] (a : AnalysisRegions F)
    (w : PlaybackTimePoint) (halign : a.alignment = Alignment.TIME_ZERO)
    (hplaying : a.curTime.playheadTime.isSome = true)
    (hstart : a.lastKnownPlaybackRegion.start = some w)
    (hf : 0 < a.regionFrequency)
    (hlast : ∀ r ∈ a.regions.getLast?, r.start.sampleCounter < w.sampleCounter) :
    ∃ b : Int, a.regionFrequency ∣ b ∧ 0 ≤ b ∧ w.playheadTime ≤ b ∧
      (∀ b' : Int, a.regionFrequency ∣ b' → 0 ≤ b' → w.playheadTime ≤ b' → b ≤ b') ∧
      a.addNewRegionIfRequired = a.addNewRegion (w.sampleCounter + (b - w.playheadTime)) ∧
      (0 < a.regionSize →
        (∀ e ∈ a.lastKnownPlaybackRegion.end_,
          w.sampleCounter + (b - w.playheadTime) < e.sampleCounter) →
        ∀ a', a.addNewRegion (w.sampleCounter + (b - w.playheadTime)) = some (true, a') →
          ∃ r ∈ a'.regions,
            r.start = ⟨a.refSampleRate, w.sampleCounter + (b - w.playheadTime), some b⟩ ∧
            r.analysisState = Region.State.PENDING) := by
  obtain ⟨b, hdvd, hb0, hpb, hmin, hround⟩ := roundUpToAlignmentBoundary_spec w _ hf
  refine ⟨b, hdvd, hb0, hpb, hmin, ?_, ?_⟩
  · rw [addNewRegionIfRequired_aligned a w (by rw [halign]; decide) hplaying hstart hlast]
    simp only [halign, hround]
  · intro hsize hend a' hcreated
    obtain ⟨r, hr, hrs, _, hst, _⟩ := addNewRegion_created a a' _ hcreated
    refine ⟨r, hr, ?_, hst⟩
    rw [hrs, taggedEdges_start a w _ hstart hsize (by omega) hend]
    simp only [TimePoint.mk.injEq, Option.some.injEq, true_and]
    omega


/-- Witness of C4 (as amended): window start at transport position 1000 with playhead time
7, `regionFrequency` 10; the region is created at transport position 1003 with playhead
time 10. -/
theorem addNewRegionIfRequired_time_zero_witness :
    (∃ b : Int, (10 : Int) ∣ b ∧ 0 ≤ b ∧ (7 : Int) ≤ b ∧
      (playingScheduler Alignment.TIME_ZERO).addNewRegionIfRequired =
        (playingScheduler Alignment.TIME_ZERO).addNewRegion (1000 + (b - 7))) ∧
    (playingScheduler Alignment.TIME_ZERO).addNewRegionIfRequired.map
      (fun res => (res.1, regionStarts res.2)) = some (true, [(1003, some 10)]) :=
  ⟨(addNewRegionIfRequired_time_zero (playingScheduler Alignment.TIME_ZERO)
      ⟨16000, 1000, 7⟩ rfl rfl rfl (by decide)
      (by intro r hr; simp [playingScheduler, AnalysisRegions.new] at hr)).imp
      (fun _ h => ⟨h.1, h.2.1, h.2.2.1, h.2.2.2.2.1⟩),
    by decide⟩

/-- C4 as stated fails when the current time has no playhead time: after playback stopped
(window start at transport position 1000 with playhead time 7, `regionFrequency` 10, no
region yet) `addNewRegionIfRequired` free-runs and creates the region at 1949, not at the
boundary position 1003. While playing, the region created at the boundary has no start
playhead time when the window closed at 1002, before the boundary, or when `regionSize` is
0 and the boundary is the window start itself (playhead time 10). -/
theorem addNewRegionIfRequired_time_zero_stopped :
    (stoppedScheduler Alignment.TIME_ZERO).addNewRegionIfRequired =
      (stoppedScheduler Alignment.TIME_ZERO).addNewRegion 1949 ∧
    (stoppedScheduler Alignment.TIME_ZERO).addNewRegionIfRequired.map
      (fun res => (res.1, regionStarts res.2)) = some (true, [(1949, none)]) ∧
    (stoppedScheduler Alignment.TIME_ZERO).addNewRegionIfRequired ≠
      (stoppedScheduler Alignment.TIME_ZERO).addNewRegion 1003 ∧
    (shortWindowScheduler Alignment.TIME_ZERO).addNewRegionIfRequired.map
      (fun res => (res.1, regionStarts res.2)) = some (true, [(1003, none)]) ∧
    (({ playingScheduler Alignment.TIME_ZERO with
          regionSize := 0,
          lastKnownPlaybackRegion := ⟨some ⟨16000, 1000, 10⟩, none⟩ } :
        AnalysisRegions Int).addNewRegionIfRequired).map
      (fun res => (res.1, regionStarts res.2)) = some (true, [(1000, none)]) := by
  decide

/-- C5 (as amended): under `PLAYBACK_BEGIN` alignment, while the current time carries a
playhead time (the guard of the alignment branch), for every playback window start with
transport position `c` and playhead time `p`, when no region exists yet or the newest
region starts before `c`, `addNewRegionIfRequired` is `addNewRegion` at `c`; with
`regionSize > 0` and the playback window open or ending after `c`, the region that call
creates is `PENDING` with start playhead time `p`, and the call does create it when
`c + regionSize` is below the current transport position (the region set being ordered by
start and `regionFrequency` non-zero). -/
theorem addNewRegionIfRequired_playback_begin {F : Type} [Zero F] (a : AnalysisRegions F)
    (w : PlaybackTimePoint) (halign : a.alignment = Alignment.PLAYBACK_BEGIN)
    (hplaying : a.curTime.playheadTime.isSome = true)
    (hstart : a.lastKnownPlaybackRegion.start = some w)
    (hlast : ∀ r ∈ a.regions.getLast?, r.start.sampleCounter < w.sampleCounter) :
    a.addNewRegionIfRequired = a.addNewRegion w.sampleCounter ∧
    (0 < a.regionSize →
      (∀ e ∈ a.lastKnownPlaybackRegion.end_, w.sampleCounter < e.sampleCounter) →
      (∀ a', a.addNewRegion w.sampleCounter = some (true, a') →
        ∃ r ∈ a'.regions,
          r.start = ⟨a.refSampleRate, w.sampleCounter, some w.playheadTime⟩ ∧
          r.analysisState = Region.State.PENDING) ∧
      (a.regions.Pairwise (fun x y => x.start.sampleCounter < y.start.sampleCounter) →
        a.regionFrequency ≠ 0 →
        w.sampleCounter + a.regionSize < a.curTime.sampleCounter →
        ∃ a', a.addNewRegion w.sampleCounter = some (true, a'))) := by
  refine ⟨?_, ?_⟩
  · rw [addNewRegionIfRequired_aligned a w (by rw [halign]; decide) hplaying hstart hlast]
    simp only [halign]
  · intro hsize hend
    refine ⟨?_, ?_⟩
    · intro a' hcreated
      obtain ⟨r, hr, hrs, _, hst, _⟩ := addNewRegion_created a a' _ hcreated
      refine ⟨r, hr, ?_, hst⟩
      rw [hrs, taggedEdges_start a w _ hstart hsize (le_refl _) hend]
      simp only [TimePoint.mk.injEq, Option.some.injEq, true_and]
      omega
    · intro hsorted hf hcur
      exact addNewRegion_creates a _
        (all_lt_of_sorted_of_last_lt _ _ hsorted hlast) hf hcur

/-- Witness of C5 (as amended): window start at transport position 1000 with playhead time
7; the region is created at transport position 1000 with playhead time 7. -/
theorem addNewRegionIfRequired_playback_begin_witness :
    (playingScheduler Alignment.PLAYBACK_BEGIN).addNewRegionIfRequired =
      (playingScheduler Alignment.PLAYBACK_BEGIN).addNewRegion 1000 ∧
    (playingScheduler Alignment.PLAYBACK_BEGIN).addNewRegionIfRequired.map
      (fun res => (res.1, regionStarts res.2)) = some (true, [(1000, some 7)]) :=
  ⟨(addNewRegionIfRequired_playback_begin (playingScheduler Alignment.PLAYBACK_BEGIN)
      ⟨16000, 1000, 7⟩ rfl rfl rfl
      (by intro r hr; simp [playingScheduler, AnalysisRegions.new] at hr)).1,
    by decide⟩

/-- C5 as stated fails when the current time has no playhead time: after playback stopped
(window start at transport position 1000, no region yet) `addNewRegionIfRequired`
free-runs and creates the region at 1949, not at 1000. While playing, the region created
at 1000 has no start playhead time when `regionSize` is 0 or when the window closed at 1000
itself. -/
theorem addNewRegionIfRequired_playback_begin_stopped :
    (stoppedScheduler Alignment.PLAYBACK_BEGIN).addNewRegionIfRequired =
      (stoppedScheduler Alignment.PLAYBACK_BEGIN).addNewRegion 1949 ∧
    (stoppedScheduler Alignment.PLAYBACK_BEGIN).addNewRegionIfRequired.map
      (fun res => (res.1, regionStarts res.2)) = some (true, [(1949, none)]) ∧
    (stoppedScheduler Alignment.PLAYBACK_BEGIN).addNewRegionIfRequired ≠
      (stoppedScheduler Alignment.PLAYBACK_BEGIN).addNewRegion 1000 ∧
    (({ playingScheduler Alignment.PLAYBACK_BEGIN with regionSize := 0 } :
        AnalysisRegions Int).addNewRegionIfRequired).map
      (fun res => (res.1, regionStarts res.2)) = some (true, [(1000, none)]) ∧
    (({ playingScheduler Alignment.PLAYBACK_BEGIN with
          lastKnownPlaybackRegion := ⟨some ⟨16000, 1000, 7⟩, some ⟨16000, 1000, 7⟩⟩ } :
        AnalysisRegions Int).addNewRegionIfRequired).map
      (fun res => (res.1, regionStarts res.2)) = some (true, [(1000, none)]) := by
  decide

/-! ## Control tick: dispatch, pending cap, responses -/

theorem abortPendingLoop_append {F : Type} :
    ∀ (l1 l2 : List (Region F)) (n : Nat),
      abortPendingLoop (l1 ++ l2) n =
        abortPendingLoop l1 n ++ abortPendingLoop l2 (n + pendingCount l1) := by
  intro l1
  induction l1 with
  | nil => intro l2 n; simp [abortPendingLoop, pendingCount]
  | cons x xs ih =>
    intro l2 n
    by_cases hp : x.analysisState = Region.State.PENDING
    · simp [abortPendingLoop, hp, ih, pendingCount, List.countP_cons]
      congr 1; omega
    · simp [abortPendingLoop, hp, ih, pendingCount, List.countP_cons]

theorem abortPendingLoop_length {F : Type} :
    ∀ (l : List (Region F)) (n : Nat), (abortPendingLoop l n).length = l.length := by
  intro l
  induction l with
  | nil => intro n; rfl
  | cons x xs ih =>
    intro n
    unfold abortPendingLoop
    split <;> simp [ih]

theorem abortPendingLoop_forall₂ {F : Type} :
    ∀ (l : List (Region F)) (n : Nat),
      List.Forall₂ (fun x x' => x' = x ∨ (x.analysisState = Region.State.PENDING ∧
        x' = { x with analysisState := Region.State.TIMEOUT })) l (abortPendingLoop l n) := by
  intro l
  induction l with
  | nil => intro n; exact List.Forall₂.nil
  | cons x xs ih =>
    intro n
    unfold abortPendingLoop
    by_cases hp : x.analysisState = Region.State.PENDING
    · rw [if_pos hp]
      refine List.Forall₂.cons ?_ (ih _)
      by_cases h1 : n + 1 > maxPendingRegions
      · rw [if_pos h1]; exact Or.inr ⟨hp, rfl⟩
      · rw [if_neg h1]; exact Or.inl rfl
    · rw [if_neg hp]
      exact List.Forall₂.cons (Or.inl rfl) (ih _)

theorem abortPendingLoop_cons {F : Type} (x : Region F) (l : List (Region F)) (n : Nat) :
    abortPendingLoop (x :: l) n =
      if x.analysisState = Region.State.PENDING then
        (if n + 1 > maxPendingRegions then { x with analysisState := Region.State.TIMEOUT }
          else x) :: abortPendingLoop l (n + 1)
      else x :: abortPendingLoop l n := by
  rw [abortPendingLoop]

theorem pendingCount_reverse {F : Type} (l : List (Region F)) :
    pendingCount l.reverse = pendingCount l := by
  simp [pendingCount]

theorem pendingCount_eq_zero {F : Type} (l : List (Region F))
    (h : ∀ x ∈ l, x.analysisState ≠ Region.State.PENDING) : pendingCount l = 0 := by
  simp only [pendingCount, List.countP_eq_zero, decide_eq_true_eq]
  exact h

theorem sendPendingLoop_oneSend_sent {F : Type} (resp : Option (Response F))
    (regionSize : Int) :
    ∀ l : List (Region F),
      sendPendingLoop (oneSendChannel resp) regionSize l true = (l, true) := by
  intro l
  induction l with
  | nil => rfl
  | cons x xs ih =>
    unfold sendPendingLoop
    by_cases hp : x.analysisState = Region.State.PENDING
    · simp [hp, oneSendChannel]
    · simp [hp, ih]

theorem sendPendingLoop_oneSend_first {F : Type} (resp : Option (Response F))
    (regionSize : Int) (r : Region F) (post : List (Region F))
    (hr : r.analysisState = Region.State.PENDING) :
    ∀ pre : List (Region F), (∀ x ∈ pre, x.analysisState ≠ Region.State.PENDING) →
      sendPendingLoop (oneSendChannel resp) regionSize (pre ++ r :: post) false =
        (pre ++ { r with analysisState := Region.State.IN_PROGRESS } :: post, true) := by
  intro pre
  induction pre with
  | nil =>
    intro _
    simp only [List.nil_append]
    have hsent := sendPendingLoop_oneSend_sent resp regionSize post
    unfold sendPendingLoop
    have e1 : ((oneSendChannel resp).readyToSend false) = (true, false) := rfl
    have e2 : ∀ tp len, ((oneSendChannel resp).sendRequest false tp len) = (true, true) :=
      fun _ _ => rfl
    simp only [hr, if_true, e1, e2, hsent, not_true_eq_false, if_false]
  | cons x xs ih =>
    intro h
    have hx := h x (List.mem_cons_self _ _)
    simp only [List.cons_append]
    unfold sendPendingLoop
    rw [if_neg hx, ih (fun y hy => h y (List.mem_cons_of_mem _ hy))]

theorem advances_refl (s : Region.State) : s.advances s = true := by
  cases s <;> rfl

theorem advances_trans (s1 s2 s3 : Region.State) (h1 : s1.advances s2 = true)
    (h2 : s2.advances s3 = true) : s1.advances s3 = true := by
  cases s1 <;> cases s2 <;> cases s3 <;> first | rfl | (exfalso; revert h1 h2; decide)

theorem mayBecome_of_advances (s1 s2 : Region.State) (h : s1.advances s2 = true) :
    s1.mayBecome s2 = true := by
  simp [Region.State.mayBecome, h]

theorem mayBecome_trans (s1 s2 s3 : Region.State) (h1 : s1.mayBecome s2 = true)
    (h2 : s2.mayBecome s3 = true) : s1.mayBecome s3 = true := by
  cases s1 <;> cases s2 <;> cases s3 <;> first | rfl | (exfalso; revert h1 h2; decide)

theorem regionsEvolve_refl {F : Type} (R : Region.State → Region.State → Bool)
    (hR : ∀ s, R s s = true) (l : List (Region F)) : RegionsEvolve R l l :=
  fun x hx => ⟨x, hx, rfl, rfl, hR _⟩

theorem regionsEvolve_trans {F : Type} (R : Region.State → Region.State → Bool)
    (hR : ∀ s1 s2 s3, R s1 s2 = true → R s2 s3 = true → R s1 s3 = true)
    {l1 l2 l3 : List (Region F)} (h12 : RegionsEvolve R l1 l2) (h23 : RegionsEvolve R l2 l3) :
    RegionsEvolve R l1 l3 := by
  intro x3 hx3
  obtain ⟨x2, hx2, hs, he, hr⟩ := h23 x3 hx3
  obtain ⟨x1, hx1, hs', he', hr'⟩ := h12 x2 hx2
  exact ⟨x1, hx1, hs.trans hs', he.trans he', hR _ _ _ hr' hr⟩

theorem regionsEvolve_mono {F : Type} (R R' : Region.State → Region.State → Bool)
    (h : ∀ s s', R s s' = true → R' s s' = true) {l1 l2 : List (Region F)}
    (h12 : RegionsEvolve R l1 l2) : RegionsEvolve R' l1 l2 := by
  intro x2 hx2
  obtain ⟨x1, hx1, hs, he, hr⟩ := h12 x2 hx2
  exact ⟨x1, hx1, hs, he, h _ _ hr⟩

theorem regionsEvolve_reverse {F : Type} (R : Region.State → Region.State → Bool)
    {l1 l2 : List (Region F)} (h : RegionsEvolve R l1 l2) :
    RegionsEvolve R l1.reverse l2.reverse := by
  intro x2 hx2
  obtain ⟨x1, hx1, hrest⟩ := h x2 (List.mem_reverse.mp hx2)
  exact ⟨x1, List.mem_reverse.mpr hx1, hrest⟩

theorem regionsEvolve_cons {F : Type} (R : Region.State → Region.State → Bool)
    {x x' : Region F} {l l' : List (Region F)}
    (hx : x'.start = x.start ∧ x'.end_ = x.end_ ∧ R x.analysisState x'.analysisState = true)
    (h : RegionsEvolve R l l') : RegionsEvolve R (x :: l) (x' :: l') := by
  intro y hy
  rcases List.mem_cons.mp hy with hy | hy
  · subst hy
    exact ⟨x, List.mem_cons_self _ _, hx⟩
  · obtain ⟨z, hz, hrest⟩ := h y hy
    exact ⟨z, List.mem_cons_of_mem _ hz, hrest⟩

theorem regionsEvolve_sendPendingLoop {C F : Type} (comms : ServiceCommunicator C F)
    (regionSize : Int) :
    ∀ (l : List (Region F)) (c : C),
      RegionsEvolve Region.State.advances l (sendPendingLoop comms regionSize l c).1 := by
  intro l
  induction l with
  | nil => intro c; exact regionsEvolve_refl _ advances_refl _
  | cons x xs ih =>
    intro c
    unfold sendPendingLoop
    by_cases hp : x.analysisState = Region.State.PENDING
    · rw [if_pos hp]
      by_cases hr : (comms.readyToSend c).1 = true
      · simp only [hr, not_true_eq_false, if_false]
        apply regionsEvolve_cons _ _ (ih _)
        split
        · exact ⟨rfl, rfl, by rw [hp]; rfl⟩
        · exact ⟨rfl, rfl, advances_refl _⟩
      · simp only [hr, not_false_eq_true, if_true]
        exact regionsEvolve_refl _ advances_refl _
    · rw [if_neg hp]
      exact regionsEvolve_cons _ ⟨rfl, rfl, advances_refl _⟩ (ih _)

theorem regionsEvolve_abortPendingLoop {F : Type} :
    ∀ (l : List (Region F)) (n : Nat),
      RegionsEvolve Region.State.advances l (abortPendingLoop l n) := by
  intro l
  induction l with
  | nil => intro n; exact regionsEvolve_refl _ advances_refl _
  | cons x xs ih =>
    intro n
    rw [abortPendingLoop_cons]
    by_cases hp : x.analysisState = Region.State.PENDING
    · rw [if_pos hp]
      apply regionsEvolve_cons _ _ (ih _)
      split
      · exact ⟨rfl, rfl, by rw [hp]; rfl⟩
      · exact ⟨rfl, rfl, advances_refl _⟩
    · rw [if_neg hp]
      exact regionsEvolve_cons _ ⟨rfl, rfl, advances_refl _⟩ (ih _)

theorem regionsEvolve_filter {F : Type} (p : Region F → Bool) (l : List (Region F)) :
    RegionsEvolve Region.State.advances l (l.filter p) :=
  fun x hx => ⟨x, (List.mem_filter.mp hx).1, rfl, rfl, advances_refl _⟩

theorem regionsEvolve_dispatched {C F : Type} (comms : ServiceCommunicator C F)
    (a : AnalysisRegions F) (c : C) :
    RegionsEvolve Region.State.advances a.regions (a.dispatched comms c).1 := by
  have h1 : RegionsEvolve Region.State.advances a.regions a.eraseOldRegions := by
    unfold AnalysisRegions.eraseOldRegions
    by_cases hc : a.curTime.sampleCounter - a.maxRegionAge ≥ 0
    · simp only [hc, if_true]
      exact regionsEvolve_filter _ _
    · simp only [hc, if_false]
      exact regionsEvolve_refl _ advances_refl _
  have h2 := regionsEvolve_reverse _ h1
  have h3 := regionsEvolve_sendPendingLoop comms a.regionSize a.eraseOldRegions.reverse c
  have h4 := regionsEvolve_abortPendingLoop
    (sendPendingLoop comms a.regionSize a.eraseOldRegions.reverse c).1 0
  have h5 := regionsEvolve_reverse _
    (regionsEvolve_trans _ advances_trans (regionsEvolve_trans _ advances_trans h2 h3) h4)
  rw [List.reverse_reverse] at h5
  exact h5

theorem responseLoop_regions {F : Type} (resp : Response F) :
    ∀ (l l' : List (Region F)) (pr pr' : PlaybackResults F),
      responseLoop resp l pr = some (l', pr') →
      ∀ x' ∈ l', ∃ x ∈ l, x'.start = x.start ∧ x'.end_ = x.end_ ∧
        (x' = x ∨ (x.start.sampleCounter = resp.reqId ∧ x' = x.applyResponse resp)) := by
  intro l
  induction l with
  | nil =>
    intro l' pr pr' h x' hx'
    simp only [responseLoop, Option.some.injEq, Prod.mk.injEq] at h
    rw [← h.1] at hx'
    cases hx'
  | cons x xs ih =>
    intro l' pr pr' h x' hx'
    unfold responseLoop at h
    by_cases hm : x.start.sampleCounter = resp.reqId
    · rw [if_pos hm] at h
      simp only at h
      split at h
      · cases h
      · rename_i pr1 _
        split at h
        · cases h
        · rename_i next hnext
          simp only [Option.some.injEq, Prod.mk.injEq] at h
          rw [← h.1] at hx'
          rcases List.mem_cons.mp hx' with hx' | hx'
          · subst hx'
            refine ⟨x, List.mem_cons_self _ _, ?_, ?_, Or.inr ⟨hm, rfl⟩⟩
            · unfold Region.applyResponse; split <;> rfl
            · unfold Region.applyResponse; split <;> rfl
          · obtain ⟨z, hz, hrest⟩ := ih next.1 pr1 next.2 (by rw [hnext]) x' hx'
            exact ⟨z, List.mem_cons_of_mem _ hz, hrest⟩
    · rw [if_neg hm] at h
      split at h
      · cases h
      · rename_i next hnext
        simp only [Option.some.injEq, Prod.mk.injEq] at h
        rw [← h.1] at hx'
        rcases List.mem_cons.mp hx' with hx' | hx'
        · subst hx'
          exact ⟨x', List.mem_cons_self _ _, rfl, rfl, Or.inl rfl⟩
        · obtain ⟨z, hz, hrest⟩ := ih next.1 pr next.2 (by rw [hnext]) x' hx'
          exact ⟨z, List.mem_cons_of_mem _ hz, hrest⟩

theorem regionsEvolve_abortInProgress {F : Type} (a : AnalysisRegions F) :
    RegionsEvolve Region.State.advances a.regions a.abortInProgress.regions := by
  intro x' hx'
  simp only [AnalysisRegions.abortInProgress, List.mem_map] at hx'
  obtain ⟨x, hx, hxx⟩ := hx'
  refine ⟨x, hx, ?_⟩
  by_cases hp : x.analysisState = Region.State.IN_PROGRESS
  · rw [if_pos hp] at hxx
    subst hxx
    exact ⟨rfl, rfl, by rw [hp]; rfl⟩
  · rw [if_neg hp] at hxx
    subst hxx
    exact ⟨rfl, rfl, advances_refl _⟩

theorem regionsEvolve_updateAsStale {F : Type} (a : AnalysisRegions F) :
    RegionsEvolve Region.State.advances a.regions a.updateAsStale.regions := by
  intro x' hx'
  simp only [AnalysisRegions.updateAsStale, List.mem_map, List.mem_filter] at hx'
  obtain ⟨x, ⟨hx, _⟩, hxx⟩ := hx'
  subst hxx
  exact ⟨x, hx, rfl, rfl, advances_refl _⟩

theorem applyOp_step {C F : Type} (comms : ServiceCommunicator C F) (op : SchedulerOp)
    (a a' : AnalysisRegions F) (c c' : C)
    (h : AnalysisRegions.applyOp comms op (a, c) = some (a', c')) :
    ∀ x' ∈ a'.regions, ∃ x ∈ a.regions, x'.start = x.start ∧ x'.end_ = x.end_ ∧
      (x.analysisState.advances x'.analysisState = true ∨
        (op = SchedulerOp.updateRegions ∧
          ∃ resp ∈ (comms.getResponse (a.dispatched comms c).2).1,
            resp.reqId = x.start.sampleCounter ∧
            x'.analysisState =
              (if resp.success then Region.State.COMPLETE else Region.State.FAILURE))) := by
  cases op with
  | abortInProgress =>
    simp only [AnalysisRegions.applyOp, Option.some.injEq, Prod.mk.injEq] at h
    rw [← h.1]
    intro x' hx'
    obtain ⟨x, hx, hs, he, hr⟩ := regionsEvolve_abortInProgress a x' hx'
    exact ⟨x, hx, hs, he, Or.inl hr⟩
  | updateAsStale =>
    simp only [AnalysisRegions.applyOp, Option.some.injEq, Prod.mk.injEq] at h
    rw [← h.1]
    intro x' hx'
    obtain ⟨x, hx, hs, he, hr⟩ := regionsEvolve_updateAsStale a x' hx'
    exact ⟨x, hx, hs, he, Or.inl hr⟩
  | updateRegions =>
    simp only [AnalysisRegions.applyOp, AnalysisRegions.updateRegions] at h
    have hd := regionsEvolve_dispatched comms a c
    cases hp : (comms.getResponse (a.dispatched comms c).2).1 with
    | none =>
      simp only [hp, Option.some.injEq, Prod.mk.injEq] at h
      rw [← h.1]
      intro x' hx'
      obtain ⟨x, hx, hs, he, hr⟩ := hd x' hx'
      exact ⟨x, hx, hs, he, Or.inl hr⟩
    | some resp =>
      simp only [hp] at h
      split at h
      · cases h
      · rename_i res hres
        simp only [Option.some.injEq, Prod.mk.injEq] at h
        rw [← h.1]
        intro x' hx'
        obtain ⟨y, hy, hys, hye, hyr⟩ :=
          responseLoop_regions resp _ res.1 _ res.2 (by rw [hres]) x' hx'
        obtain ⟨x, hx, hs, he, hr⟩ := hd y hy
        refine ⟨x, hx, hys.trans hs, hye.trans he, ?_⟩
        rcases hyr with hyr | ⟨hm, hyr⟩
        · rw [hyr]; exact Or.inl hr
        · refine Or.inr ⟨rfl, resp, rfl, ?_, ?_⟩
          · rw [← hs, hm]
          · rw [hyr]; unfold Region.applyResponse; split <;> rfl

/-- C8 (as amended): over every sequence of scheduler operations (`updateRegions`,
`abortInProgress`, `updateAsStale`) a region that is still in the set has the start and end
it had and a state reached from its old one by `PENDING → IN_PROGRESS`,
`PENDING → TIMEOUT`, `IN_PROGRESS → TIMEOUT`, or by a move to `COMPLETE` or `FAILURE`; and
in a single operation the move to `COMPLETE` or `FAILURE` happens only in `updateRegions`,
for a region whose start equals the identifier of the response polled in that tick, from
whatever state the region is in (`TIMEOUT`, `COMPLETE`, `FAILURE` and `PENDING` included).
So a region in `COMPLETE`, `FAILURE` or `TIMEOUT` is never `PENDING` or `IN_PROGRESS`
again, and changes state only by a response carrying its start. -/
theorem scheduler_state_transitions {C F : Type} (comms : ServiceCommunicator C F) :
    (∀ (ops : List SchedulerOp) (a a' : AnalysisRegions F) (c c' : C),
      AnalysisRegions.applyOps comms ops (a, c) = some (a', c') →
      RegionsEvolve Region.State.mayBecome a.regions a'.regions) ∧
    (∀ (op : SchedulerOp) (a a' : AnalysisRegions F) (c c' : C),
      AnalysisRegions.applyOp comms op (a, c) = some (a', c') →
      ∀ x' ∈ a'.regions, ∃ x ∈ a.regions, x'.start = x.start ∧ x'.end_ = x.end_ ∧
        (x.analysisState.advances x'.analysisState = true ∨
          (op = SchedulerOp.updateRegions ∧
            ∃ resp ∈ (comms.getResponse (a.dispatched comms c).2).1,
              resp.reqId = x.start.sampleCounter ∧
              x'.analysisState =
                (if resp.success then Region.State.COMPLETE else Region.State.FAILURE)))) := by
  refine ⟨?_, applyOp_step comms⟩
  intro ops
  induction ops with
  | nil =>
    intro a a' c c' h
    simp only [AnalysisRegions.applyOps, Option.some.injEq, Prod.mk.injEq] at h
    rw [← h.1]
    exact regionsEvolve_refl _ (fun s => mayBecome_of_advances _ _ (advances_refl s)) _
  | cons op ops ih =>
    intro a a' c c' h
    simp only [AnalysisRegions.applyOps] at h
    split at h
    · cases h
    · rename_i st hst
      have hstep := applyOp_step comms op a st.1 c st.2 hst
      have h1 : RegionsEvolve Region.State.mayBecome a.regions st.1.regions := by
        intro x' hx'
        obtain ⟨x, hx, hs, he, hr⟩ := hstep x' hx'
        refine ⟨x, hx, hs, he, ?_⟩
        rcases hr with hr | ⟨_, resp, _, _, hr⟩
        · exact mayBecome_of_advances _ _ hr
        · rw [hr]; cases resp.success <;> cases x.analysisState <;> rfl
      exact regionsEvolve_trans _ mayBecome_trans h1 (ih st.1 a' st.2 c' h)

/-- Witness of C8 (as amended): a tick, `abortInProgress` and another tick on five
`PENDING` regions with a channel that accepts every send; all five end in `TIMEOUT`. -/
theorem scheduler_state_transitions_witness :
    RegionsEvolve Region.State.mayBecome fivePending.regions
      (schedulerWith (fivePending.regions.map
        (fun r => { r with analysisState := Region.State.TIMEOUT }))).regions :=
  (scheduler_state_transitions acceptingChannel).1
    [SchedulerOp.updateRegions, SchedulerOp.abortInProgress, SchedulerOp.updateRegions]
    fivePending _ () () (by decide)

/-- C8 as stated fails for a late reply: a region that is `TIMEOUT` and whose start 100 is
the identifier of the response polled in a tick becomes `COMPLETE` with the result of the
response (and `FAILURE` for a failure response). -/
theorem updateRegions_completes_timed_out :
    regionStates oneTimedOut = [(100, Region.State.TIMEOUT)] ∧
    (oneTimedOut.updateRegions (deafChannel (some ⟨100, 7, true⟩)) ()).map
        (fun res => res.1.regions.map
          (fun r => (r.start.sampleCounter, r.analysisState, r.analysisResult))) =
      some [(100, Region.State.COMPLETE, 7)] ∧
    (oneTimedOut.updateRegions (deafChannel (some ⟨100, 0, false⟩)) ()).map
        (fun res => regionStates res.1) = some [(100, Region.State.FAILURE)] := by
  decide

/-! ## Playback result aggregator: acceptance and reachable states -/

theorem mem_setInsert (k x : Int) : ∀ l : List Int, x ∈ setInsert k l ↔ x = k ∨ x ∈ l := by
  intro l
  induction l with
  | nil => simp [setInsert]
  | cons y ys ih =>
    unfold setInsert
    by_cases h1 : k < y
    · simp [h1]
    · by_cases h2 : k = y
      · subst h2; simp
      · simp only [h1, h2, if_false, List.mem_cons, ih]
        tauto

theorem setInsert_pairwise (k : Int) :
    ∀ l : List Int, l.Pairwise (fun x y => x < y) →
      (setInsert k l).Pairwise (fun x y => x < y) := by
  intro l
  induction l with
  | nil => intro _; simp [setInsert]
  | cons y ys ih =>
    intro h
    have hy := List.pairwise_cons.mp h
    unfold setInsert
    by_cases h1 : k < y
    · rw [if_pos h1]
      refine List.pairwise_cons.mpr ⟨?_, h⟩
      intro z hz
      rcases List.mem_cons.mp hz with hz | hz
      · rw [hz]; exact h1
      · exact lt_trans h1 (hy.1 z hz)
    · by_cases h2 : k = y
      · rw [if_neg h1, if_pos h2]; exact h
      · rw [if_neg h1, if_neg h2]
        refine List.pairwise_cons.mpr ⟨?_, ih hy.2⟩
        intro z hz
        rcases (mem_setInsert k z ys).mp hz with hz | hz
        · rw [hz]; omega
        · exact hy.1 z hz

theorem keys_mapAssign {V : Type} (k : Int) (v : V) :
    ∀ m : List (Int × V), (mapAssign k v m).map Prod.fst = setInsert k (m.map Prod.fst) := by
  intro m
  induction m with
  | nil => rfl
  | cons e rest ih =>
    obtain ⟨k', v'⟩ := e
    by_cases h1 : k < k'
    · simp [mapAssign, setInsert, h1]
    · by_cases h2 : k = k'
      · subst h2; simp [mapAssign, setInsert]
      · simp [mapAssign, setInsert, h1, h2, ih]

theorem mem_mapAssign {V : Type} (k : Int) (v : V) (e : Int × V) :
    ∀ m : List (Int × V), e ∈ mapAssign k v m → e = (k, v) ∨ e ∈ m := by
  intro m
  induction m with
  | nil => intro h; simpa [mapAssign] using h
  | cons e' rest ih =>
    obtain ⟨k', v'⟩ := e'
    intro h
    unfold mapAssign at h
    by_cases h1 : k < k'
    · rw [if_pos h1] at h
      rcases List.mem_cons.mp h with h | h
      · exact Or.inl h
      · exact Or.inr h
    · by_cases h2 : k = k'
      · rw [if_neg h1, if_pos h2] at h
        rcases List.mem_cons.mp h with h | h
        · exact Or.inl h
        · exact Or.inr (List.mem_cons_of_mem _ h)
      · rw [if_neg h1, if_neg h2] at h
        rcases List.mem_cons.mp h with h | h
        · exact Or.inr (by rw [h]; exact List.mem_cons_self _ _)
        · rcases ih h with h | h
          · exact Or.inl h
          · exact Or.inr (List.mem_cons_of_mem _ h)

theorem mem_mapAssign_self {V : Type} (k : Int) (v : V) :
    ∀ m : List (Int × V), (k, v) ∈ mapAssign k v m := by
  intro m
  induction m with
  | nil => simp [mapAssign]
  | cons e' rest ih =>
    obtain ⟨k', v'⟩ := e'
    unfold mapAssign
    by_cases h1 : k < k'
    · simp [h1]
    · by_cases h2 : k = k'
      · simp [h2]
      · simp [h1, h2, ih]

theorem mem_mapAssign_of_ne {V : Type} (k : Int) (v : V) (e : Int × V) (hne : e.1 ≠ k) :
    ∀ m : List (Int × V), e ∈ m → e ∈ mapAssign k v m := by
  intro m
  induction m with
  | nil => intro h; cases h
  | cons e' rest ih =>
    obtain ⟨k', v'⟩ := e'
    intro h
    unfold mapAssign
    by_cases h1 : k < k'
    · rw [if_pos h1]; exact List.mem_cons_of_mem _ h
    · by_cases h2 : k = k'
      · rw [if_neg h1, if_pos h2]
        rcases List.mem_cons.mp h with h | h
        · exfalso; apply hne; rw [h, h2]
        · exact List.mem_cons_of_mem _ h
      · rw [if_neg h1, if_neg h2]
        rcases List.mem_cons.mp h with h | h
        · rw [h]; exact List.mem_cons_self _ _
        · exact List.mem_cons_of_mem _ (ih h)

theorem mem_of_mapFind {V : Type} (k : Int) (v : V) :
    ∀ m : List (Int × V), mapFind k m = some v → (k, v) ∈ m := by
  intro m
  induction m with
  | nil => intro h; simp [mapFind] at h
  | cons e' rest ih =>
    obtain ⟨k', v'⟩ := e'
    intro h
    unfold mapFind at h
    by_cases h2 : k = k'
    · rw [if_pos h2] at h
      simp only [Option.some.injEq] at h
      rw [h2, h]; exact List.mem_cons_self _ _
    · rw [if_neg h2] at h
      exact List.mem_cons_of_mem _ (ih h)

theorem mapFind_of_mem {V : Type} (k : Int) (v : V) :
    ∀ m : List (Int × V), (m.map Prod.fst).Pairwise (fun x y => x < y) → (k, v) ∈ m →
      mapFind k m = some v := by
  intro m
  induction m with
  | nil => intro _ h; cases h
  | cons e' rest ih =>
    obtain ⟨k', v'⟩ := e'
    intro hs h
    simp only [List.map_cons, List.pairwise_cons] at hs
    unfold mapFind
    rcases List.mem_cons.mp h with h | h
    · simp only [Prod.mk.injEq] at h
      rw [if_pos h.1, h.2]
    · have hlt : k' < k := hs.1 k (List.mem_map.mpr ⟨(k, v), h, rfl⟩)
      have hne : ¬ k = k' := by omega
      rw [if_neg hne]
      exact ih hs.2 h

theorem mapFind_mapAssign_of_ne {V : Type} (k k' : Int) (v : V) (hne : k' ≠ k) :
    ∀ m : List (Int × V), mapFind k' (mapAssign k v m) = mapFind k' m := by
  intro m
  induction m with
  | nil => simp [mapAssign, mapFind, hne]
  | cons e rest ih =>
    obtain ⟨k₀, v₀⟩ := e
    unfold mapAssign
    by_cases h1 : k < k₀
    · rw [if_pos h1]
      simp [mapFind, hne]
    · by_cases h2 : k = k₀
      · rw [if_neg h1, if_pos h2]
        have hne' : k' ≠ k₀ := by rw [← h2]; exact hne
        simp [mapFind, hne, hne']
      · rw [if_neg h1, if_neg h2]
        by_cases h3 : k' = k₀
        · simp [mapFind, h3]
        · simp [mapFind, h3, ih]

/-- C11: for a region with a playhead start time `ps` and an aggregator whose
`regionFrequency` is not zero, `addResult` returns, and it modifies the aggregator if and only
if the region's transport length equals the configured region size and `ps % regionFrequency`
equals the configured alignment offset. When it does, the region is stored under the keys
(start transport - `ps`, `ps`) and what is stored under every other pair of keys is as
before; the set of playhead start times is the one from before with `ps` added, the set of
playthrough offsets is the one from before with start transport - `ps` added; the update
counter is one higher and the configuration is unchanged. Otherwise the aggregator is
unchanged, results and counter included. -/
theorem addResult_accepts_iff {F : Type} (pr : PlaybackResults F) (region : Region F)
    (ps : Int) (hps : region.start.playheadTime = some ps) (hf : pr.regionFrequency ≠ 0) :
    ∃ pr', pr.addResult region = some pr' ∧
      (pr' ≠ pr ↔
        (region.end_.sampleCounter - region.start.sampleCounter = pr.regionSize ∧
          Int.tmod ps pr.regionFrequency = pr.alignmentOffset)) ∧
      ((region.end_.sampleCounter - region.start.sampleCounter = pr.regionSize ∧
          Int.tmod ps pr.regionFrequency = pr.alignmentOffset) →
        (mapFind (region.start.sampleCounter - ps) pr'.getResults.regions).bind (mapFind ps) =
          some region ∧
        ps ∈ pr'.getResults.playheadStartTimes ∧
        region.start.sampleCounter - ps ∈ pr'.getResults.playthroughOffsets ∧
        pr'.getUpdateCounter = pr.getUpdateCounter + 1 ∧
        (∀ offset p, ¬ (offset = region.start.sampleCounter - ps ∧ p = ps) →
          (mapFind offset pr'.getResults.regions).bind (mapFind p) =
            (mapFind offset pr.getResults.regions).bind (mapFind p)) ∧
        (∀ p, p ∈ pr'.getResults.playheadStartTimes ↔
          p = ps ∨ p ∈ pr.getResults.playheadStartTimes) ∧
        (∀ offset, offset ∈ pr'.getResults.playthroughOffsets ↔
          offset = region.start.sampleCounter - ps ∨
            offset ∈ pr.getResults.playthroughOffsets) ∧
        pr'.alignmentOffset = pr.alignmentOffset ∧ pr'.regionSize = pr.regionSize ∧
        pr'.regionFrequency = pr.regionFrequency) ∧
      (¬ (region.end_.sampleCounter - region.start.sampleCounter = pr.regionSize ∧
          Int.tmod ps pr.regionFrequency = pr.alignmentOffset) →
        pr' = pr ∧
        pr'.getResults = pr.getResults ∧ pr'.getUpdateCounter = pr.getUpdateCounter) := by
  unfold PlaybackResults.addResult PlaybackResults.getResults PlaybackResults.getUpdateCounter
  simp only [hps, calcPlaybackAlignmentOffsetFromZero, if_neg hf]
  by_cases hsize : region.end_.sampleCounter - region.start.sampleCounter = pr.regionSize
  · by_cases hoff : pr.alignmentOffset = Int.tmod ps pr.regionFrequency
    · have hcond : region.end_.sampleCounter - region.start.sampleCounter = pr.regionSize ∧
          Int.tmod ps pr.regionFrequency = pr.alignmentOffset := ⟨hsize, hoff.symm⟩
      rw [if_pos hsize, if_pos hoff]
      refine ⟨_, rfl, ?_, ?_, fun h => absurd hcond h⟩
      · refine iff_of_true ?_ hcond
        intro heq
        have := congrArg PlaybackResults.updateCounter heq
        simp at this
      · intro _
        refine ⟨?_, ?_, ?_, rfl, ?_, ?_, ?_, rfl, rfl, rfl⟩
        · simp [mapFind_mapAssign]
        · exact (mem_setInsert _ _ _).mpr (Or.inl rfl)
        · exact (mem_setInsert _ _ _).mpr (Or.inl rfl)
        · intro offset p hne
          show (mapFind offset (mapAssign (region.start.sampleCounter - ps)
            (mapAssign ps region
              ((mapFind (region.start.sampleCounter - ps) pr.results.regions).getD []))
            pr.results.regions)).bind (mapFind p) =
            (mapFind offset pr.results.regions).bind (mapFind p)
          by_cases ho : offset = region.start.sampleCounter - ps
          · have hp : p ≠ ps := fun h => hne ⟨ho, h⟩
            rw [ho, mapFind_mapAssign, Option.some_bind, mapFind_mapAssign_of_ne ps p _ hp]
            cases mapFind (region.start.sampleCounter - ps) pr.results.regions <;> rfl
          · rw [mapFind_mapAssign_of_ne _ offset _ ho]
        · intro p
          exact mem_setInsert _ _ _
        · intro offset
          exact mem_setInsert _ _ _
    · have hcond : ¬ (region.end_.sampleCounter - region.start.sampleCounter = pr.regionSize ∧
          Int.tmod ps pr.regionFrequency = pr.alignmentOffset) := fun h => hoff h.2.symm
      rw [if_pos hsize, if_neg hoff]
      exact ⟨pr, rfl, iff_of_false (fun h => h rfl) hcond, fun h => absurd h hcond,
        fun _ => ⟨rfl, rfl, rfl⟩⟩
  · have hcond : ¬ (region.end_.sampleCounter - region.start.sampleCounter = pr.regionSize ∧
        Int.tmod ps pr.regionFrequency = pr.alignmentOffset) := fun h => hsize h.1
    rw [if_neg hsize]
    exact ⟨pr, rfl, iff_of_false (fun h => h rfl) hcond, fun h => absurd h hcond,
      fun _ => ⟨rfl, rfl, rfl⟩⟩

/-- Witness of C11: the aligned region `[100, 110)` with playhead start 0 is accepted by the
aggregator configured with offset 0, size 10 and frequency 5. -/
theorem addResult_accepts_iff_witness :
    alignedRegion.start.playheadTime = some 0 ∧ configuredResults.regionFrequency ≠ 0 ∧
    ∃ pr, configuredResults.addResult alignedRegion = some pr ∧
      (pr ≠ configuredResults ↔
        (alignedRegion.end_.sampleCounter - alignedRegion.start.sampleCounter =
            configuredResults.regionSize ∧
          Int.tmod 0 configuredResults.regionFrequency = configuredResults.alignmentOffset)) :=
  ⟨rfl, by decide,
    (addResult_accepts_iff configuredResults alignedRegion 0 rfl (by decide)).imp
      (fun _ h => ⟨h.1, h.2.1⟩)⟩

theorem onePhase_empty {F : Type} (uc : Nat) (o sz f : Int) :
    PlaybackResults.OnePhase
      ({ updateCounter := uc, alignmentOffset := o, regionSize := sz, regionFrequency := f,
         results := PlaybackResults.Results.empty } : PlaybackResults F) := by
  refine ⟨?_, ?_, ?_, ?_⟩
  · intro off inner ps r h; cases h
  · simp [PlaybackResults.Results.empty]
  · intro off; simp [PlaybackResults.Results.empty]
  · intro ps; simp [PlaybackResults.Results.empty]

theorem onePhase_setConfig {F : Type} (pr : PlaybackResults F) (o sz f : Int)
    (h : pr.OnePhase) : (pr.setConfig o sz f).OnePhase := by
  unfold PlaybackResults.setConfig
  split
  · exact h
  · exact onePhase_empty _ _ _ _

theorem onePhase_clear {F : Type} (pr : PlaybackResults F) : pr.clear.OnePhase :=
  onePhase_empty _ _ _ _

theorem onePhase_addResult {F : Type} (pr pr' : PlaybackResults F) (region : Region F)
    (h : pr.OnePhase) (hadd : pr.addResult region = some pr') : pr'.OnePhase := by
  unfold PlaybackResults.addResult at hadd
  by_cases hsize : region.end_.sampleCounter - region.start.sampleCounter = pr.regionSize
  · rw [if_pos hsize] at hadd
    cases hps : region.start.playheadTime with
    | none => simp [hps] at hadd
    | some ps =>
      simp only [hps] at hadd
      cases hal : calcPlaybackAlignmentOffsetFromZero ps pr.regionFrequency with
      | none => simp [hal] at hadd
      | some al =>
        simp only [hal] at hadd
        by_cases hoff : pr.alignmentOffset = al
        · rw [if_pos hoff] at hadd
          simp only [Option.some.injEq] at hadd
          subst hadd
          refine ⟨?_, ?_, ?_, ?_⟩
          · intro off inner ps' r hmem hin
            simp only at hmem ⊢
            rcases mem_mapAssign _ _ _ _ hmem with hm | hm
            · simp only [Prod.mk.injEq] at hm
              obtain ⟨hoff', hinner⟩ := hm
              subst hinner
              rcases mem_mapAssign _ _ _ _ hin with hi | hi
              · simp only [Prod.mk.injEq] at hi
                obtain ⟨h1, h2⟩ := hi
                subst h1 h2
                exact ⟨hsize, hps, by rw [hal, hoff], hoff'⟩
              · cases hfind : mapFind (region.start.sampleCounter - ps) pr.results.regions with
                | none => rw [hfind] at hi; cases hi
                | some inner0 =>
                  rw [hfind] at hi
                  have := h.stored _ _ _ _ (mem_of_mapFind _ _ _ hfind) hi
                  rw [hoff']
                  exact this
            · exact h.stored _ _ _ _ hm hin
          · simp only [keys_mapAssign]
            exact setInsert_pairwise _ _ h.ascending
          · intro off
            simp only [keys_mapAssign, mem_setInsert, h.offsets]
          · intro ps'
            simp only [mem_setInsert, h.startTimes]
            constructor
            · rintro (hp | ⟨off', inner', hmem, hkey⟩)
              · refine ⟨_, _, mem_mapAssign_self _ _ _, ?_⟩
                rw [keys_mapAssign, mem_setInsert]
                exact Or.inl hp
              · by_cases hoo : off' = region.start.sampleCounter - ps
                · refine ⟨_, _, mem_mapAssign_self _ _ _, ?_⟩
                  rw [keys_mapAssign, mem_setInsert]
                  right
                  rw [hoo] at hmem
                  rw [mapFind_of_mem _ _ _ h.ascending hmem]
                  exact hkey
                · exact ⟨off', inner', mem_mapAssign_of_ne _ _ (off', inner') hoo _ hmem, hkey⟩
            · rintro ⟨off', inner', hmem, hkey⟩
              rcases mem_mapAssign _ _ _ _ hmem with hm | hm
              · simp only [Prod.mk.injEq] at hm
                obtain ⟨_, hinner⟩ := hm
                subst hinner
                rw [keys_mapAssign, mem_setInsert] at hkey
                rcases hkey with hk | hk
                · exact Or.inl hk
                · cases hfind : mapFind (region.start.sampleCounter - ps) pr.results.regions with
                  | none => rw [hfind] at hk; cases hk
                  | some inner0 =>
                    rw [hfind] at hk
                    exact Or.inr ⟨_, inner0, mem_of_mapFind _ _ _ hfind, hk⟩
              · exact Or.inr ⟨off', inner', hm, hkey⟩
        · rw [if_neg hoff] at hadd
          simp only [Option.some.injEq] at hadd
          subst hadd
          exact h
  · rw [if_neg hsize] at hadd
    simp only [Option.some.injEq] at hadd
    subst hadd
    exact h

theorem onePhase_applyOp {F : Type} (pr pr' : PlaybackResults F) (op : PlaybackResults.Op F)
    (h : pr.OnePhase) (hop : pr.applyOp op = some pr') : pr'.OnePhase := by
  cases op with
  | addResult r => exact onePhase_addResult pr pr' r h hop
  | setConfig o sz f =>
    simp only [PlaybackResults.applyOp, Option.some.injEq] at hop
    rw [← hop]; exact onePhase_setConfig pr o sz f h
  | setConfigFromRegion st en f =>
    simp only [PlaybackResults.applyOp, PlaybackResults.setConfigFromRegion] at hop
    split at hop
    · cases hop
    · simp only [Option.some.injEq] at hop
      rw [← hop]; exact onePhase_setConfig pr _ _ _ h
  | clear =>
    simp only [PlaybackResults.applyOp, Option.some.injEq] at hop
    rw [← hop]; exact onePhase_clear pr

theorem onePhase_applyOps {F : Type} :
    ∀ (ops : List (PlaybackResults.Op F)) (pr pr' : PlaybackResults F),
      pr.OnePhase → PlaybackResults.applyOps ops pr = some pr' → pr'.OnePhase := by
  intro ops
  induction ops with
  | nil =>
    intro pr pr' h hrun
    simp only [PlaybackResults.applyOps, Option.some.injEq] at hrun
    rw [← hrun]; exact h
  | cons op ops ih =>
    intro pr pr' h hrun
    simp only [PlaybackResults.applyOps] at hrun
    split at hrun
    · cases hrun
    · rename_i pr1 hop
      exact ih pr1 pr' (onePhase_applyOp pr pr1 op h hop) hrun

/-- C12: in every aggregator state reached from the initial one by a sequence of
`addResult`, `setConfig`, `setConfigFromRegion` and `clear`, every stored region has the
configured region size as transport length, a playhead start whose remainder modulo the
configured (non-zero) `regionFrequency` is the configured offset, and is stored under the keys
(start transport - playhead start, playhead start); `playthroughOffsets` holds exactly the
outer keys and `playheadStartTimes` exactly the inner keys of the stored map. -/
theorem reachable_results_on_one_phase {F : Type} (ops : List (PlaybackResults.Op F))
    (pr : PlaybackResults F)
    (hrun : PlaybackResults.applyOps ops PlaybackResults.new = some pr) :
    (∀ off inner ps r, (off, inner) ∈ pr.getResults.regions → (ps, r) ∈ inner →
      r.end_.sampleCounter - r.start.sampleCounter = pr.regionSize ∧
      r.start.playheadTime = some ps ∧
      pr.regionFrequency ≠ 0 ∧
      Int.tmod ps pr.regionFrequency = pr.alignmentOffset ∧
      off = r.start.sampleCounter - ps) ∧
    (∀ off, off ∈ pr.getResults.playthroughOffsets ↔
      ∃ inner, (off, inner) ∈ pr.getResults.regions) ∧
    (∀ ps, ps ∈ pr.getResults.playheadStartTimes ↔
      ∃ off inner r, (off, inner) ∈ pr.getResults.regions ∧ (ps, r) ∈ inner) := by
  have hinv := onePhase_applyOps ops _ pr (onePhase_empty 0 0 0 0) hrun
  unfold PlaybackResults.getResults
  refine ⟨?_, ?_, ?_⟩
  · intro off inner ps r hmem hin
    obtain ⟨h1, h2, h3, h4⟩ := hinv.stored off inner ps r hmem hin
    unfold calcPlaybackAlignmentOffsetFromZero at h3
    by_cases hf : pr.regionFrequency = 0
    · simp [hf] at h3
    · rw [if_neg hf] at h3
      simp only [Option.some.injEq] at h3
      exact ⟨h1, h2, hf, h3, h4⟩
  · intro off
    rw [hinv.offsets, List.mem_map]
    constructor
    · rintro ⟨⟨k, v⟩, hm, rfl⟩; exact ⟨v, hm⟩
    · rintro ⟨inner, hm⟩; exact ⟨(off, inner), hm, rfl⟩
  · intro ps
    rw [hinv.startTimes]
    constructor
    · rintro ⟨off, inner, hm, hk⟩
      obtain ⟨⟨k, r⟩, hr, rfl⟩ := List.mem_map.mp hk
      exact ⟨off, inner, r, hm, hr⟩
    · rintro ⟨off, inner, r, hm, hr⟩
      exact ⟨off, inner, hm, List.mem_map.mpr ⟨(ps, r), hr, rfl⟩⟩

/-- Witness of C12: configure the aggregator, then add the aligned region. -/
theorem reachable_results_on_one_phase_witness :
    PlaybackResults.applyOps
        [PlaybackResults.Op.setConfig 0 10 5, PlaybackResults.Op.addResult alignedRegion]
        PlaybackResults.new = configuredResults.addResult alignedRegion ∧
    ∃ pr, configuredResults.addResult alignedRegion = some pr ∧
      (∀ off, off ∈ pr.getResults.playthroughOffsets ↔
        ∃ inner, (off, inner) ∈ pr.getResults.regions) :=
  ⟨by decide, _, rfl,
    (reachable_results_on_one_phase
      [PlaybackResults.Op.setConfig 0 10 5, PlaybackResults.Op.addResult alignedRegion]
      _ (by decide)).2.1⟩

/-! ## Control tick: responses -/

theorem applyResponse_start {F : Type} (r : Region F) (resp : Response F) :
    (r.applyResponse resp).start = r.start := by
  unfold Region.applyResponse; split <;> rfl

theorem applyResponse_end {F : Type} (r : Region F) (resp : Response F) :
    (r.applyResponse resp).end_ = r.end_ := by
  unfold Region.applyResponse; split <;> rfl

theorem responseLoop_eq {F : Type} (resp : Response F) :
    ∀ (l : List (Region F)) (pr : PlaybackResults F),
      responseLoop resp l pr =
        (((l.map (fun (r : Region F) =>
              if r.start.sampleCounter = resp.reqId then r.applyResponse resp else r)).filter
            (fun (r : Region F) => r.start.sampleCounter = resp.reqId ∧ r.start.playheadTime.isSome ∧
              r.end_.playheadTime.isSome)).foldlM
          (fun (acc : PlaybackResults F) (r : Region F) => acc.addResult r) pr).map
          (fun acc => (l.map (fun (r : Region F) =>
              if r.start.sampleCounter = resp.reqId then r.applyResponse resp else r), acc)) := by
  intro l
  induction l with
  | nil => intro pr; rfl
  | cons x xs ih =>
    intro pr
    unfold responseLoop
    by_cases hid : x.start.sampleCounter = resp.reqId
    · simp only [if_pos hid, applyResponse_start, applyResponse_end, List.map_cons]
      by_cases hp : x.start.playheadTime.isSome = true ∧ x.end_.playheadTime.isSome = true
      · rw [if_pos hp]
        rw [List.filter_cons_of_pos (by simp [applyResponse_start, applyResponse_end, hid, hp])]
        rw [List.foldlM_cons]
        cases hadd : pr.addResult (x.applyResponse resp) with
        | none => rfl
        | some pr1 =>
          simp only [Option.some_bind, Option.bind_eq_bind]
          rw [ih pr1]
          cases (List.foldlM (fun (acc : PlaybackResults F) (r : Region F) => acc.addResult r) pr1
            (List.filter _ (List.map _ xs))) <;> rfl
      · rw [if_neg hp]
        rw [List.filter_cons_of_neg (by simp [applyResponse_start, applyResponse_end, hid]; simpa using hp)]
        simp only
        rw [ih pr]
        cases (List.foldlM (fun (acc : PlaybackResults F) (r : Region F) => acc.addResult r) pr
            (List.filter _ (List.map _ xs))) <;> rfl
    · simp only [if_neg hid, List.map_cons]
      rw [List.filter_cons_of_neg (by simp [hid])]
      rw [ih pr]
      cases (List.foldlM (fun (acc : PlaybackResults F) (r : Region F) => acc.addResult r) pr
            (List.filter _ (List.map _ xs))) <;> rfl

theorem addResult_defined {F : Type} (pr : PlaybackResults F) (r : Region F)
    (hps : r.start.playheadTime.isSome) (hf : pr.regionFrequency ≠ 0) :
    ∃ pr', pr.addResult r = some pr' ∧ pr'.regionFrequency = pr.regionFrequency := by
  obtain ⟨ps, hps'⟩ := Option.isSome_iff_exists.mp hps
  unfold PlaybackResults.addResult
  simp only [hps', calcPlaybackAlignmentOffsetFromZero, if_neg hf]
  split
  · split
    · exact ⟨_, rfl, rfl⟩
    · exact ⟨_, rfl, rfl⟩
  · exact ⟨_, rfl, rfl⟩

theorem foldlM_addResult_defined {F : Type} :
    ∀ (l : List (Region F)) (pr : PlaybackResults F),
      (∀ r ∈ l, r.start.playheadTime.isSome) → pr.regionFrequency ≠ 0 →
      (l.foldlM (fun (acc : PlaybackResults F) (r : Region F) => acc.addResult r) pr).isSome := by
  intro l
  induction l with
  | nil => intro pr _ _; rfl
  | cons x xs ih =>
    intro pr hl hf
    obtain ⟨pr1, h1, h2⟩ := addResult_defined pr x (hl x (List.mem_cons_self _ _)) hf
    rw [List.foldlM_cons, h1]
    exact ih pr1 (fun r hr => hl r (List.mem_cons_of_mem _ hr)) (by rw [h2]; exact hf)

/-- C13: when the control tick polls a response `resp`, the regions afterwards are the
dispatched regions where every region whose start transport position equals `resp.reqId` has
state `COMPLETE` and result `resp.result` if `resp.success`, and state `FAILURE` with its
result kept otherwise, and every other region is as it was; the aggregator afterwards is the
one before with `addResult` applied, in region order, to exactly the updated regions that
match the id and carry a playhead time on both their start and their end. The tick returns
whenever the aggregator's `regionFrequency` is not zero. -/
theorem updateRegions_response {C F : Type} (comms : ServiceCommunicator C F)
    (a : AnalysisRegions F) (c : C) (resp : Response F)
    (hpoll : (comms.getResponse (a.dispatched comms c).2).1 = some resp) :
    ∃ after : List (Region F),
      after = (a.dispatched comms c).1.map (fun (r : Region F) =>
        if r.start.sampleCounter = resp.reqId then
          (if resp.success then
            { r with analysisResult := resp.result, analysisState := Region.State.COMPLETE }
           else { r with analysisState := Region.State.FAILURE })
        else r) ∧
      a.updateRegions comms c =
        ((after.filter (fun (r : Region F) => r.start.sampleCounter = resp.reqId ∧
              r.start.playheadTime.isSome ∧ r.end_.playheadTime.isSome)).foldlM
            (fun (acc : PlaybackResults F) (r : Region F) => acc.addResult r) a.playbackResults).map
          (fun acc => ({ a with regions := after, playbackResults := acc },
            (comms.getResponse (a.dispatched comms c).2).2)) ∧
      (a.playbackResults.regionFrequency ≠ 0 → (a.updateRegions comms c).isSome) := by
  refine ⟨_, rfl, ?_⟩
  have heq : a.updateRegions comms c =
      (((((a.dispatched comms c).1.map (fun (r : Region F) =>
              if r.start.sampleCounter = resp.reqId then r.applyResponse resp else r)).filter
            (fun (r : Region F) => r.start.sampleCounter = resp.reqId ∧ r.start.playheadTime.isSome ∧
              r.end_.playheadTime.isSome)).foldlM
          (fun (acc : PlaybackResults F) (r : Region F) => acc.addResult r) a.playbackResults).map
          (fun acc => ({ a with
            regions := (a.dispatched comms c).1.map (fun (r : Region F) =>
              if r.start.sampleCounter = resp.reqId then r.applyResponse resp else r),
            playbackResults := acc },
            (comms.getResponse (a.dispatched comms c).2).2))) := by
    unfold AnalysisRegions.updateRegions
    simp only [hpoll, responseLoop_eq]
    cases (List.foldlM (fun (acc : PlaybackResults F) (r : Region F) => acc.addResult r) a.playbackResults
            (List.filter _ (List.map _ (a.dispatched comms c).1))) <;> rfl
  refine ⟨heq, ?_⟩
  intro hf
  have hdef := foldlM_addResult_defined
    (((a.dispatched comms c).1.map (fun (r : Region F) =>
        if r.start.sampleCounter = resp.reqId then r.applyResponse resp else r)).filter
      (fun (r : Region F) => r.start.sampleCounter = resp.reqId ∧ r.start.playheadTime.isSome ∧
        r.end_.playheadTime.isSome)) a.playbackResults
    (fun r hr => by
      have := (List.mem_filter.mp hr).2
      simp only [decide_eq_true_eq] at this
      exact this.2.1) hf
  obtain ⟨v, hv⟩ := Option.isSome_iff_exists.mp hdef
  rw [heq, hv]
  rfl

/-- Witness of C13: the channel answers request 100 with success and value 7; the region
starting at 100 becomes `COMPLETE` with result 7 and is stored in the aggregator, the region
starting at 110 stays `PENDING`. -/
theorem updateRegions_response_witness :
    ((deafChannel (some ⟨100, 7, true⟩)).getResponse
        (awaitingScheduler.dispatched (deafChannel (some ⟨100, 7, true⟩)) ()).2).1 =
      some ⟨100, 7, true⟩ ∧
    (awaitingScheduler.updateRegions (deafChannel (some ⟨100, 7, true⟩)) ()).isSome ∧
    (awaitingScheduler.updateRegions (deafChannel (some ⟨100, 7, true⟩)) ()).map
        (fun s => (regionStates s.1, s.1.playbackResults.getResults.playheadStartTimes,
          s.1.playbackResults.getResults.playthroughOffsets)) =
      some ([(100, Region.State.COMPLETE), (110, Region.State.PENDING)], [0], [100]) :=
  ⟨rfl,
    (updateRegions_response (deafChannel (some ⟨100, 7, true⟩)) awaitingScheduler ()
      ⟨100, 7, true⟩ rfl).elim (fun _ h => h.2.2 (by decide)),
    by decide⟩

/-! ## Region creation: playhead tags, rejection and insertion -/

theorem taggedEdges_counters {F : Type} (a : AnalysisRegions F) (s : Int) :
    (a.taggedEdges s).1.sampleCounter = s ∧
    (a.taggedEdges s).2.1.sampleCounter = s + a.regionSize := by
  unfold AnalysisRegions.taggedEdges
  cases a.lastKnownPlaybackRegion.start <;> exact ⟨rfl, rfl⟩

theorem taggedEdges_no_window {F : Type} (a : AnalysisRegions F) (s : Int)
    (hstart : a.lastKnownPlaybackRegion.start = none) :
    (a.taggedEdges s).1.playheadTime = none ∧ (a.taggedEdges s).2.1.playheadTime = none := by
  simp [AnalysisRegions.taggedEdges, hstart, TimePoint.addDelta]

theorem taggedEdges_window {F : Type} (a : AnalysisRegions F) (s : Int)
    (w : PlaybackTimePoint) (hstart : a.lastKnownPlaybackRegion.start = some w)
    (hsize : 0 < a.regionSize) :
    (a.taggedEdges s).1.playheadTime =
      (if w.sampleCounter ≤ s ∧ ∀ e ∈ a.lastKnownPlaybackRegion.end_, s < e.sampleCounter
        then some (s - (w.sampleCounter - w.playheadTime)) else none) ∧
    (a.taggedEdges s).2.1.playheadTime =
      (if w.sampleCounter < s + a.regionSize ∧
          ∀ e ∈ a.lastKnownPlaybackRegion.end_, s + a.regionSize ≤ e.sampleCounter
        then some (s + a.regionSize - (w.sampleCounter - w.playheadTime)) else none) := by
  unfold AnalysisRegions.taggedEdges
  simp only [hstart, TimePoint.addDelta, playbackFlags]
  cases he : a.lastKnownPlaybackRegion.end_ with
  | none =>
    simp only [Option.mem_def, reduceCtorEq, false_implies, implies_true, and_true]
    by_cases h1 : s + a.regionSize > w.sampleCounter
    · by_cases h2 : w.sampleCounter ≤ s
      · simp [h1, h2]
      · simp [h1, h2]
    · have h2 : ¬ w.sampleCounter ≤ s := by omega
      have h3 : ¬ w.sampleCounter < s + a.regionSize := by omega
      simp [h1, h2, h3]
  | some e =>
    simp only [Option.mem_def, Option.some.injEq, forall_eq']
    by_cases hg : s < e.sampleCounter ∧ s + a.regionSize > w.sampleCounter
    · by_cases h2 : w.sampleCounter ≤ s
      · by_cases h3 : s + a.regionSize ≤ e.sampleCounter
        · simp [hg, h2, h3, hg.1, hg.2]
        · simp [hg, h2, h3, hg.1, hg.2]
      · by_cases h3 : s + a.regionSize ≤ e.sampleCounter
        · simp [hg, h2, h3, hg.1, hg.2]
        · simp [hg, h2, h3, hg.1, hg.2]
    · have h2 : ¬ (w.sampleCounter ≤ s ∧ s < e.sampleCounter) := by omega
      have h3 : ¬ (w.sampleCounter < s + a.regionSize ∧ s + a.regionSize ≤ e.sampleCounter) := by
        omega
      simp [hg, h2, h3]

/-- C14: a region created by `addNewRegion` at start `s` with `regionSize > 0` spans the
transport positions `[s, s + regionSize)`. When the known playback window has a start with
transport position `c` and playhead time `p`, the region's start has playhead time
`s - (c - p)` exactly when `c ≤ s` and the window is open or `s` is before the window end,
otherwise none; its end `e = s + regionSize` has playhead time `e - (c - p)` exactly when
`c < e` and the window is open or `e` is not after the window end, otherwise none. With no
window start neither edge has a playhead time. So an edge that has a playhead time differs
from it by the playthrough offset `c - p` of the window. -/
theorem addNewRegion_playhead_tags {F : Type} [Zero F] (a a' : AnalysisRegions F) (s : Int)
    (hsize : 0 < a.regionSize) (h : a.addNewRegion s = some (true, a')) :
    ∃ r ∈ a'.regions, r.start.sampleCounter = s ∧ r.end_.sampleCounter = s + a.regionSize ∧
      (a.lastKnownPlaybackRegion.start = none →
        r.start.playheadTime = none ∧ r.end_.playheadTime = none) ∧
      (∀ w, a.lastKnownPlaybackRegion.start = some w →
        r.start.playheadTime =
          (if w.sampleCounter ≤ s ∧ ∀ e ∈ a.lastKnownPlaybackRegion.end_, s < e.sampleCounter
            then some (s - (w.sampleCounter - w.playheadTime)) else none) ∧
        r.end_.playheadTime =
          (if w.sampleCounter < s + a.regionSize ∧
              ∀ e ∈ a.lastKnownPlaybackRegion.end_, s + a.regionSize ≤ e.sampleCounter
            then some (s + a.regionSize - (w.sampleCounter - w.playheadTime)) else none) ∧
        (∀ ps, r.start.playheadTime = some ps →
          r.start.sampleCounter - ps = w.sampleCounter - w.playheadTime) ∧
        (∀ pe, r.end_.playheadTime = some pe →
          r.end_.sampleCounter - pe = w.sampleCounter - w.playheadTime)) := by
  obtain ⟨r, hr, hst, hen, _, _⟩ := addNewRegion_created a a' s h
  have hc := taggedEdges_counters a s
  refine ⟨r, hr, by rw [hst]; exact hc.1, by rw [hen]; exact hc.2, ?_, ?_⟩
  · intro hnone
    rw [hst, hen]
    exact taggedEdges_no_window a s hnone
  · intro w hw
    have ht := taggedEdges_window a s w hw hsize
    rw [hst, hen]
    refine ⟨ht.1, ht.2, ?_, ?_⟩
    · intro ps hps
      rw [ht.1] at hps
      split at hps
      · simp only [Option.some.injEq] at hps
        rw [hc.1]; omega
      · cases hps
    · intro pe hpe
      rw [ht.2] at hpe
      split at hpe
      · simp only [Option.some.injEq] at hpe
        rw [hc.2]; omega
      · cases hpe

/-- Witness of C14: the open window started at transport position 1000 with playhead time
7; the region created at 1000 has playhead times 7 and 57. -/
theorem addNewRegion_playhead_tags_witness :
    ∃ a', (playingScheduler Alignment.NONE).addNewRegion 1000 = some (true, a') ∧
      ∃ r ∈ a'.regions, r.start.sampleCounter = 1000 ∧ r.end_.sampleCounter = 1000 + 50 ∧
        r.start.playheadTime = some 7 ∧ r.end_.playheadTime = some 57 :=
  ⟨_, rfl,
    (addNewRegion_playhead_tags (playingScheduler Alignment.NONE) _ 1000 (by decide) rfl).imp
      (fun _ hr => ⟨hr.1, hr.2.1, hr.2.2.1,
        ((hr.2.2.2.2 ⟨16000, 1000, 7⟩ rfl).1.trans (by decide)),
        ((hr.2.2.2.2 ⟨16000, 1000, 7⟩ rfl).2.1.trans (by decide))⟩)⟩

theorem regionsEmplace_insert {F : Type} (s : Int) :
    ∀ l : List (Region F), (∀ x ∈ l, x.start.sampleCounter ≠ s) →
      ∃ pre post, l = pre ++ post ∧
        ∀ r : Region F, r.start.sampleCounter = s →
          regionsEmplace r l = (pre ++ r :: post, true) := by
  intro l
  induction l with
  | nil => intro _; exact ⟨[], [], rfl, fun _ _ => rfl⟩
  | cons x xs ih =>
    intro h
    have hx := h x (List.mem_cons_self _ _)
    by_cases h1 : s < x.start.sampleCounter
    · refine ⟨[], x :: xs, rfl, ?_⟩
      intro r hr
      unfold regionsEmplace
      rw [if_pos (by rw [hr]; exact h1)]
      rfl
    · have h2 : x.start.sampleCounter < s := by omega
      obtain ⟨pre, post, hl, he⟩ := ih (fun y hy => h y (List.mem_cons_of_mem _ hy))
      refine ⟨x :: pre, post, by rw [hl]; rfl, ?_⟩
      intro r hr
      unfold regionsEmplace
      rw [if_neg (by rw [hr]; exact h1), if_pos (by rw [hr]; exact h2), he r hr]
      rfl

/-- C15 (as amended): `addNewRegion(s)` returns false and leaves the whole state, the region
set and the aggregator with it, unchanged whenever `s + regionSize` is not below the current
transport position. When `s + regionSize` is below the current transport position, no
region starts at `s` and `regionFrequency` is not zero, it returns true and the region set
afterwards is the one before with exactly one region inserted, which spans
`[s, s + regionSize)`, is `PENDING` and is not stale. -/
theorem addNewRegion_rejects_or_inserts {F : Type} [Zero F] (a : AnalysisRegions F) (s : Int) :
    (s + a.regionSize ≥ a.curTime.sampleCounter → a.addNewRegion s = some (false, a)) ∧
    (s + a.regionSize < a.curTime.sampleCounter →
      (∀ x ∈ a.regions, x.start.sampleCounter ≠ s) → a.regionFrequency ≠ 0 →
      ∃ a' r pre post, a.addNewRegion s = some (true, a') ∧
        a.regions = pre ++ post ∧ a'.regions = pre ++ r :: post ∧
        r.start.sampleCounter = s ∧ r.end_.sampleCounter = s + a.regionSize ∧
        r.analysisState = Region.State.PENDING ∧ r.stale = false) := by
  constructor
  · intro hfut
    unfold AnalysisRegions.addNewRegion
    rw [if_pos hfut]
  · intro hcur hfree hf
    have hfut : ¬ s + a.regionSize ≥ a.curTime.sampleCounter := by omega
    have hc := taggedEdges_counters a s
    obtain ⟨pre, post, hl, he⟩ := regionsEmplace_insert s a.regions hfree
    have hemp : ∀ (e : TimePoint) (n : Nat) (d : Bool),
        regionsEmplace (Region.new (a.taggedEdges s).1 e n d : Region F) a.regions =
          (pre ++ Region.new (a.taggedEdges s).1 e n d :: post, true) :=
      fun e n d => he _ hc.1
    unfold AnalysisRegions.addNewRegion
    rw [if_neg hfut]
    simp only [hemp]
    cases hps : (a.taggedEdges s).1.playheadTime with
    | none => exact ⟨_, _, pre, post, rfl, hl, rfl, hc.1, hc.2, rfl, rfl⟩
    | some ps =>
      cases hpe : (a.taggedEdges s).2.1.playheadTime with
      | none => exact ⟨_, _, pre, post, rfl, hl, rfl, hc.1, hc.2, rfl, rfl⟩
      | some pe =>
        simp only [PlaybackResults.setConfigFromRegion, calcPlaybackAlignmentOffsetFromZero,
          if_neg hf]
        exact ⟨_, _, pre, post, rfl, hl, rfl, hc.1, hc.2, rfl, rfl⟩

/-- Witness of C15 (as amended): at transport position 2000 with region size 50 a start at
1950 is rejected; a start at 1000 inserts the region `[1000, 1050)`. -/
theorem addNewRegion_rejects_or_inserts_witness :
    (playingScheduler Alignment.NONE).addNewRegion 1950 =
      some (false, playingScheduler Alignment.NONE) ∧
    ∃ a' r pre post, (playingScheduler Alignment.NONE).addNewRegion 1000 = some (true, a') ∧
      (playingScheduler Alignment.NONE).regions = pre ++ post ∧
      a'.regions = pre ++ r :: post ∧
      r.start.sampleCounter = 1000 ∧ r.end_.sampleCounter = 1000 + 50 ∧
      r.analysisState = Region.State.PENDING ∧ r.stale = false :=
  ⟨(addNewRegion_rejects_or_inserts (playingScheduler Alignment.NONE) 1950).1 (by decide),
    (addNewRegion_rejects_or_inserts (playingScheduler Alignment.NONE) 1000).2 (by decide)
      (by intro x hx; simp [playingScheduler, AnalysisRegions.new] at hx) (by decide)⟩

/-- C15 as stated fails for a zero `regionFrequency`: with the open playback window of the
playing scheduler, the region `[1000, 1050)` is in the past and no region starts at 1000,
yet `addNewRegion(1000)` does not return: both edges get playhead times and
`setConfigFromRegion` takes the remainder of a division by zero. -/
theorem addNewRegion_zero_frequency :
    (1000 : Int) + ({ playingScheduler Alignment.NONE with
        regionFrequency := 0 } : AnalysisRegions Int).regionSize <
      ({ playingScheduler Alignment.NONE with
        regionFrequency := 0 } : AnalysisRegions Int).curTime.sampleCounter ∧
    ({ playingScheduler Alignment.NONE with
        regionFrequency := 0 } : AnalysisRegions Int).regions = [] ∧
    ({ playingScheduler Alignment.NONE with
        regionFrequency := 0 } : AnalysisRegions Int).addNewRegion 1000 = none := by
  decide

/-- C16: with alignment `NONE`, `addNewRegionIfRequired` is `addNewRegion` at the start of
the newest region plus `regionFrequency` when a region exists, and at
`max(current transport position - regionSize - 1, 0)` when the region set is empty. -/
theorem addNewRegionIfRequired_free_run {F : Type} [Zero F] (a : AnalysisRegions F)
    (halign : a.alignment = Alignment.NONE) :
    a.addNewRegionIfRequired =
      a.addNewRegion
        (match a.regions.getLast? with
          | some r => r.start.sampleCounter + a.regionFrequency
          | none => max (a.curTime.sampleCounter - a.regionSize - 1) 0) := by
  have hfree : (let regionStartNow := a.curTime.sampleCounter - a.regionSize - 1
      let nextRegionStart :=
        match a.getLastAddedRegionSampleCounters with
        | some span => span.1 + a.regionFrequency
        | none => if regionStartNow > 0 then regionStartNow else 0
      a.addNewRegion nextRegionStart) =
      a.addNewRegion
        (match a.regions.getLast? with
          | some r => r.start.sampleCounter + a.regionFrequency
          | none => max (a.curTime.sampleCounter - a.regionSize - 1) 0) := by
    unfold AnalysisRegions.getLastAddedRegionSampleCounters
    cases a.regions.getLast? with
    | some r => rfl
    | none =>
      simp only [Option.map_none']
      congr 1
      by_cases hpos : a.curTime.sampleCounter - a.regionSize - 1 > 0
      · rw [if_pos hpos, max_eq_left (by omega)]
      · rw [if_neg hpos, max_eq_right (by omega)]
  unfold AnalysisRegions.addNewRegionIfRequired
  simp only [halign, ne_eq, not_true_eq_false, false_and, if_false]
  cases a.lastKnownPlaybackRegion.start with
  | none => exact hfree
  | some w => exact hfree

/-- Witness of C16: with no region yet, transport position 2000 and region size 50 the
proposed start is 1949; with regions starting at 100 and 110 and region frequency 10 it is
120. -/
theorem addNewRegionIfRequired_free_run_witness :
    (playingScheduler Alignment.NONE).addNewRegionIfRequired =
      (playingScheduler Alignment.NONE).addNewRegion 1949 ∧
    ({ schedulerWith [pendingRegion 100 0, pendingRegion 110 1] with
        alignment := Alignment.NONE } : AnalysisRegions Int).addNewRegionIfRequired =
      ({ schedulerWith [pendingRegion 100 0, pendingRegion 110 1] with
        alignment := Alignment.NONE } : AnalysisRegions Int).addNewRegion 120 :=
  ⟨addNewRegionIfRequired_free_run (playingScheduler Alignment.NONE) rfl,
    addNewRegionIfRequired_free_run
      ({ schedulerWith [pendingRegion 100 0, pendingRegion 110 1] with
        alignment := Alignment.NONE } : AnalysisRegions Int) rfl⟩

/-! ## Stale regions -/

/-- C19: `updateAsStale` keeps exactly the regions in state `IN_PROGRESS` or `COMPLETE`,
in their order, each with `stale` set and every other field as it was; the regions in state
`PENDING`, `TIMEOUT` or `FAILURE` are removed. So every region afterwards is stale and is
not `PENDING`, `TIMEOUT` or `FAILURE`. -/
theorem updateAsStale_keeps_useful {F : Type} (a : AnalysisRegions F) :
    a.updateAsStale.regions =
      (a.regions.filter (fun (r : Region F) =>
          r.analysisState = Region.State.IN_PROGRESS ∨
          r.analysisState = Region.State.COMPLETE)).map
        (fun (r : Region F) =>
          (⟨r.start, r.end_, r.count, r.wasDuringPlayback, r.analysisState, true,
            r.analysisResult⟩ : Region F)) ∧
    (∀ r ∈ a.updateAsStale.regions, r.stale = true ∧
      r.analysisState ≠ Region.State.PENDING ∧ r.analysisState ≠ Region.State.TIMEOUT ∧
      r.analysisState ≠ Region.State.FAILURE) ∧
    (∀ r ∈ a.regions,
      (r.analysisState = Region.State.PENDING ∨ r.analysisState = Region.State.TIMEOUT ∨
        r.analysisState = Region.State.FAILURE) →
      ∀ r' ∈ a.updateAsStale.regions,
        ¬ (r'.start = r.start ∧ r'.end_ = r.end_ ∧ r'.count = r.count ∧
          r'.analysisState = r.analysisState)) := by
  have hfilter : a.regions.filter (fun (region : Region F) =>
      ¬ (region.analysisState = Region.State.PENDING ∨
         region.analysisState = Region.State.TIMEOUT ∨
         region.analysisState = Region.State.FAILURE)) =
      a.regions.filter (fun (r : Region F) =>
          r.analysisState = Region.State.IN_PROGRESS ∨
          r.analysisState = Region.State.COMPLETE) := by
    apply List.filter_congr
    intro r _
    cases r.analysisState <;> simp
  have heq : a.updateAsStale.regions =
      (a.regions.filter (fun (r : Region F) =>
          r.analysisState = Region.State.IN_PROGRESS ∨
          r.analysisState = Region.State.COMPLETE)).map
        (fun (r : Region F) =>
          (⟨r.start, r.end_, r.count, r.wasDuringPlayback, r.analysisState, true,
            r.analysisResult⟩ : Region F)) := by
    unfold AnalysisRegions.updateAsStale
    simp only [hfilter]
  have hall : ∀ r ∈ a.updateAsStale.regions, r.stale = true ∧
      r.analysisState ≠ Region.State.PENDING ∧ r.analysisState ≠ Region.State.TIMEOUT ∧
      r.analysisState ≠ Region.State.FAILURE := by
    intro r hr
    rw [heq, List.mem_map] at hr
    obtain ⟨x, hx, rfl⟩ := hr
    have hs := (List.mem_filter.mp hx).2
    simp only [decide_eq_true_eq] at hs
    refine ⟨rfl, ?_, ?_, ?_⟩ <;> rcases hs with hs | hs <;> simp [hs]
  refine ⟨heq, hall, ?_⟩
  intro r _ hstate r' hr' hsame
  have h := hall r' hr'
  rw [hsame.2.2.2] at h
  rcases hstate with hs | hs | hs
  · exact h.2.1 hs
  · exact h.2.2.1 hs
  · exact h.2.2.2 hs

/-! ## Time point arithmetic -/

/-- C17 (as amended): for time points `a` and `b` at the same sample rate, which is not
zero, and whatever the double arithmetic does, `a + b` and `a - b` keep the sample rate of
`a`, have the sum and the difference of the transport counters, and a playhead time that is
present if and only if both playhead times are present, then their sum and difference. For
an integer `d`, `a + d` and `a - d` shift the transport counter by `d`, shift the playhead
time by `d` when present and leave it absent when absent. -/
theorem timePoint_arithmetic (fp : DoubleArith) (a b : TimePoint) (d : Int)
    (hrate : a.sampleRate = b.sampleRate) (hpos : a.sampleRate ≠ 0) :
    a.add fp b = some ⟨a.sampleRate, a.sampleCounter + b.sampleCounter,
      match a.playheadTime, b.playheadTime with
      | some p, some q => some (p + q)
      | _, _ => none⟩ ∧
    a.sub fp b = some ⟨a.sampleRate, a.sampleCounter - b.sampleCounter,
      match a.playheadTime, b.playheadTime with
      | some p, some q => some (p - q)
      | _, _ => none⟩ ∧
    (∀ c, a.add fp b = some c →
      (c.playheadTime.isSome ↔ (a.playheadTime.isSome ∧ b.playheadTime.isSome))) ∧
    (∀ c, a.sub fp b = some c →
      (c.playheadTime.isSome ↔ (a.playheadTime.isSome ∧ b.playheadTime.isSome))) ∧
    a.addDelta d = ⟨a.sampleRate, a.sampleCounter + d,
      match a.playheadTime with
      | some p => some (p + d)
      | none => none⟩ ∧
    a.subDelta d = ⟨a.sampleRate, a.sampleCounter - d,
      match a.playheadTime with
      | some p => some (p - d)
      | none => none⟩ := by
  have hratio : b.sampleRate / a.sampleRate = 1 := by
    rw [← hrate]
    exact Nat.div_self (Nat.pos_of_ne_zero hpos)
  have hadd : a.add fp b = some ⟨a.sampleRate, a.sampleCounter + b.sampleCounter,
      match a.playheadTime, b.playheadTime with
      | some p, some q => some (p + q)
      | _, _ => none⟩ := by
    unfold TimePoint.add
    rw [if_neg hpos]
    simp only [hratio, Nat.cast_one, TimePoint.div, if_true]
  have hsub : a.sub fp b = some ⟨a.sampleRate, a.sampleCounter - b.sampleCounter,
      match a.playheadTime, b.playheadTime with
      | some p, some q => some (p - q)
      | _, _ => none⟩ := by
    unfold TimePoint.sub
    rw [if_neg hpos]
    simp only [hratio, Nat.cast_one, TimePoint.div, if_true]
  refine ⟨hadd, hsub, ?_, ?_, ?_, ?_⟩
  · intro c hc
    rw [hadd] at hc
    simp only [Option.some.injEq] at hc
    rw [← hc]
    cases a.playheadTime <;> cases b.playheadTime <;> simp
  · intro c hc
    rw [hsub] at hc
    simp only [Option.some.injEq] at hc
    rw [← hc]
    cases a.playheadTime <;> cases b.playheadTime <;> simp
  · unfold TimePoint.addDelta
    cases a.playheadTime <;> rfl
  · unfold TimePoint.subDelta
    cases a.playheadTime <;> rfl

/-- Witness of C17 (as amended): two time points at 16000 Hz, one without a playhead
time. -/
theorem timePoint_arithmetic_witness :
    TimePoint.add binary64 ⟨16000, 100, some 7⟩ ⟨16000, 30, none⟩ =
      some ⟨16000, 130, none⟩ ∧
    TimePoint.sub binary64 ⟨16000, 100, some 7⟩ ⟨16000, 30, none⟩ =
      some ⟨16000, 70, none⟩ :=
  ⟨(timePoint_arithmetic binary64 ⟨16000, 100, some 7⟩ ⟨16000, 30, none⟩ 5 rfl
      (by decide)).1,
    (timePoint_arithmetic binary64 ⟨16000, 100, some 7⟩ ⟨16000, 30, none⟩ 5 rfl
      (by decide)).2.1⟩

/-- C17 as stated fails at sample rate 0: both time points have the same sample rate, and
`a + b` and `a - b` divide the one rate by the other, zero by zero, in unsigned integers,
before any `double` arithmetic is done. -/
theorem timePoint_add_zero_rate :
    (⟨0, 100, some 7⟩ : TimePoint).sampleRate = (⟨0, 30, some 2⟩ : TimePoint).sampleRate ∧
    TimePoint.add binary64 ⟨0, 100, some 7⟩ ⟨0, 30, some 2⟩ = none ∧
    TimePoint.sub binary64 ⟨0, 100, some 7⟩ ⟨0, 30, some 2⟩ = none :=
  ⟨rfl, rfl, rfl⟩

/-! ## Sending a request -/

/-- C20 at a failing input: the ring of capacity 4 holds the samples of transport positions
0, 1, 2 and the request is for 4 samples from position 1. `getSamples` returns false and
leaves the zero-filled sample area as it is; the socket takes the message, and
`sendRequest` returns true, counts an outstanding reply and has sent the request id with
four zeros that were never read. The same happens with a ring nothing was written to. -/
theorem sendRequest_sends_unread_window :
    threeSamples.getSamples ⟨16000, 1, none⟩ [0, 0, 0, 0] = some (false, [0, 0, 0, 0]) ∧
    Comms.sendRequest openSocket ⟨0, []⟩ ⟨16000, 1, none⟩ 4 threeSamples =
      some (true, ⟨1, [(1, [0, 0, 0, 0])]⟩) ∧
    (MonoCircularBuffer.ofLength 4 16000 : MonoCircularBuffer Int).getSamples
        ⟨16000, 1, none⟩ [0, 0] = some (false, [0, 0]) ∧
    Comms.sendRequest openSocket ⟨0, []⟩ ⟨16000, 1, none⟩ 2
        (MonoCircularBuffer.ofLength 4 16000 : MonoCircularBuffer Int) =
      some (true, ⟨1, [(1, [0, 0])]⟩) := by
  decide

/-! ## Sample rate conversion in binary64 arithmetic -/

theorem roundHalfEven_intCast (z : Int) : roundHalfEven (z : ℚ) = z := by
  unfold roundHalfEven
  simp

theorem abs_roundHalfEven_sub (q : ℚ) : |(roundHalfEven q : ℚ) - q| ≤ 1 / 2 := by
  have h1 := Int.floor_le q
  have h2 := Int.lt_floor_add_one q
  unfold roundHalfEven
  rw [abs_le]
  split
  · constructor <;> linarith
  · split
    · push_cast; constructor <;> linarith
    · split
      · constructor <;> linarith
      · push_cast; constructor <;> linarith

theorem roundHalfEven_of_upper_half (q : ℚ) (f : Int) (h1 : (f : ℚ) + 1 / 2 < q)
    (h2 : q < (f : ℚ) + 1) : roundHalfEven q = f + 1 := by
  have hf : Int.floor q = f := Int.floor_eq_iff.mpr ⟨by linarith, h2⟩
  unfold roundHalfEven
  rw [hf, if_neg (by linarith), if_pos (by linarith)]

theorem toDouble_of_binade (q : ℚ) (e : Int) (h1 : (2 : ℚ) ^ e ≤ |q|)
    (h2 : |q| < (2 : ℚ) ^ (e + 1)) :
    toDouble q = (roundHalfEven (q / 2 ^ (e - 52)) : ℚ) * 2 ^ (e - 52) := by
  have hpos : (0 : ℚ) < |q| := lt_of_lt_of_le (zpow_pos (by norm_num) e) h1
  have h0 : q ≠ 0 := abs_pos.mp hpos
  have hlog : Int.log 2 |q| = e := by
    have ha : e ≤ Int.log 2 |q| :=
      (Int.zpow_le_iff_le_log (b := 2) (by norm_num) hpos).mp (by push_cast; exact h1)
    have hb : Int.log 2 |q| < e + 1 :=
      (Int.lt_zpow_iff_log_lt (b := 2) (by norm_num) hpos).mp (by push_cast; exact h2)
    omega
  unfold toDouble
  rw [if_neg h0, hlog]

theorem toDouble_intCast (n : Int) (h : |n| < 2 ^ 53) : toDouble (n : ℚ) = n := by
  unfold toDouble
  by_cases h0 : (n : ℚ) = 0
  · rw [if_pos h0, h0]
  · rw [if_neg h0]
    have hpos : (0 : ℚ) < |(n : ℚ)| := abs_pos.mpr h0
    have hlt : |(n : ℚ)| < 2 ^ (53 : ℤ) := by
      have : ((|n| : Int) : ℚ) < ((2 ^ 53 : Int) : ℚ) := by exact_mod_cast h
      rw [Int.cast_abs] at this
      norm_num at this ⊢
      exact this
    have hlog : Int.log 2 |(n : ℚ)| < 53 := by
      have := Int.zpow_log_le_self (b := 2) (by norm_num) hpos
      have h2 : ((2 : ℕ) : ℚ) ^ Int.log 2 |(n : ℚ)| < ((2 : ℕ) : ℚ) ^ (53 : ℤ) := by
        push_cast at this ⊢
        exact lt_of_le_of_lt this hlt
      exact (zpow_lt_zpow_iff_right₀ (by norm_num)).mp h2
    obtain ⟨k, hk⟩ : ∃ k : ℕ, Int.log 2 |(n : ℚ)| - 52 = -(k : ℤ) := by
      refine ⟨(52 - Int.log 2 |(n : ℚ)|).toNat, ?_⟩
      rw [Int.toNat_of_nonneg (by omega)]
      omega
    rw [hk, zpow_neg, zpow_natCast, div_inv_eq_mul]
    have : (n : ℚ) * 2 ^ k = ((n * 2 ^ k : Int) : ℚ) := by push_cast; rfl
    rw [this, roundHalfEven_intCast]
    push_cast
    field_simp

theorem abs_toDouble_sub (q : ℚ) : |toDouble q - q| ≤ |q| / 2 ^ 53 := by
  unfold toDouble
  by_cases h0 : q = 0
  · rw [if_pos h0, h0]; simp
  · rw [if_neg h0]
    have hpos : (0 : ℚ) < |q| := abs_pos.mpr h0
    have hle := Int.zpow_log_le_self (b := 2) (by norm_num) hpos
    push_cast at hle
    set e := Int.log 2 |q| with he
    have hu : (0 : ℚ) < 2 ^ (e - 52) := zpow_pos (by norm_num) _
    have hr := abs_roundHalfEven_sub (q / 2 ^ (e - 52))
    have heq : (roundHalfEven (q / 2 ^ (e - 52)) : ℚ) * 2 ^ (e - 52) - q =
        ((roundHalfEven (q / 2 ^ (e - 52)) : ℚ) - q / 2 ^ (e - 52)) * 2 ^ (e - 52) := by
      field_simp
    rw [heq, abs_mul, abs_of_pos hu]
    have hsplit : (2 : ℚ) ^ (e - 52) = 2 ^ e / 2 ^ 52 := by
      rw [zpow_sub₀ (by norm_num)]
      norm_num
    calc |(roundHalfEven (q / 2 ^ (e - 52)) : ℚ) - q / 2 ^ (e - 52)| * 2 ^ (e - 52)
        ≤ 1 / 2 * 2 ^ (e - 52) := by
          exact mul_le_mul_of_nonneg_right hr hu.le
      _ = 2 ^ e / 2 ^ 53 := by rw [hsplit]; ring
      _ ≤ |q| / 2 ^ 53 := by
          exact div_le_div_of_nonneg_right hle (by positivity)

theorem truncate_intCast (c : Int) : truncate (c : ℚ) = c := by
  unfold truncate
  split <;> simp

theorem truncate_toDouble_div (x : Int) (m : Nat) (hm : 0 < m) (hx : |x| < 2 ^ 53) :
    truncate (toDouble ((x : ℚ) / (m : ℚ))) = Int.tdiv x m := by
  have hmq : (0 : ℚ) < (m : ℚ) := by exact_mod_cast hm
  have hmz : (0 : Int) < (m : Int) := by exact_mod_cast hm
  by_cases hdvd : (m : Int) ∣ x
  · obtain ⟨c, rfl⟩ := hdvd
    have hq : (((m : Int) * c : Int) : ℚ) / (m : ℚ) = (c : ℚ) := by
      push_cast
      field_simp
    have hc : |c| < 2 ^ 53 := by
      have h1 : |c| ≤ |(m : Int) * c| := by
        rw [abs_mul]
        have : (1 : Int) ≤ |(m : Int)| := by rw [abs_of_pos hmz]; omega
        nlinarith [abs_nonneg c]
      omega
    rw [hq, toDouble_intCast c hc, truncate_intCast]
    exact (Int.mul_tdiv_cancel_left c (by omega)).symm
  · have hdecomp := Int.ediv_add_emod x m
    have hr0 : 0 ≤ x % (m : Int) := Int.emod_nonneg x (by omega)
    have hr1 : x % (m : Int) < m := Int.emod_lt_of_pos x hmz
    have hr2 : x % (m : Int) ≠ 0 := fun h => hdvd (Int.dvd_of_emod_eq_zero h)
    set k := x / (m : Int) with hk
    set r := x % (m : Int) with hr
    have hq : (x : ℚ) / (m : ℚ) = (k : ℚ) + (r : ℚ) / (m : ℚ) := by
      have : (x : ℚ) = (m : ℚ) * (k : ℚ) + (r : ℚ) := by exact_mod_cast hdecomp.symm
      rw [this]
      field_simp
      ring
    have hrq1 : (1 : ℚ) ≤ (r : ℚ) := by
      have : (1 : Int) ≤ r := by omega
      exact_mod_cast this
    have hrq2 : (r : ℚ) + 1 ≤ (m : ℚ) := by
      have : r + 1 ≤ (m : Int) := by omega
      exact_mod_cast this
    have herr : |toDouble ((x : ℚ) / (m : ℚ)) - (x : ℚ) / (m : ℚ)| < 1 / (m : ℚ) := by
      refine lt_of_le_of_lt (abs_toDouble_sub _) ?_
      rw [abs_div, abs_of_pos hmq, div_div, mul_comm, ← div_div]
      apply div_lt_div_of_pos_right _ hmq
      rw [div_lt_one (by positivity)]
      have : ((|x| : Int) : ℚ) < ((2 ^ 53 : Int) : ℚ) := by exact_mod_cast hx
      rw [Int.cast_abs] at this
      norm_num at this ⊢
      exact this
    rw [abs_lt] at herr
    set d := toDouble ((x : ℚ) / (m : ℚ)) with hd
    have hlow : (k : ℚ) < d := by
      have h1 : (k : ℚ) + (r : ℚ) / (m : ℚ) - 1 / (m : ℚ) < d := by linarith [herr.1]
      have h2 : (1 : ℚ) / (m : ℚ) ≤ (r : ℚ) / (m : ℚ) := by
        apply div_le_div_of_nonneg_right hrq1 hmq.le
      linarith
    have hhigh : d < (k : ℚ) + 1 := by
      have h1 : d < (k : ℚ) + (r : ℚ) / (m : ℚ) + 1 / (m : ℚ) := by linarith [herr.2]
      have h2 : (r : ℚ) / (m : ℚ) + 1 / (m : ℚ) ≤ 1 := by
        rw [← add_div, div_le_one hmq]
        exact hrq2
      linarith
    have hfloor : Int.floor d = k := Int.floor_eq_iff.mpr ⟨hlow.le, hhigh⟩
    have hceil : Int.ceil d = k + 1 := by
      apply Int.ceil_eq_iff.mpr
      push_cast
      exact ⟨by linarith, hhigh.le⟩
    unfold truncate
    by_cases hx0 : 0 ≤ x
    · have hk0 : 0 ≤ k := Int.ediv_nonneg hx0 (by omega)
      have hd0 : (0 : ℚ) ≤ d := by
        have : (0 : ℚ) ≤ (k : ℚ) := by exact_mod_cast hk0
        linarith
      rw [if_pos hd0, hfloor, Int.tdiv_eq_ediv hx0 (by omega)]
    · have hxneg : x < 0 := by omega
      have hk0 : k + 1 ≤ 0 := by
        have : k < 0 := Int.ediv_neg' hxneg hmz
        omega
      have hd0 : ¬ (0 : ℚ) ≤ d := by
        have : ((k + 1 : Int) : ℚ) ≤ 0 := by exact_mod_cast hk0
        push_cast at this
        linarith
      rw [if_neg hd0, hceil]
      have h1 : x.tdiv (m : Int) = -((-x).tdiv (m : Int)) := by
        rw [Int.neg_tdiv, neg_neg]
      have h2 : (-x) / (m : Int) = -k - 1 := by
        have := (Int.ediv_emod_unique (a := -x) (b := (m : Int)) (r := (m : Int) - r)
          (q := -k - 1) hmz).mpr ⟨by rw [← hdecomp]; ring, by omega, by omega⟩
        exact this.1
      rw [h1, Int.tdiv_eq_ediv (by omega) (by omega), h2]
      ring


theorem toDouble_natCast (n : Nat) (h : n < 2 ^ 53) : toDouble (n : ℚ) = n := by
  have := toDouble_intCast (n : Int) (by rw [abs_of_nonneg (by omega)]; exact_mod_cast h)
  simpa using this

theorem binary64_ratio (m r : Nat) (hm : 0 < m) (hr : 0 < r) (h : m * r < 2 ^ 32) :
    binary64.ratio (m * r) r = (m : ℚ) := by
  have hrq : (r : ℚ) ≠ 0 := by exact_mod_cast hr.ne'
  have hm53 : m < 2 ^ 53 := by
    have : m ≤ m * r := Nat.le_mul_of_pos_right m hr
    omega
  have hr53 : r < 2 ^ 53 := by
    have : r ≤ m * r := Nat.le_mul_of_pos_left r hm
    omega
  show toDouble (toDouble ((m * r : Nat) : ℚ) / toDouble (r : ℚ)) = (m : ℚ)
  rw [toDouble_natCast (m * r) (by omega), toDouble_natCast r hr53]
  have : ((m * r : Nat) : ℚ) / (r : ℚ) = (m : ℚ) := by
    push_cast
    field_simp
  rw [this, toDouble_natCast m hm53]

theorem binary64_scaleRate (m r : Nat) (hm : 0 < m) (hr : 0 < r) (h : m * r < 2 ^ 32) :
    binary64.scaleRate (m * r) (m : ℚ) = r := by
  have hmq : (m : ℚ) ≠ 0 := by exact_mod_cast hm.ne'
  have hr53 : r < 2 ^ 53 := by
    have : r ≤ m * r := Nat.le_mul_of_pos_left r hm
    omega
  show (truncate (toDouble (toDouble ((m * r : Nat) : ℚ) / (m : ℚ)))).toNat = r
  rw [toDouble_natCast (m * r) (by omega)]
  have : ((m * r : Nat) : ℚ) / (m : ℚ) = ((r : Int) : ℚ) := by
    push_cast
    field_simp
  rw [this, toDouble_intCast (r : Int) (by rw [abs_of_nonneg (by omega)]; exact_mod_cast hr53),
    truncate_intCast]
  rfl

theorem binary64_scaleCounter (x : Int) (m : Nat) (hm : 0 < m) (hx : |x| < 2 ^ 53) :
    binary64.scaleCounter x (m : ℚ) = Int.tdiv x m := by
  show truncate (toDouble (toDouble (x : ℚ) / (m : ℚ))) = Int.tdiv x m
  rw [toDouble_intCast x hx]
  exact truncate_toDouble_div x m hm hx

/-- C18 (as amended): for a time point `t` whose sample rate (a positive 32-bit number) is
the multiple `m` of the new rate `r`, and whose transport counter and playhead time are
below 2^53 in magnitude, `t.asSampleRate(r)` in binary64 arithmetic has sample rate `r`,
transport counter `t.counter / m` and, when present, playhead time `t.playheadTime / m`,
both truncated toward zero; an absent playhead time stays absent. In every arithmetic
`asSampleRate` with `t`'s own rate returns `t` unchanged. The same holds for
`PlaybackTimePoint::asSampleRate`. -/
theorem asSampleRate_integer_ratio (t : TimePoint) (r m : Nat)
    (hrate : t.sampleRate = m * r) (hpos : 0 < t.sampleRate)
    (h32 : t.sampleRate < 2 ^ 32) (hc : |t.sampleCounter| < 2 ^ 53)
    (hp : ∀ p ∈ t.playheadTime, |p| < 2 ^ 53) :
    t.asSampleRate binary64 r =
      ⟨r, Int.tdiv t.sampleCounter m, t.playheadTime.map (fun p => Int.tdiv p m)⟩ ∧
    (∀ fp : DoubleArith, t.asSampleRate fp t.sampleRate = t) ∧
    (∀ c p : Int, |c| < 2 ^ 53 → |p| < 2 ^ 53 →
      PlaybackTimePoint.asSampleRate binary64 ⟨t.sampleRate, c, p⟩ r =
        ⟨r, Int.tdiv c m, Int.tdiv p m⟩) := by
  have hm : 0 < m := by
    rcases Nat.eq_zero_or_pos m with h | h
    · rw [h, Nat.zero_mul] at hrate; omega
    · exact h
  have hr : 0 < r := by
    rcases Nat.eq_zero_or_pos r with h | h
    · rw [h, Nat.mul_zero] at hrate; omega
    · exact h
  have hmr : m * r < 2 ^ 32 := by rw [← hrate]; exact h32
  refine ⟨?_, ?_, ?_⟩
  · unfold TimePoint.asSampleRate
    by_cases hsame : r = t.sampleRate
    · have hm1 : m = 1 := by
        have h1 : m * r = 1 * r := by rw [← hrate, Nat.one_mul]; exact hsame.symm
        exact Nat.eq_of_mul_eq_mul_right hr h1
      rw [if_pos hsame, hm1]
      cases t with
      | mk sr sc ph =>
        simp only at hsame
        cases ph <;> simp [hsame]
    · have hm1 : (m : ℚ) ≠ 1 := by
        intro h
        have : m = 1 := by exact_mod_cast h
        apply hsame
        rw [hrate, this, Nat.one_mul]
      rw [if_neg hsame, hrate, binary64_ratio m r hm hr hmr]
      unfold TimePoint.div
      rw [if_neg hm1, hrate, binary64_scaleRate m r hm hr hmr,
        binary64_scaleCounter _ m hm hc]
      cases hph : t.playheadTime with
      | none => rfl
      | some p =>
        have := hp p (by rw [hph]; rfl)
        simp only [Option.map_some', binary64_scaleCounter p m hm this]
  · intro fp
    unfold TimePoint.asSampleRate
    rw [if_pos rfl]
  · intro c p hcb hpb
    unfold PlaybackTimePoint.asSampleRate
    by_cases hsame : r = t.sampleRate
    · have hm1 : m = 1 := by
        have h1 : m * r = 1 * r := by rw [← hrate, Nat.one_mul]; exact hsame.symm
        exact Nat.eq_of_mul_eq_mul_right hr h1
      rw [if_pos hsame, hm1]
      simp [hsame]
    · rw [if_neg hsame]
      simp only [hrate, binary64_ratio m r hm hr hmr, binary64_scaleRate m r hm hr hmr,
        binary64_scaleCounter c m hm hcb, binary64_scaleCounter p m hm hpb]

/-- Witness of C18 (as amended): 48000 Hz to 16000 Hz, transport counter -100 and playhead
time 10. -/
theorem asSampleRate_integer_ratio_witness :
    TimePoint.asSampleRate binary64 ⟨48000, -100, some 10⟩ 16000 = ⟨16000, -33, some 3⟩ :=
  (asSampleRate_integer_ratio ⟨48000, -100, some 10⟩ 16000 3 (by decide) (by decide)
    (by decide) (by decide) (by intro p hp; cases hp; decide)).1

theorem toDouble_large_odd : toDouble (18014398509481987 : ℚ) = 18014398509481988 := by
  rw [toDouble_of_binade (18014398509481987 : ℚ) 54 (by norm_num [abs_of_pos])
    (by norm_num [abs_of_pos])]
  rw [roundHalfEven_of_upper_half _ 4503599627370496 (by norm_num) (by norm_num)]
  norm_num

theorem toDouble_large_even : toDouble (9007199254740994 : ℚ) = 9007199254740994 := by
  rw [toDouble_of_binade (9007199254740994 : ℚ) 53 (by norm_num [abs_of_pos])
    (by norm_num [abs_of_pos])]
  have : (9007199254740994 : ℚ) / 2 ^ ((53 : Int) - 52) = ((4503599627370497 : Int) : ℚ) := by
    norm_num
  rw [this, roundHalfEven_intCast]
  norm_num

/-- C18 as stated fails for a transport counter beyond 2^53: at 32000 Hz the counter
2^54 + 3 is converted to the `double` 2^54 + 4, so `asSampleRate(16000)` has the counter
2^53 + 2, while the counter divided by 2 and truncated is 2^53 + 1. It also fails for the
sample rate 0, which is the multiple 2 of the new rate 0: the rates are equal and the time
point is returned with its counter 5, not 5 / 2. -/
theorem asSampleRate_large_counter :
    (32000 : Nat) = 2 * 16000 ∧
    (TimePoint.asSampleRate binary64 ⟨32000, 18014398509481987, none⟩ 16000).sampleCounter =
      9007199254740994 ∧
    Int.tdiv 18014398509481987 2 = 9007199254740993 ∧
    (0 : Nat) = 2 * 0 ∧
    (TimePoint.asSampleRate binary64 ⟨0, 5, none⟩ 0).sampleCounter = 5 ∧
    Int.tdiv 5 2 = 2 := by
  refine ⟨rfl, ?_, by decide, rfl, rfl, by decide⟩
  have hratio : binary64.ratio 32000 16000 = 2 := by
    have := binary64_ratio 2 16000 (by decide) (by decide) (by decide)
    simpa using this
  unfold TimePoint.asSampleRate
  rw [if_neg (by decide), hratio]
  unfold TimePoint.div
  rw [if_neg (by norm_num)]
  show truncate (toDouble (toDouble ((18014398509481987 : Int) : ℚ) / 2)) = 9007199254740994
  have h1 : ((18014398509481987 : Int) : ℚ) = (18014398509481987 : ℚ) := by norm_num
  rw [h1, toDouble_large_odd]
  have h2 : (18014398509481988 : ℚ) / 2 = (9007199254740994 : ℚ) := by norm_num
  rw [h2, toDouble_large_even]
  have h3 : (9007199254740994 : ℚ) = ((9007199254740994 : Int) : ℚ) := by norm_num
  rw [h3, truncate_intCast]

/-! ## Circular buffer: indexed reads, capacity -/

/-- C22: for every capacity `N ≥ 1`, every sequence of appends totalling `w` samples
(sample-sequential or not, `w = 0` included) and every destination length `k` with `1 ≤ k ≤ N`,
`getLatestSamples` leaves a destination of length `k` whose entry `i` is the appended sample
number `w - k + i` (counted from 0) when `w - k + i ≥ 0`, and 0 otherwise, however often the
ring has wrapped. -/
theorem getLatestSamples_indexed {F : Type} [Zero F] (N : Nat) (rate : Nat)
    (chunks : List (List F × TimePoint)) (dst : List F)
    (hN : 1 ≤ N)
    (hk1 : 1 ≤ dst.length) (hkN : dst.length ≤ N) :
    (((MonoCircularBuffer.ofLength N rate).appendAll chunks).getLatestSamples dst).1.length =
      dst.length ∧
    ∀ i, i < dst.length →
      (((MonoCircularBuffer.ofLength N rate).appendAll chunks).getLatestSamples dst).1[i]? =
        some (if dst.length ≤ (appendLog chunks).length + i then
            ((appendLog chunks).map Prod.snd).getD
              ((appendLog chunks).length + i - dst.length) 0
          else 0) := by
  have hinv := ringInv_appendAll (Nat.lt_of_lt_of_le Nat.zero_lt_one hN) chunks _ []
    (ringInv_ofLength N rate)
  rw [List.nil_append] at hinv
  have h := (getLatestSamples_of_ringInv hinv (Nat.lt_of_lt_of_le Nat.zero_lt_one hN) dst
    hk1 hkN).1
  rw [h]
  refine ⟨lastSamples_length _ _, ?_⟩
  intro i hi
  have hlen : i < (lastSamples (appendLog chunks) dst.length).length := by
    rw [lastSamples_length]; exact hi
  rw [← lastSamples_getD, List.getD_eq_getElem?_getD, List.getElem?_eq_getElem hlen]
  rfl

/-- Witness of C22: capacity 2, the appends 1, 2, 3 (the ring has wrapped) and a destination
of length 2: the destination holds the samples number 1 and 2, which are 2 and 3. -/
theorem getLatestSamples_indexed_witness :
    (((MonoCircularBuffer.ofLength 2 16000 : MonoCircularBuffer Int).appendAll
        [([1, 2], ⟨16000, 0, none⟩), ([3], ⟨16000, 2, none⟩)]).getLatestSamples
          [0, 0]).1[0]? = some 2 ∧
    (((MonoCircularBuffer.ofLength 2 16000 : MonoCircularBuffer Int).appendAll
        [([1, 2], ⟨16000, 0, none⟩), ([3], ⟨16000, 2, none⟩)]).getLatestSamples
          [0, 0]).1[1]? = some 3 :=
  ⟨(getLatestSamples_indexed 2 16000
      [([(1 : Int), 2], ⟨16000, 0, none⟩), ([3], ⟨16000, 2, none⟩)] [0, 0]
      (by decide) (by decide) (by decide)).2 0 (by decide),
    (getLatestSamples_indexed 2 16000
      [([(1 : Int), 2], ⟨16000, 0, none⟩), ([3], ⟨16000, 2, none⟩)] [0, 0]
      (by decide) (by decide) (by decide)).2 1 (by decide)⟩

theorem getNumStoredSamples_new {F : Type} [Zero F] (bufferLengthMs sampleRate : Nat) :
    (MonoCircularBuffer.new bufferLengthMs sampleRate :
      MonoCircularBuffer F).getNumStoredSamples =
      bufferLengthMs * sampleRate % 4294967296 / 1000 := by
  simp only [MonoCircularBuffer.new, MonoCircularBuffer.ofLength,
    MonoCircularBuffer.getNumStoredSamples, List.length_replicate]

theorem getDurationMs_new {F : Type} [Zero F] (bufferLengthMs sampleRate : Nat) :
    (MonoCircularBuffer.new bufferLengthMs sampleRate : MonoCircularBuffer F).getDurationMs =
      if sampleRate = 0 then none
      else some ((bufferLengthMs * sampleRate % 4294967296 / 1000) * 1000 %
        18446744073709551616 / sampleRate % 4294967296) := by
  simp only [MonoCircularBuffer.new, MonoCircularBuffer.ofLength,
    MonoCircularBuffer.getDurationMs, List.length_replicate]

/-- C28 at the failing input: the buffer `Buff` constructs, `MonoCircularBuffer(1200000,
16000)`. The product 1,200,000 x 16,000 = 19,200,000,000 is a multiple of 1000, but it is
formed in `uint32_t`, where it is 2,020,130,816: the buffer stores 2,020,130 samples, not
19,200,000, and `getDurationMs` returns 126,258, not 1,200,000. -/
theorem monoCircularBuffer_capacity_overflow :
    1200000 * 16000 % 1000 = 0 ∧ 1200000 * 16000 / 1000 = 19200000 ∧
    (MonoCircularBuffer.new 1200000 16000 : MonoCircularBuffer Int).getNumStoredSamples =
      2020130 ∧
    (MonoCircularBuffer.new 1200000 16000 : MonoCircularBuffer Int).getDurationMs =
      some 126258 := by
  refine ⟨by decide, by decide, ?_, ?_⟩
  · rw [getNumStoredSamples_new]
  · rw [getDurationMs_new]
    decide

/-! ## Alignment offset -/

theorem tmod_of_nonpos (q f : Int) (hf : 0 < f) (hq : q ≤ 0) :
    Int.tmod q f = q + f * ((-q) / f) := by
  rw [Int.tmod_def]
  have : q.tdiv f = -((-q).tdiv f) := by rw [Int.neg_tdiv, neg_neg]
  rw [this, Int.tdiv_eq_ediv (by omega) (by omega)]
  ring

theorem setConfig_setConfig {F : Type} (pr : PlaybackResults F) (o sz f : Int) :
    (pr.setConfig o sz f).setConfig o sz f = pr.setConfig o sz f := by
  have h : (pr.setConfig o sz f).alignmentOffset = o ∧
      (pr.setConfig o sz f).regionSize = sz ∧ (pr.setConfig o sz f).regionFrequency = f := by
    unfold PlaybackResults.setConfig
    split
    · assumption
    · exact ⟨rfl, rfl, rfl⟩
  generalize pr.setConfig o sz f = pr1 at h
  unfold PlaybackResults.setConfig
  rw [if_pos h]

/-- C29 (as amended): for every `regionFrequency` `f > 0` and every playhead time `p` with
`p ≥ 0` or `p + f ≤ 0` (both `p` and `p + f` on the same side of zero),
`calcPlaybackAlignmentOffsetFromZero(p + f, f) = calcPlaybackAlignmentOffsetFromZero(p, f)`;
so an aggregator configured by `setConfigFromRegion` from a region with playhead times
`[p, p + size)` is left exactly as it is by `setConfigFromRegion` for the region `f` later. -/
theorem calcPlaybackAlignmentOffsetFromZero_periodic {F : Type} (p f : Int) (hf : 0 < f)
    (hside : 0 ≤ p ∨ p + f ≤ 0) :
    calcPlaybackAlignmentOffsetFromZero (p + f) f = calcPlaybackAlignmentOffsetFromZero p f ∧
    ∀ (pr : PlaybackResults F) (size : Int),
      ∃ pr1, pr.setConfigFromRegion p (p + size) f = some pr1 ∧
        pr1.setConfigFromRegion (p + f) (p + f + size) f = some pr1 := by
  have hf0 : f ≠ 0 := by omega
  have hmod : Int.tmod (p + f) f = Int.tmod p f := by
    rcases hside with h | h
    · rw [Int.tmod_eq_emod (by omega) (by omega), Int.tmod_eq_emod h (by omega),
        Int.add_emod_self]
    · rw [tmod_of_nonpos (p + f) f hf h, tmod_of_nonpos p f hf (by omega)]
      have : -(p + f) = -p + f * (-1) := by ring
      rw [this, Int.add_mul_ediv_left _ _ hf0]
      ring
  have hcalc : calcPlaybackAlignmentOffsetFromZero (p + f) f =
      calcPlaybackAlignmentOffsetFromZero p f := by
    unfold calcPlaybackAlignmentOffsetFromZero
    rw [if_neg hf0, if_neg hf0, hmod]
  refine ⟨hcalc, ?_⟩
  intro pr size
  unfold PlaybackResults.setConfigFromRegion
  rw [hcalc]
  unfold calcPlaybackAlignmentOffsetFromZero
  rw [if_neg hf0]
  refine ⟨_, rfl, ?_⟩
  have hsz : p + f + size - (p + f) = p + size - p := by ring
  simp only [hsz, setConfig_setConfig]

/-- Witness of C29 (as amended): playhead times 3 and 8 with `regionFrequency` 5. -/
theorem calcPlaybackAlignmentOffsetFromZero_periodic_witness :
    calcPlaybackAlignmentOffsetFromZero (3 + 5) 5 = calcPlaybackAlignmentOffsetFromZero 3 5 ∧
    calcPlaybackAlignmentOffsetFromZero 3 5 = some 3 :=
  ⟨(calcPlaybackAlignmentOffsetFromZero_periodic (F := Int) 3 5 (by decide)
      (Or.inl (by decide))).1, by decide⟩

/-- C29 as stated fails for a negative playhead time: with `regionFrequency` 5 the remainder
of -1 is -1 and the remainder of -1 + 5 is 4. The aggregator configured from the region with
playhead times `[-1, 9)` and holding its result is emptied by `setConfigFromRegion` for the
region 5 samples later. -/
theorem calcPlaybackAlignmentOffsetFromZero_negative :
    calcPlaybackAlignmentOffsetFromZero (-1) 5 = some (-1) ∧
    calcPlaybackAlignmentOffsetFromZero (-1 + 5) 5 = some 4 ∧
    (((PlaybackResults.new : PlaybackResults Int).setConfigFromRegion (-1) 9 5).bind
        (fun pr => pr.addResult prerollRegion)).map
      (fun pr => pr.getResults.playheadStartTimes) = some [-1] ∧
    ((((PlaybackResults.new : PlaybackResults Int).setConfigFromRegion (-1) 9 5).bind
        (fun pr => pr.addResult prerollRegion)).bind
        (fun pr => pr.setConfigFromRegion 4 14 5)).map
      (fun pr => (pr.alignmentOffset, pr.getResults)) =
        some (4, PlaybackResults.Results.empty) := by
  decide

/-! ## Control tick: the pending cap as an invariant -/

theorem sendPendingLoop_forall₂ {C F : Type} (comms : ServiceCommunicator C F)
    (regionSize : Int) :
    ∀ (l : List (Region F)) (c : C),
      List.Forall₂ (fun x x' => x' = x ∨ (x.analysisState = Region.State.PENDING ∧
        x' = { x with analysisState := Region.State.IN_PROGRESS }))
        l (sendPendingLoop comms regionSize l c).1 := by
  intro l
  induction l with
  | nil => intro c; exact List.Forall₂.nil
  | cons x xs ih =>
    intro c
    unfold sendPendingLoop
    by_cases hp : x.analysisState = Region.State.PENDING
    · rw [if_pos hp]
      by_cases hr : (comms.readyToSend c).1 = true
      · simp only [hr, not_true_eq_false, if_false]
        refine List.Forall₂.cons ?_ (ih _)
        split
        · exact Or.inr ⟨hp, rfl⟩
        · exact Or.inl rfl
      · simp only [hr, not_false_eq_true, if_true]
        exact List.forall₂_same.mpr (fun _ _ => Or.inl rfl)
    · rw [if_neg hp]
      exact List.Forall₂.cons (Or.inl rfl) (ih _)

theorem forall₂_map_eq {α β : Type} (R : α → α → Prop) (g : α → β)
    (hR : ∀ x x', R x x' → g x' = g x) :
    ∀ l l' : List α, List.Forall₂ R l l' → l'.map g = l.map g := by
  intro l l' h
  induction h with
  | nil => rfl
  | cons hx _ ih => simp [hR _ _ hx, ih]

theorem forall₂_mem_right {α : Type} (R : α → α → Prop) :
    ∀ l l' : List α, List.Forall₂ R l l' → ∀ x' ∈ l', ∃ x ∈ l, R x x' := by
  intro l l' h
  induction h with
  | nil => intro x' hx'; cases hx'
  | cons hx _ ih =>
    intro x' hx'
    rcases List.mem_cons.mp hx' with rfl | hmem
    · exact ⟨_, List.mem_cons_self _ _, hx⟩
    · obtain ⟨x, hxl, hr⟩ := ih x' hmem
      exact ⟨x, List.mem_cons_of_mem _ hxl, hr⟩

theorem abortPendingLoop_split {F : Type} (l : List (Region F)) (n : Nat)
    (pre' : List (Region F)) (x' : Region F) (post' : List (Region F))
    (h : abortPendingLoop l n = pre' ++ x' :: post') :
    ∃ pre x post, l = pre ++ x :: post ∧ pre' = abortPendingLoop pre n ∧
      x' :: post' = abortPendingLoop (x :: post) (n + pendingCount pre) := by
  have hlen := abortPendingLoop_length l n
  rw [h, List.length_append, List.length_cons] at hlen
  have hsplit : l = l.take pre'.length ++ l.drop pre'.length := (List.take_append_drop _ _).symm
  have htake : (l.take pre'.length).length = pre'.length := by
    rw [List.length_take]; omega
  rw [hsplit, abortPendingLoop_append] at h
  have h1 := List.append_inj h (by rw [abortPendingLoop_length, htake])
  cases hd : l.drop pre'.length with
  | nil =>
    rw [hd] at h1
    have := h1.2
    simp [abortPendingLoop] at this
  | cons x post =>
    refine ⟨l.take pre'.length, x, post, by rw [← hd]; exact hsplit, h1.1.symm, ?_⟩
    rw [← hd]
    exact h1.2.symm

theorem abortPendingLoop_beyond_cap {F : Type} :
    ∀ (l : List (Region F)) (n : Nat), maxPendingRegions ≤ n →
      ∀ y ∈ abortPendingLoop l n, y.analysisState ≠ Region.State.PENDING := by
  intro l
  induction l with
  | nil => intro n _ y hy; simp [abortPendingLoop] at hy
  | cons x xs ih =>
    intro n hn y hy
    rw [abortPendingLoop_cons] at hy
    by_cases hp : x.analysisState = Region.State.PENDING
    · rw [if_pos hp, if_pos (by omega)] at hy
      rcases List.mem_cons.mp hy with rfl | hmem
      · simp
      · exact ih (n + 1) (by omega) y hmem
    · rw [if_neg hp] at hy
      rcases List.mem_cons.mp hy with rfl | hmem
      · exact hp
      · exact ih n hn y hmem

theorem pendingCount_cons {F : Type} (x : Region F) (l : List (Region F)) :
    pendingCount (x :: l) =
      pendingCount l + (if x.analysisState = Region.State.PENDING then 1 else 0) := by
  unfold pendingCount
  rw [List.countP_cons]
  simp

theorem abortPendingLoop_pendingCount {F : Type} :
    ∀ (l : List (Region F)) (n : Nat),
      n + pendingCount (abortPendingLoop l n) ≤ max n maxPendingRegions := by
  intro l
  induction l with
  | nil => intro n; simp [abortPendingLoop, pendingCount]
  | cons x xs ih =>
    intro n
    rw [abortPendingLoop_cons]
    by_cases hp : x.analysisState = Region.State.PENDING
    · rw [if_pos hp]
      by_cases hcap : n + 1 > maxPendingRegions
      · rw [if_pos hcap, pendingCount_cons]
        have := ih (n + 1)
        simp only [reduceCtorEq, if_false, Nat.add_zero]
        have h0 : pendingCount (abortPendingLoop xs (n + 1)) = 0 :=
          pendingCount_eq_zero _ (abortPendingLoop_beyond_cap xs (n + 1) (by omega))
        rw [h0]
        omega
      · rw [if_neg hcap, pendingCount_cons, if_pos hp]
        have := ih (n + 1)
        have hmax : max (n + 1) maxPendingRegions = maxPendingRegions := by
          apply max_eq_right; omega
        have hmax2 : max n maxPendingRegions = maxPendingRegions := by
          apply max_eq_right; omega
        rw [hmax] at this
        rw [hmax2]
        omega
    · rw [if_neg hp, pendingCount_cons, if_neg hp]
      exact ih n

theorem pendingCount_map_le {F : Type} (g : Region F → Region F)
    (hg : ∀ x, (g x).analysisState = Region.State.PENDING →
      x.analysisState = Region.State.PENDING) :
    ∀ l : List (Region F), pendingCount (l.map g) ≤ pendingCount l := by
  intro l
  induction l with
  | nil => simp [pendingCount]
  | cons x xs ih =>
    rw [List.map_cons, pendingCount_cons, pendingCount_cons]
    by_cases hp : (g x).analysisState = Region.State.PENDING
    · rw [if_pos hp, if_pos (hg x hp)]; omega
    · rw [if_neg hp]
      split <;> omega

theorem applyResponse_not_pending {F : Type} (r : Region F) (resp : Response F) :
    (r.applyResponse resp).analysisState ≠ Region.State.PENDING := by
  unfold Region.applyResponse
  split <;> simp

theorem applyResponse_not_timeout {F : Type} (r : Region F) (resp : Response F) :
    (r.applyResponse resp).analysisState ≠ Region.State.TIMEOUT := by
  unfold Region.applyResponse
  split <;> simp

theorem updateRegions_regions {C F : Type} (comms : ServiceCommunicator C F)
    (a a' : AnalysisRegions F) (c c' : C) (h : a.updateRegions comms c = some (a', c')) :
    a'.regions = (a.dispatched comms c).1 ∨
    ∃ resp, a'.regions = (a.dispatched comms c).1.map (fun (r : Region F) =>
      if r.start.sampleCounter = resp.reqId then r.applyResponse resp else r) := by
  unfold AnalysisRegions.updateRegions at h
  cases hp : (comms.getResponse (a.dispatched comms c).2).1 with
  | none =>
    simp only [hp, Option.some.injEq, Prod.mk.injEq] at h
    left
    rw [← h.1]
  | some resp =>
    simp only [hp, responseLoop_eq] at h
    right
    refine ⟨resp, ?_⟩
    split at h
    · cases h
    · rename_i res hres
      obtain ⟨acc, _, hacc⟩ := Option.map_eq_some'.mp hres
      simp only [Option.some.injEq, Prod.mk.injEq] at h
      rw [← h.1, ← hacc]

theorem eq_of_sorted_of_start_eq {F : Type} :
    ∀ l : List (Region F),
      l.Pairwise (fun x y => x.start.sampleCounter < y.start.sampleCounter) →
      ∀ x ∈ l, ∀ z ∈ l, x.start = z.start → x = z := by
  intro l
  induction l with
  | nil => intro _ x hx; cases hx
  | cons y ys ih =>
    intro hs x hx z hz hxz
    rw [List.pairwise_cons] at hs
    rcases List.mem_cons.mp hx with rfl | hx'
    · rcases List.mem_cons.mp hz with rfl | hz'
      · rfl
      · have := hs.1 z hz'
        rw [hxz] at this
        omega
    · rcases List.mem_cons.mp hz with rfl | hz'
      · have := hs.1 x hx'
        rw [hxz] at this
        omega
      · exact ih hs.2 x hx' z hz' hxz

theorem eraseOldRegions_sorted {F : Type} (a : AnalysisRegions F)
    (hsorted : a.regions.Pairwise
      (fun x y => x.start.sampleCounter < y.start.sampleCounter)) :
    a.eraseOldRegions.Pairwise (fun x y => x.start.sampleCounter < y.start.sampleCounter) ∧
    ∀ x ∈ a.eraseOldRegions, x ∈ a.regions := by
  unfold AnalysisRegions.eraseOldRegions
  simp only
  split
  · exact ⟨hsorted.filter _, fun x hx => (List.mem_filter.mp hx).1⟩
  · exact ⟨hsorted, fun x hx => hx⟩

theorem updateRegions_defined {C F : Type} (comms : ServiceCommunicator C F)
    (a : AnalysisRegions F) (c : C) (hf : a.playbackResults.regionFrequency ≠ 0) :
    (a.updateRegions comms c).isSome := by
  cases hp : (comms.getResponse (a.dispatched comms c).2).1 with
  | none =>
    unfold AnalysisRegions.updateRegions
    simp only [hp]
    rfl
  | some resp =>
    have heq : a.updateRegions comms c =
        (((((a.dispatched comms c).1.map (fun (r : Region F) =>
                if r.start.sampleCounter = resp.reqId then r.applyResponse resp else r)).filter
              (fun (r : Region F) => r.start.sampleCounter = resp.reqId ∧
                r.start.playheadTime.isSome ∧ r.end_.playheadTime.isSome)).foldlM
            (fun (acc : PlaybackResults F) (r : Region F) => acc.addResult r)
            a.playbackResults).map
            (fun acc => ({ a with
              regions := (a.dispatched comms c).1.map (fun (r : Region F) =>
                if r.start.sampleCounter = resp.reqId then r.applyResponse resp else r),
              playbackResults := acc },
              (comms.getResponse (a.dispatched comms c).2).2))) := by
      unfold AnalysisRegions.updateRegions
      simp only [hp, responseLoop_eq]
      cases (List.foldlM (fun (acc : PlaybackResults F) (r : Region F) => acc.addResult r)
        a.playbackResults
        (List.filter _ (List.map _ (a.dispatched comms c).1))) <;> rfl
    have hdef := foldlM_addResult_defined
      (((a.dispatched comms c).1.map (fun (r : Region F) =>
          if r.start.sampleCounter = resp.reqId then r.applyResponse resp else r)).filter
        (fun (r : Region F) => r.start.sampleCounter = resp.reqId ∧
          r.start.playheadTime.isSome ∧ r.end_.playheadTime.isSome)) a.playbackResults
      (fun r hr => by
        have := (List.mem_filter.mp hr).2
        simp only [decide_eq_true_eq] at this
        exact this.2.1) hf
    obtain ⟨v, hv⟩ := Option.isSome_iff_exists.mp hdef
    rw [heq, hv]
    rfl

/-- C23: a control tick returns whenever the aggregator's `regionFrequency` is not zero,
and after every control tick, whatever the channel answers, at most `maxPendingRegions_` = 3
regions are `PENDING`; in a region set ordered by start (the `std::set`), every region still
`PENDING` starts after every region that was `PENDING` before the tick and is `TIMEOUT`
after it. -/
theorem updateRegions_pending_invariant {C F : Type} (comms : ServiceCommunicator C F)
    (a : AnalysisRegions F) (c : C)
    (hsorted : a.regions.Pairwise
      (fun x y => x.start.sampleCounter < y.start.sampleCounter)) :
    (a.playbackResults.regionFrequency ≠ 0 → (a.updateRegions comms c).isSome) ∧
    ∀ a' c', a.updateRegions comms c = some (a', c') →
      pendingCount a'.regions ≤ maxPendingRegions ∧
      ∀ x ∈ a.regions, x.analysisState = Region.State.PENDING →
        ∀ x' ∈ a'.regions, x'.start = x.start → x'.analysisState = Region.State.TIMEOUT →
          ∀ y' ∈ a'.regions, y'.analysisState = Region.State.PENDING →
            x'.start.sampleCounter < y'.start.sampleCounter := by
  constructor
  · exact updateRegions_defined comms a c
  · intro a' c' htick
    have hD := updateRegions_regions comms a a' c c' htick
    have hdisp : (a.dispatched comms c).1 =
        (abortPendingLoop (sendPendingLoop comms a.regionSize a.eraseOldRegions.reverse c).1
          0).reverse := rfl
    have hcountD : pendingCount (a.dispatched comms c).1 ≤ maxPendingRegions := by
      rw [hdisp, pendingCount_reverse]
      have := abortPendingLoop_pendingCount
        (sendPendingLoop comms a.regionSize a.eraseOldRegions.reverse c).1 0
      simpa using this
    have hmemD : ∀ z' ∈ a'.regions,
        (z'.analysisState = Region.State.PENDING ∨ z'.analysisState = Region.State.TIMEOUT) →
        z' ∈ (a.dispatched comms c).1 := by
      intro z' hz' hstate
      rcases hD with hD | ⟨resp, hD⟩
      · rw [hD] at hz'; exact hz'
      · rw [hD, List.mem_map] at hz'
        obtain ⟨d, hd, hdz⟩ := hz'
        by_cases hid : d.start.sampleCounter = resp.reqId
        · rw [if_pos hid] at hdz
          rw [← hdz] at hstate
          rcases hstate with h | h
          · exact absurd h (applyResponse_not_pending d resp)
          · exact absurd h (applyResponse_not_timeout d resp)
        · rw [if_neg hid] at hdz
          rw [← hdz]; exact hd
    refine ⟨?_, ?_⟩
    · rcases hD with hD | ⟨resp, hD⟩
      · rw [hD]; exact hcountD
      · rw [hD]
        refine le_trans (pendingCount_map_le _ ?_ _) hcountD
        intro r hr
        by_cases hid : r.start.sampleCounter = resp.reqId
        · rw [if_pos hid] at hr
          exact absurd hr (applyResponse_not_pending r resp)
        · rw [if_neg hid] at hr
          exact hr
    · intro x hx hxp x' hx' hstart hto y' hy' hyp
      have hx'D := hmemD x' hx' (Or.inr hto)
      have hy'D := hmemD y' hy' (Or.inl hyp)
      rw [hdisp, List.mem_reverse] at hx'D hy'D
      obtain ⟨hL0sorted, hL0sub⟩ := eraseOldRegions_sorted a hsorted
      have hsend := sendPendingLoop_forall₂ comms a.regionSize a.eraseOldRegions.reverse c
      set R1 := (sendPendingLoop comms a.regionSize a.eraseOldRegions.reverse c).1 with hR1
      have hstarts : (abortPendingLoop R1 0).map (fun r => r.start.sampleCounter) =
          a.eraseOldRegions.reverse.map (fun r => r.start.sampleCounter) := by
        have h1 := forall₂_map_eq _ (fun (r : Region F) => r.start.sampleCounter)
          (fun x x' (h : x' = x ∨ (x.analysisState = Region.State.PENDING ∧
              x' = { x with analysisState := Region.State.TIMEOUT })) => by
            rcases h with rfl | ⟨_, rfl⟩ <;> rfl) _ _ (abortPendingLoop_forall₂ R1 0)
        have h2 := forall₂_map_eq _ (fun (r : Region F) => r.start.sampleCounter)
          (fun x x' (h : x' = x ∨ (x.analysisState = Region.State.PENDING ∧
              x' = { x with analysisState := Region.State.IN_PROGRESS })) => by
            rcases h with rfl | ⟨_, rfl⟩ <;> rfl) _ _ hsend
        rw [h1, h2]
      have hdesc : ((abortPendingLoop R1 0).map (fun r => r.start.sampleCounter)).Pairwise
          (fun s t => t < s) := by
        rw [hstarts, List.map_reverse, List.pairwise_reverse, List.pairwise_map]
        exact hL0sorted
      obtain ⟨pre', post', hsplit⟩ := List.append_of_mem hx'D
      obtain ⟨pre, r1, post, hR1split, hpre', htail⟩ :=
        abortPendingLoop_split R1 0 pre' x' post' hsplit
      rw [abortPendingLoop_cons] at htail
      by_cases hr1 : r1.analysisState = Region.State.PENDING
      · rw [if_pos hr1] at htail
        by_cases hcap : 0 + pendingCount pre + 1 > maxPendingRegions
        · rw [if_pos hcap] at htail
          simp only [List.cons.injEq] at htail
          have hpost : ∀ y ∈ post', y.analysisState ≠ Region.State.PENDING := by
            rw [htail.2]
            exact abortPendingLoop_beyond_cap post _ (by omega)
          rw [hsplit, List.mem_append, List.mem_cons] at hy'D
          rcases hy'D with hy | rfl | hy
          · rw [hsplit, List.map_append, List.map_cons, List.pairwise_append] at hdesc
            exact hdesc.2.2 _ (List.mem_map_of_mem _ hy) _ (List.mem_cons_self _ _)
          · rw [hto] at hyp; cases hyp
          · exact absurd hyp (hpost _ hy)
        · rw [if_neg hcap] at htail
          simp only [List.cons.injEq] at htail
          rw [htail.1, hr1] at hto
          cases hto
      · rw [if_neg hr1] at htail
        simp only [List.cons.injEq] at htail
        have hr1mem : r1 ∈ R1 := by rw [hR1split]; simp
        obtain ⟨r0, hr0, hrel⟩ := forall₂_mem_right _ _ _ hsend r1 hr1mem
        rcases hrel with heq | ⟨_, heq⟩
        · have hr0a : r0 ∈ a.regions := hL0sub r0 (List.mem_reverse.mp hr0)
          have : r0 = x := eq_of_sorted_of_start_eq a.regions hsorted r0 hr0a x hx
            (by rw [← heq, ← htail.1]; exact hstart)
          rw [heq, this] at hr1
          exact absurd hxp hr1
        · rw [htail.1, heq] at hto
          cases hto

/-- Witness of C23: five `PENDING` regions, an aggregator with `regionFrequency` 5 and a
channel that is never ready and has no response; after the tick the three newest regions are
`PENDING` and the two oldest `TIMEOUT`. -/
theorem updateRegions_pending_invariant_witness :
    (({ fivePending with playbackResults := configuredResults } :
      AnalysisRegions Int).updateRegions (deafChannel none) ()).isSome ∧
    (({ fivePending with playbackResults := configuredResults } :
      AnalysisRegions Int).updateRegions (deafChannel none) ()).map
        (fun s => regionStates s.1) =
      some [(100, Region.State.TIMEOUT), (110, Region.State.TIMEOUT),
        (120, Region.State.PENDING), (130, Region.State.PENDING),
        (140, Region.State.PENDING)] :=
  ⟨(updateRegions_pending_invariant (deafChannel none)
      ({ fivePending with playbackResults := configuredResults } : AnalysisRegions Int) ()
      (by simp [fivePending, schedulerWith, pendingRegion, Region.new])).1 (by decide),
    by decide⟩

/-! ## Region creation over successive calls -/

theorem addNewRegion_fields {F : Type} [Zero F] (a a' : AnalysisRegions F) (s : Int)
    (res : Bool) (h : a.addNewRegion s = some (res, a')) :
    a'.regionFrequency = a.regionFrequency ∧ a'.regionSize = a.regionSize ∧
    a'.lastKnownPlaybackRegion = a.lastKnownPlaybackRegion ∧ a'.alignment = a.alignment ∧
    a'.curTime = a.curTime ∧ a'.refSampleRate = a.refSampleRate ∧
    a'.maxRegionAge = a.maxRegionAge ∧ a'.generateRegions = a.generateRegions := by
  unfold AnalysisRegions.addNewRegion at h
  by_cases hfut : s + a.regionSize ≥ a.curTime.sampleCounter
  · rw [if_pos hfut] at h
    simp only [Option.some.injEq, Prod.mk.injEq] at h
    rw [← h.2]
    exact ⟨rfl, rfl, rfl, rfl, rfl, rfl, rfl, rfl⟩
  · simp only [hfut, if_false, Option.map_eq_some'] at h
    obtain ⟨pr, _, hpair⟩ := h
    simp only [Prod.mk.injEq] at hpair
    rw [← hpair.2]
    exact ⟨rfl, rfl, rfl, rfl, rfl, rfl, rfl, rfl⟩

theorem addNewRegion_regions {F : Type} [Zero F] (a a' : AnalysisRegions F) (s : Int)
    (res : Bool) (h : a.addNewRegion s = some (res, a'))
    (hall : ∀ x ∈ a.regions, x.start.sampleCounter < s) :
    (res = false ∧ a'.regions = a.regions) ∨
    (res = true ∧ ∃ r : Region F, a'.regions = a.regions ++ [r] ∧ r.start.sampleCounter = s ∧
      r.count = (a.regions.getLast?.map (fun x => (x.count + 1) % 65536)).getD 0) := by
  unfold AnalysisRegions.addNewRegion at h
  by_cases hfut : s + a.regionSize ≥ a.curTime.sampleCounter
  · rw [if_pos hfut] at h
    simp only [Option.some.injEq, Prod.mk.injEq] at h
    left
    rw [← h.1, ← h.2]
    exact ⟨rfl, rfl⟩
  · have hstartc : (a.taggedEdges s).1.sampleCounter = s := by
      unfold AnalysisRegions.taggedEdges
      cases a.lastKnownPlaybackRegion.start <;> rfl
    have hemp : ∀ (e : TimePoint) (n : Nat) (d : Bool),
        regionsEmplace (Region.new (a.taggedEdges s).1 e n d : Region F) a.regions =
          (a.regions ++ [Region.new (a.taggedEdges s).1 e n d], true) := by
      intro e n d
      apply regionsEmplace_of_all_lt
      intro x hx
      simpa [Region.new, hstartc] using hall x hx
    simp only [hfut, if_false, hemp, Option.map_eq_some'] at h
    obtain ⟨pr, _, hpair⟩ := h
    simp only [Prod.mk.injEq] at hpair
    right
    rw [← hpair.1, ← hpair.2]
    refine ⟨rfl, _, rfl, hstartc, ?_⟩
    cases a.regions.getLast? <;> rfl

theorem addNewRegion_defined {F : Type} [Zero F] (a : AnalysisRegions F) (s : Int)
    (hf : a.regionFrequency ≠ 0) : (a.addNewRegion s).isSome := by
  unfold AnalysisRegions.addNewRegion
  split
  · rfl
  · simp only [Option.isSome_map']
    cases (a.taggedEdges s).1.playheadTime with
    | none => rfl
    | some ps =>
      cases (a.taggedEdges s).2.1.playheadTime with
      | none => rfl
      | some pe =>
        simp [PlaybackResults.setConfigFromRegion, calcPlaybackAlignmentOffsetFromZero, hf]

theorem addNewRegionIfRequired_continues {F : Type} [Zero F] (a : AnalysisRegions F)
    (h : ∀ w, a.lastKnownPlaybackRegion.start = some w →
      a.alignment ≠ Alignment.NONE → a.curTime.playheadTime.isSome = true →
      ∃ r, a.regions.getLast? = some r ∧ w.sampleCounter ≤ r.start.sampleCounter) :
    a.addNewRegionIfRequired =
      a.addNewRegion
        ((a.regions.getLast?.map (fun r => r.start.sampleCounter + a.regionFrequency)).getD
          (max (a.curTime.sampleCounter - a.regionSize - 1) 0)) := by
  have hfree : (let regionStartNow := a.curTime.sampleCounter - a.regionSize - 1
      let nextRegionStart :=
        match a.getLastAddedRegionSampleCounters with
        | some span => span.1 + a.regionFrequency
        | none => if regionStartNow > 0 then regionStartNow else 0
      a.addNewRegion nextRegionStart) =
      a.addNewRegion
        ((a.regions.getLast?.map (fun r => r.start.sampleCounter + a.regionFrequency)).getD
          (max (a.curTime.sampleCounter - a.regionSize - 1) 0)) := by
    unfold AnalysisRegions.getLastAddedRegionSampleCounters
    cases a.regions.getLast? with
    | some r => rfl
    | none =>
      simp only [Option.map_none', Option.getD_none]
      congr 1
      by_cases hpos : a.curTime.sampleCounter - a.regionSize - 1 > 0
      · rw [if_pos hpos, max_eq_left (by omega)]
      · rw [if_neg hpos, max_eq_right (by omega)]
  unfold AnalysisRegions.addNewRegionIfRequired
  cases hw : a.lastKnownPlaybackRegion.start with
  | none => exact hfree
  | some w =>
    simp only []
    by_cases hcond : a.alignment ≠ Alignment.NONE ∧ a.curTime.playheadTime.isSome = true
    · obtain ⟨r, hr, hle⟩ := h w hw hcond.1 hcond.2
      rw [if_pos hcond]
      have hneeds : (match a.getLastAddedRegionSampleCounters with
          | none => true
          | some span => decide (span.1 < w.sampleCounter)) = false := by
        unfold AnalysisRegions.getLastAddedRegionSampleCounters
        rw [hr]
        simp only [Option.map_some', decide_eq_false_iff_not]
        omega
      have hn : ¬ ((match a.getLastAddedRegionSampleCounters with
          | none => true
          | some span => decide (span.1 < w.sampleCounter)) = true) := by
        rw [hneeds]; simp
      exact (if_neg hn).trans hfree
    · rw [if_neg hcond]
      exact hfree

theorem roundUpToAlignmentBoundary_ge (w : PlaybackTimePoint) (f : Int) (hf : 0 ≤ f)
    (tp : TimePoint) (h : roundUpToAlignmentBoundary w f = some tp) :
    w.sampleCounter ≤ tp.sampleCounter := by
  unfold roundUpToAlignmentBoundary at h
  by_cases hp : w.playheadTime < 0
  · rw [if_pos hp] at h
    simp only [Option.some.injEq] at h
    rw [← h]
    simp only [TimePoint.subDelta, toTimePoint]
    omega
  · rw [if_neg hp] at h
    by_cases hf0 : f = 0
    · rw [if_pos hf0] at h; cases h
    · rw [if_neg hf0] at h
      simp only at h
      by_cases hrem : Int.tmod w.playheadTime f = 0
      · rw [if_pos hrem] at h
        simp only [Option.some.injEq] at h
        rw [← h]
        simp [toTimePoint]
      · rw [if_neg hrem] at h
        simp only [Option.some.injEq] at h
        rw [← h]
        have h1 : 0 ≤ Int.tmod w.playheadTime f := Int.tmod_nonneg f (by omega)
        have h2 : Int.tmod w.playheadTime f < f := Int.tmod_lt_of_pos _ (by omega)
        rw [if_neg (by omega)]
        simp only [TimePoint.addDelta, toTimePoint]
        omega

theorem regionsEmplace_existing {F : Type} (r : Region F) :
    ∀ l : List (Region F),
      l.Pairwise (fun x y => x.start.sampleCounter < y.start.sampleCounter) →
      (∃ x ∈ l, x.start.sampleCounter = r.start.sampleCounter) →
      regionsEmplace r l = (l, false) := by
  intro l
  induction l with
  | nil => intro _ ⟨x, hx, _⟩; cases hx
  | cons y ys ih =>
    intro hs ⟨x, hx, hxs⟩
    rw [List.pairwise_cons] at hs
    unfold regionsEmplace
    by_cases h1 : r.start.sampleCounter < y.start.sampleCounter
    · exfalso
      rcases List.mem_cons.mp hx with rfl | hx'
      · omega
      · have := hs.1 x hx'
        omega
    · rw [if_neg h1]
      by_cases h2 : y.start.sampleCounter < r.start.sampleCounter
      · rw [if_pos h2]
        have hx' : x ∈ ys := by
          rcases List.mem_cons.mp hx with rfl | hx'
          · omega
          · exact hx'
        rw [ih hs.2 ⟨x, hx', hxs⟩]
      · rw [if_neg h2]

theorem addNewRegion_existing {F : Type} [Zero F] (a a' : AnalysisRegions F) (s : Int)
    (res : Bool) (h : a.addNewRegion s = some (res, a'))
    (hsorted : a.regions.Pairwise
      (fun x y => x.start.sampleCounter < y.start.sampleCounter))
    (hex : ∃ x ∈ a.regions, x.start.sampleCounter = s) :
    a'.regions = a.regions := by
  unfold AnalysisRegions.addNewRegion at h
  by_cases hfut : s + a.regionSize ≥ a.curTime.sampleCounter
  · rw [if_pos hfut] at h
    simp only [Option.some.injEq, Prod.mk.injEq] at h
    rw [← h.2]
  · have hstartc : (a.taggedEdges s).1.sampleCounter = s := by
      unfold AnalysisRegions.taggedEdges
      cases a.lastKnownPlaybackRegion.start <;> rfl
    have hemp : ∀ (e : TimePoint) (n : Nat) (d : Bool),
        regionsEmplace (Region.new (a.taggedEdges s).1 e n d : Region F) a.regions =
          (a.regions, false) := by
      intro e n d
      apply regionsEmplace_existing _ _ hsorted
      obtain ⟨x, hx, hxs⟩ := hex
      exact ⟨x, hx, by simpa [Region.new, hstartc] using hxs⟩
    simp only [hfut, if_false, hemp, Option.map_eq_some'] at h
    obtain ⟨pr, _, hpair⟩ := h
    simp only [Prod.mk.injEq] at hpair
    rw [← hpair.2]

theorem addNewRegionIfRequired_regions {F : Type} [Zero F] (a a' : AnalysisRegions F)
    (res : Bool)
    (hsorted : a.regions.Pairwise
      (fun x y => x.start.sampleCounter < y.start.sampleCounter))
    (hf : 0 ≤ a.regionFrequency)
    (h : a.addNewRegionIfRequired = some (res, a')) :
    a'.regions = a.regions ∨
    ∃ r : Region F, a'.regions = a.regions ++ [r] ∧
      (∀ x ∈ a.regions, x.start.sampleCounter < r.start.sampleCounter) ∧
      r.count = (a.regions.getLast?.map (fun x => (x.count + 1) % 65536)).getD 0 := by
  have happ : ∀ s, (∀ x ∈ a.regions, x.start.sampleCounter < s) →
      a.addNewRegion s = some (res, a') →
      a'.regions = a.regions ∨
      ∃ r : Region F, a'.regions = a.regions ++ [r] ∧
        (∀ x ∈ a.regions, x.start.sampleCounter < r.start.sampleCounter) ∧
        r.count = (a.regions.getLast?.map (fun x => (x.count + 1) % 65536)).getD 0 := by
    intro s hall hadd
    rcases addNewRegion_regions a a' s res hadd hall with ⟨_, hreg⟩ | ⟨_, r, hreg, hrs, hrc⟩
    · exact Or.inl hreg
    · exact Or.inr ⟨r, hreg, by rw [hrs]; exact hall, hrc⟩
  by_cases hA : ∃ w, a.lastKnownPlaybackRegion.start = some w ∧
      a.alignment ≠ Alignment.NONE ∧ a.curTime.playheadTime.isSome = true ∧
      ∀ r ∈ a.regions.getLast?, r.start.sampleCounter < w.sampleCounter
  · obtain ⟨w, hw, hne, hplay, hlast⟩ := hA
    have hall := all_lt_of_sorted_of_last_lt w.sampleCounter a.regions hsorted hlast
    rw [addNewRegionIfRequired_aligned a w hne hplay hw hlast] at h
    cases halign : a.alignment with
    | NONE => exact absurd halign hne
    | PLAYBACK_BEGIN =>
      rw [halign] at h
      exact happ _ hall h
    | TIME_ZERO =>
      rw [halign] at h
      simp only at h
      cases hround : roundUpToAlignmentBoundary w a.regionFrequency with
      | none => rw [hround] at h; cases h
      | some tp =>
        rw [hround] at h
        have hge := roundUpToAlignmentBoundary_ge w a.regionFrequency hf tp hround
        exact happ _ (fun x hx => lt_of_lt_of_le (hall x hx) hge) h
  · have hcont : ∀ w, a.lastKnownPlaybackRegion.start = some w →
        a.alignment ≠ Alignment.NONE → a.curTime.playheadTime.isSome = true →
        ∃ r, a.regions.getLast? = some r ∧ w.sampleCounter ≤ r.start.sampleCounter := by
      intro w hw hne hplay
      by_contra hno
      apply hA
      refine ⟨w, hw, hne, hplay, ?_⟩
      intro r hr
      by_contra hlt
      exact hno ⟨r, hr, by omega⟩
    rw [addNewRegionIfRequired_continues a hcont] at h
    rcases Option.eq_none_or_eq_some a.regions.getLast? with hl | ⟨r, hl⟩
    · have hnil : a.regions = [] := List.getLast?_eq_none_iff.mp hl
      exact happ _ (by intro x hx; rw [hnil] at hx; cases hx) h
    · rw [hl] at h
      simp only [Option.map_some', Option.getD_some] at h
      by_cases hf0 : a.regionFrequency = 0
      · left
        apply addNewRegion_existing a a' _ res h hsorted
        exact ⟨r, List.mem_of_getLast?_eq_some hl, by omega⟩
      · apply happ _ _ h
        apply all_lt_of_sorted_of_last_lt _ a.regions hsorted
        intro r' hr'
        rw [hl] at hr'
        cases hr'
        omega

/-- C24: in a region set ordered by start, with a playback window starting at transport
position `c` and `regionFrequency > 0`. A region created by the alignment branch (alignment
`TIME_ZERO` or `PLAYBACK_BEGIN`, the newest region before `c` or no region) is the newest
region afterwards and starts at or after `c`. In every state whose newest region starts at or
after `c`, whatever the alignment, the current time and the window end are,
`addNewRegionIfRequired` is `addNewRegion` at the newest start plus `regionFrequency`: the
alignment is not recomputed. That call returns, keeps the window start and
`regionFrequency`, and leaves a set ordered by start whose newest region again starts at
or after `c`, so the same holds for every later call. -/
theorem alignment_once_per_window {F : Type} [Zero F] (a : AnalysisRegions F)
    (w : PlaybackTimePoint) (hstart : a.lastKnownPlaybackRegion.start = some w)
    (hsorted : a.regions.Pairwise
      (fun x y => x.start.sampleCounter < y.start.sampleCounter))
    (hf : 0 < a.regionFrequency) :
    (a.alignment ≠ Alignment.NONE → a.curTime.playheadTime.isSome = true →
      (∀ r ∈ a.regions.getLast?, r.start.sampleCounter < w.sampleCounter) →
      ∀ a', a.addNewRegionIfRequired = some (true, a') →
        ∃ r, a'.regions.getLast? = some r ∧ w.sampleCounter ≤ r.start.sampleCounter) ∧
    (∀ r, a.regions.getLast? = some r → w.sampleCounter ≤ r.start.sampleCounter →
      a.addNewRegionIfRequired =
        a.addNewRegion (r.start.sampleCounter + a.regionFrequency) ∧
      ∃ res a', a.addNewRegionIfRequired = some (res, a') ∧
        a'.lastKnownPlaybackRegion = a.lastKnownPlaybackRegion ∧
        a'.regionFrequency = a.regionFrequency ∧
        a'.regions.Pairwise (fun x y => x.start.sampleCounter < y.start.sampleCounter) ∧
        ∃ r', a'.regions.getLast? = some r' ∧
          w.sampleCounter ≤ r'.start.sampleCounter) := by
  constructor
  · intro hne hplay hlast a' hcall
    have hall := all_lt_of_sorted_of_last_lt w.sampleCounter a.regions hsorted hlast
    have hcreated : ∀ s, w.sampleCounter ≤ s → a.addNewRegion s = some (true, a') →
        ∃ r, a'.regions.getLast? = some r ∧ w.sampleCounter ≤ r.start.sampleCounter := by
      intro s hs hadd
      rcases addNewRegion_regions a a' s true hadd
        (fun x hx => lt_of_lt_of_le (hall x hx) hs) with ⟨hfalse, _⟩ | ⟨_, r, hreg, hrs, _⟩
      · cases hfalse
      · exact ⟨r, by rw [hreg, List.getLast?_append, List.getLast?_singleton]; rfl,
          by rw [hrs]; exact hs⟩
    rw [addNewRegionIfRequired_aligned a w hne hplay hstart hlast] at hcall
    cases halign : a.alignment with
    | NONE => exact absurd halign hne
    | PLAYBACK_BEGIN =>
      rw [halign] at hcall
      exact hcreated _ (le_refl _) hcall
    | TIME_ZERO =>
      rw [halign] at hcall
      simp only at hcall
      cases hround : roundUpToAlignmentBoundary w a.regionFrequency with
      | none => rw [hround] at hcall; cases hcall
      | some tp =>
        rw [hround] at hcall
        exact hcreated _ (roundUpToAlignmentBoundary_ge w a.regionFrequency (by omega) tp
          hround) hcall
  · intro r hr hle
    have hcont : a.addNewRegionIfRequired =
        a.addNewRegion (r.start.sampleCounter + a.regionFrequency) := by
      rw [addNewRegionIfRequired_continues a (fun w' hw' _ _ => by
        rw [hstart] at hw'
        cases hw'
        exact ⟨r, hr, hle⟩), hr]
      rfl
    refine ⟨hcont, ?_⟩
    have hdef := addNewRegion_defined a (r.start.sampleCounter + a.regionFrequency)
      (by omega)
    obtain ⟨⟨res, a'⟩, hres⟩ := Option.isSome_iff_exists.mp hdef
    refine ⟨res, a', by rw [hcont]; exact hres, ?_⟩
    have hfields := addNewRegion_fields a a' _ res hres
    have hall : ∀ x ∈ a.regions,
        x.start.sampleCounter < r.start.sampleCounter + a.regionFrequency := by
      apply all_lt_of_sorted_of_last_lt _ a.regions hsorted
      intro r' hr'
      rw [hr] at hr'
      cases hr'
      omega
    refine ⟨hfields.2.2.1, hfields.1, ?_⟩
    rcases addNewRegion_regions a a' _ res hres hall with ⟨_, hreg⟩ | ⟨_, r', hreg, hrs, _⟩
    · rw [hreg]
      exact ⟨hsorted, r, hr, hle⟩
    · rw [hreg]
      refine ⟨?_, r', by rw [List.getLast?_append, List.getLast?_singleton]; rfl,
        by rw [hrs]; omega⟩
      rw [List.pairwise_append]
      refine ⟨hsorted, List.pairwise_singleton _ _, ?_⟩
      intro x hx y hy
      rw [List.mem_singleton] at hy
      rw [hy, hrs]
      exact hall x hx

/-- Witness of C24: the playing scheduler under `PLAYBACK_BEGIN` creates its first region
at the window start 1000; with that region in the set the next call proposes 1010. -/
theorem alignment_once_per_window_witness :
    (∃ a', (playingScheduler Alignment.PLAYBACK_BEGIN).addNewRegionIfRequired =
        some (true, a') ∧
      ∃ r, a'.regions.getLast? = some r ∧ (1000 : Int) ≤ r.start.sampleCounter) ∧
    ({ playingScheduler Alignment.PLAYBACK_BEGIN with
        regions := [pendingRegion 1000 0] } : AnalysisRegions Int).addNewRegionIfRequired =
      ({ playingScheduler Alignment.PLAYBACK_BEGIN with
        regions := [pendingRegion 1000 0] } : AnalysisRegions Int).addNewRegion
          (1000 + 10) :=
  ⟨⟨_, rfl, (alignment_once_per_window (playingScheduler Alignment.PLAYBACK_BEGIN)
      ⟨16000, 1000, 7⟩ rfl (by simp [playingScheduler, AnalysisRegions.new]) (by decide)).1
      (by decide) rfl (by intro r hr; simp [playingScheduler, AnalysisRegions.new] at hr)
      _ rfl⟩,
    ((alignment_once_per_window
      ({ playingScheduler Alignment.PLAYBACK_BEGIN with
        regions := [pendingRegion 1000 0] } : AnalysisRegions Int)
      ⟨16000, 1000, 7⟩ rfl (by simp) (by decide)).2
      (pendingRegion 1000 0) rfl (by decide)).1⟩

/-! ## Sequence counts -/

theorem applyResponse_count {F : Type} (r : Region F) (resp : Response F) :
    (r.applyResponse resp).count = r.count := by
  unfold Region.applyResponse; split <;> rfl

theorem updateRegions_keys {C F : Type} (comms : ServiceCommunicator C F)
    (a a' : AnalysisRegions F) (c c' : C) (h : a.updateRegions comms c = some (a', c')) :
    a'.regions.map (fun r => (r.start.sampleCounter, r.count)) =
      a.eraseOldRegions.map (fun r => (r.start.sampleCounter, r.count)) := by
  have hdisp : (a.dispatched comms c).1.map (fun r => (r.start.sampleCounter, r.count)) =
      a.eraseOldRegions.map (fun r => (r.start.sampleCounter, r.count)) := by
    have hd : (a.dispatched comms c).1 =
        (abortPendingLoop (sendPendingLoop comms a.regionSize a.eraseOldRegions.reverse c).1
          0).reverse := rfl
    have h1 := forall₂_map_eq _ (fun (r : Region F) => (r.start.sampleCounter, r.count))
      (fun x x' (h : x' = x ∨ (x.analysisState = Region.State.PENDING ∧
          x' = { x with analysisState := Region.State.TIMEOUT })) => by
        rcases h with rfl | ⟨_, rfl⟩ <;> rfl) _ _
      (abortPendingLoop_forall₂
        (sendPendingLoop comms a.regionSize a.eraseOldRegions.reverse c).1 0)
    have h2 := forall₂_map_eq _ (fun (r : Region F) => (r.start.sampleCounter, r.count))
      (fun x x' (h : x' = x ∨ (x.analysisState = Region.State.PENDING ∧
          x' = { x with analysisState := Region.State.IN_PROGRESS })) => by
        rcases h with rfl | ⟨_, rfl⟩ <;> rfl) _ _
      (sendPendingLoop_forall₂ comms a.regionSize a.eraseOldRegions.reverse c)
    rw [hd, List.map_reverse, h1, h2, List.map_reverse, List.reverse_reverse]
  rcases updateRegions_regions comms a a' c c' h with hD | ⟨resp, hD⟩
  · rw [hD, hdisp]
  · rw [hD, List.map_map, ← hdisp]
    apply List.map_congr_left
    intro r _
    simp only [Function.comp]
    split
    · rw [applyResponse_start, applyResponse_count]
    · rfl

/-- C27 (as amended): in a region set where starts and counts ascend together (of any two
regions the one with the greater start has the greater count), with a `regionFrequency` that
is not negative: `addNewRegionIfRequired` keeps that order whenever the count of the newest
region is below 65535, and a control tick, `updateAsStale`, `abortInProgress` and
`restartRegions` always keep it. -/
theorem counts_ascend_with_starts {C F : Type} [Zero F] (comms : ServiceCommunicator C F)
    (a : AnalysisRegions F) (c : C)
    (hinv : a.regions.Pairwise
      (fun x y => x.start.sampleCounter < y.start.sampleCounter ∧ x.count < y.count))
    (hf : 0 ≤ a.regionFrequency) :
    ((∀ r ∈ a.regions.getLast?, r.count < 65535) →
      ∀ res a', a.addNewRegionIfRequired = some (res, a') →
        a'.regions.Pairwise
          (fun x y => x.start.sampleCounter < y.start.sampleCounter ∧ x.count < y.count)) ∧
    (∀ a' c', a.updateRegions comms c = some (a', c') →
      a'.regions.Pairwise
        (fun x y => x.start.sampleCounter < y.start.sampleCounter ∧ x.count < y.count)) ∧
    a.updateAsStale.regions.Pairwise
      (fun x y => x.start.sampleCounter < y.start.sampleCounter ∧ x.count < y.count) ∧
    a.abortInProgress.regions.Pairwise
      (fun x y => x.start.sampleCounter < y.start.sampleCounter ∧ x.count < y.count) ∧
    a.restartRegions.regions.Pairwise
      (fun x y => x.start.sampleCounter < y.start.sampleCounter ∧ x.count < y.count) := by
  have hkeys : ∀ l : List (Region F),
      l.Pairwise (fun x y => x.start.sampleCounter < y.start.sampleCounter ∧
        x.count < y.count) ↔
      (l.map (fun r => (r.start.sampleCounter, r.count))).Pairwise
        (fun k k' => k.1 < k'.1 ∧ k.2 < k'.2) := by
    intro l
    rw [List.pairwise_map]
  refine ⟨?_, ?_, ?_, ?_, ?_⟩
  · intro hroom res a' hcall
    have hsorted : a.regions.Pairwise
        (fun x y => x.start.sampleCounter < y.start.sampleCounter) :=
      hinv.imp (fun h => h.1)
    rcases addNewRegionIfRequired_regions a a' res hsorted hf hcall with
      hreg | ⟨r, hreg, hstarts, hcount⟩
    · rw [hreg]; exact hinv
    · rw [hreg, List.pairwise_append]
      refine ⟨hinv, List.pairwise_singleton _ _, ?_⟩
      intro x hx y hy
      rw [List.mem_singleton] at hy
      rw [hy]
      refine ⟨hstarts x hx, ?_⟩
      rcases Option.eq_none_or_eq_some a.regions.getLast? with hl | ⟨last, hl⟩
      · rw [List.getLast?_eq_none_iff.mp hl] at hx; cases hx
      · have hlast := hroom last (by rw [hl]; rfl)
        rw [hl] at hcount
        simp only [Option.map_some', Option.getD_some] at hcount
        rw [hcount, Nat.mod_eq_of_lt (by omega)]
        obtain ⟨pre, hpre⟩ := List.getLast?_eq_some_iff.mp hl
        rw [hpre, List.mem_append, List.mem_singleton] at hx
        rcases hx with hx | rfl
        · rw [hpre, List.pairwise_append] at hinv
          have := (hinv.2.2 x hx last (List.mem_singleton_self _)).2
          omega
        · omega
  · intro a' c' htick
    rw [hkeys, updateRegions_keys comms a a' c c' htick, ← hkeys]
    unfold AnalysisRegions.eraseOldRegions
    simp only
    split
    · exact hinv.filter _
    · exact hinv
  · unfold AnalysisRegions.updateAsStale
    simp only
    rw [List.pairwise_map]
    exact hinv.filter _
  · unfold AnalysisRegions.abortInProgress
    simp only
    rw [List.pairwise_map]
    refine hinv.imp ?_
    intro x y hxy
    split <;> split <;> exact hxy
  · exact List.Pairwise.nil

/-- Witness of C27 (as amended): with regions at 100 and 110 carrying the counts 0 and 1,
the next region gets the count 2. -/
theorem counts_ascend_with_starts_witness :
    ∃ res a', (schedulerWith [pendingRegion 100 0, pendingRegion 110 1]).addNewRegionIfRequired =
        some (res, a') ∧
      regionCounts a' = [(100, 0), (110, 1), (120, 2)] ∧
      a'.regions.Pairwise
        (fun x y => x.start.sampleCounter < y.start.sampleCounter ∧ x.count < y.count) :=
  ⟨_, _, rfl, by decide,
    (counts_ascend_with_starts (deafChannel none)
      (schedulerWith [pendingRegion 100 0, pendingRegion 110 1]) ()
      (by simp [schedulerWith, pendingRegion, Region.new]) (by decide)).1
      (by intro r hr; cases hr; decide) _ _ rfl⟩

/-- C27 as stated fails at the 65536th region: the count is a 16-bit number, so the region
created after the one with count 65535 has count 0. Both are in the set, and the one with
the greater start has the smaller count. -/
theorem count_wraps_at_65535 :
    (schedulerWith [pendingRegion 100 65535]).addNewRegionIfRequired.map
      (fun res => (res.1, regionCounts res.2)) = some (true, [(100, 65535), (110, 0)]) := by
  decide

/-! ## `Buff`: resampling in exact arithmetic -/

theorem binary64Product_natCast (x : Int) (m : Nat) (hm : 0 < m)
    (h : |x * (m : Int)| < 2 ^ 53) : binary64Product x (m : ℚ) = x * (m : Int) := by
  have hx : |x| < 2 ^ 53 := by
    have h1 : |x| ≤ |x * (m : Int)| := by
      rw [abs_mul]
      have : (1 : Int) ≤ |(m : Int)| := by
        rw [abs_of_pos (by exact_mod_cast hm)]; omega
      nlinarith [abs_nonneg x]
    omega
  unfold binary64Product
  rw [toDouble_intCast x hx]
  have : (x : ℚ) * (m : ℚ) = ((x * (m : Int) : Int) : ℚ) := by push_cast; rfl
  rw [this, toDouble_intCast _ h, truncate_intCast]

theorem div_binary64_natCast (t : TimePoint) (m r : Nat) (hm : 0 < m) (hr : 0 < r)
    (hrate : t.sampleRate = m * r) (h32 : m * r < 2 ^ 32)
    (hc : |t.sampleCounter| < 2 ^ 53) (hp : ∀ p ∈ t.playheadTime, |p| < 2 ^ 53) :
    t.div binary64 (m : ℚ) =
      ⟨r, Int.tdiv t.sampleCounter m, t.playheadTime.map (fun p => Int.tdiv p m)⟩ := by
  unfold TimePoint.div
  by_cases hm1 : (m : ℚ) = 1
  · have hm1' : m = 1 := by exact_mod_cast hm1
    rw [if_pos hm1]
    subst hm1'
    cases t with
    | mk sr sc ph =>
      simp only at hrate
      cases ph <;> simp [hrate]
  · rw [if_neg hm1, hrate, binary64_scaleRate m r hm hr h32, binary64_scaleCounter _ m hm hc]
    cases hph : t.playheadTime with
    | none => rfl
    | some p =>
      have := hp p (by rw [hph]; rfl)
      simp only [Option.map_some', binary64_scaleCounter p m hm this]

theorem resample_eq_resampleExact {F : Type} (b : Buff F)
    (interp : List F → Nat → InterpolatorResult F) (mono : List F) (startTime : TimePoint)
    (m r : Nat) (hratio : b.downsampleRatio = (m : ℚ)) (hm : 0 < m) (hr : 0 < r)
    (hrate : startTime.sampleRate = m * r) (h32 : m * r < 2 ^ 32)
    (hlen : (b.unconsumedSamples ++ mono).length < 2 ^ 51)
    (hprimed : ∀ p ∈ b.interpPrimingSamples, p < 256)
    (hc : |startTime.sampleCounter| < 2 ^ 52)
    (hp : ∀ p ∈ startTime.playheadTime, |p| < 2 ^ 52) :
    b.resample interp mono startTime = b.resampleExact m r interp mono startTime := by
  have hlenZ : |(((b.unconsumedSamples ++ mono).length : Nat) : Int)| < 2 ^ 53 := by
    rw [abs_of_nonneg (by omega)]
    omega
  have hreq : binary64.scaleCounter ((b.unconsumedSamples ++ mono).length : Nat) (m : ℚ) =
      (((b.unconsumedSamples ++ mono).length / m : Nat) : Int) := by
    rw [binary64_scaleCounter _ m hm hlenZ, Int.tdiv_eq_ediv (by omega) (by omega)]
    rfl
  have hprod : binary64Product (((b.unconsumedSamples ++ mono).length / m : Nat) : Int)
      (m : ℚ) = (((b.unconsumedSamples ++ mono).length / m * m : Nat) : Int) := by
    rw [binary64Product_natCast _ m hm]
    · push_cast; rfl
    · have h1 : (b.unconsumedSamples ++ mono).length / m * m ≤
          (b.unconsumedSamples ++ mono).length := Nat.div_mul_le_self _ _
      have h2 : ((((b.unconsumedSamples ++ mono).length / m : Nat) : Int) * (m : Int)) =
          (((b.unconsumedSamples ++ mono).length / m * m : Nat) : Int) := by push_cast; rfl
      rw [h2, abs_of_nonneg (by omega)]
      omega
  have hu : b.unconsumedSamples.length < 2 ^ 51 := by
    rw [List.length_append] at hlen; omega
  have key : ∀ P : Nat, P < 256 →
      TimePoint.div binary64
        (startTime.subDelta ((b.unconsumedSamples.length : Int) - (P : Int))) (m : ℚ) =
      ⟨r, Int.tdiv (startTime.sampleCounter - ((b.unconsumedSamples.length : Int) - (P : Int)))
          m,
        startTime.playheadTime.map (fun p =>
          Int.tdiv (p - ((b.unconsumedSamples.length : Int) - (P : Int))) m)⟩ := by
    intro P hP
    have hc' := abs_lt.mp hc
    rw [div_binary64_natCast _ m r hm hr (by simpa [TimePoint.subDelta] using hrate) h32]
    · simp only [TimePoint.subDelta, Option.map_map]
      rfl
    · simp only [TimePoint.subDelta]
      rw [abs_lt]
      constructor <;> omega
    · intro p hpm
      simp only [TimePoint.subDelta, Option.mem_def, Option.map_eq_some'] at hpm
      obtain ⟨q, hq, hqp⟩ := hpm
      have hq' := abs_lt.mp (hp q hq)
      rw [← hqp, abs_lt]
      constructor <;> omega
  unfold Buff.resample Buff.resampleExact
  simp only [hratio, hreq, hprod, Int.toNat_ofNat]
  cases hpr : b.interpPrimingSamples with
  | some P =>
    simp only [key P (hprimed P (by rw [hpr]; rfl))]
  | none =>
    have hP : (((((b.unconsumedSamples ++ mono).length / m * m : Nat) : Int) -
          (interp (b.unconsumedSamples ++ mono)
            ((b.unconsumedSamples ++ mono).length / m)).samplesConsumed) % 256).toNat <
        256 := by
      have := Int.emod_lt_of_pos
        ((((b.unconsumedSamples ++ mono).length / m * m : Nat) : Int) -
          (interp (b.unconsumedSamples ++ mono)
            ((b.unconsumedSamples ++ mono).length / m)).samplesConsumed)
        (show (0 : Int) < 256 by decide)
      have h0 := Int.emod_nonneg
        ((((b.unconsumedSamples ++ mono).length / m * m : Nat) : Int) -
          (interp (b.unconsumedSamples ++ mono)
            ((b.unconsumedSamples ++ mono).length / m)).samplesConsumed)
        (show (256 : Int) ≠ 0 by decide)
      omega
    simp only [key _ hP]

theorem trackPlayback_fields {F : Type} (b b1 : Buff F) (startTime : TimePoint)
    (numSamples : Int) (h : b.trackPlayback startTime numSamples = some b1) :
    b1.downsampleRatio = b.downsampleRatio ∧ b1.unconsumedSamples = b.unconsumedSamples ∧
    b1.interpPrimingSamples = b.interpPrimingSamples ∧ b1.playbackState = b.playbackState ∧
    b1.lastUpdateEndPlayheadTime = startTime.playheadTime.map (fun p => p + numSamples) := by
  unfold Buff.trackPlayback at h
  simp only [Option.map_eq_some'] at h
  obtain ⟨region, _, hb1⟩ := h
  rw [← hb1]
  exact ⟨rfl, rfl, rfl, rfl, rfl⟩

theorem updateFrom_exact {F : Type} [Zero F] (b : Buff F)
    (interp : List F → Nat → InterpolatorResult F) (mono : List F) (startTime : TimePoint)
    (m r : Nat) (hratio : b.downsampleRatio = (m : ℚ)) (hm : 0 < m) (hr : 0 < r)
    (hrate : startTime.sampleRate = m * r) (h32 : m * r < 2 ^ 32)
    (hlen : (b.unconsumedSamples ++ mono).length < 2 ^ 51)
    (hprimed : ∀ p ∈ b.interpPrimingSamples, p < 256)
    (hc : |startTime.sampleCounter| < 2 ^ 52)
    (hp : ∀ p ∈ startTime.playheadTime, |p| < 2 ^ 52) :
    b.updateFrom interp mono startTime =
      (b.trackPlayback startTime mono.length).bind (fun tracked =>
        (tracked.resampleExact m r interp mono startTime).bind (fun resampled =>
          (resampled.1.analysisRegions.updateFrom binary64 resampled.2.2
            ((resampled.2.2.addDelta resampled.2.1.length).subDelta 1)
            resampled.1.playbackRegion).map (fun regions =>
              { resampled.1 with
                circBuff := resampled.1.circBuff.updateFrom resampled.2.1 resampled.2.2,
                analysisRegions := regions,
                playbackState := resampled.1.playbackState.next }))) := by
  unfold Buff.updateFrom
  cases ht : b.trackPlayback startTime mono.length with
  | none => rfl
  | some b1 =>
    have htf := trackPlayback_fields b b1 startTime mono.length ht
    simp only [Option.some_bind]
    rw [resample_eq_resampleExact b1 interp mono startTime m r (by rw [htf.1]; exact hratio)
      hm hr hrate h32 (by rw [htf.2.1]; exact hlen) (by rw [htf.2.2.1]; exact hprimed) hc hp]
    cases b1.resampleExact m r interp mono startTime with
    | none => rfl
    | some res =>
      simp only [Option.some_bind]
      cases res.1.analysisRegions.updateFrom binary64 res.2.2
        ((res.2.2.addDelta res.2.1.length).subDelta 1) res.1.playbackRegion <;> rfl

theorem withBuffer_ratio {F : Type} (m r : Nat) (hm : 0 < m) (hr : 0 < r)
    (h32 : m * r < 2 ^ 32) (circBuff : MonoCircularBuffer F) :
    (Buff.withBuffer (m * r) r circBuff).downsampleRatio = (m : ℚ) :=
  binary64_ratio m r hm hr h32

/-! ## `Buff`: the playback window -/

theorem resampler48k_ratio : resampler48k.downsampleRatio = ((3 : Nat) : ℚ) :=
  withBuffer_ratio 3 16000 (by decide) (by decide) (by decide) _

theorem updateFrom_ratio {F : Type} [Zero F] (b b' : Buff F)
    (interp : List F → Nat → InterpolatorResult F) (mono : List F) (startTime : TimePoint)
    (h : b.updateFrom interp mono startTime = some b') :
    b'.downsampleRatio = b.downsampleRatio := by
  unfold Buff.updateFrom at h
  cases ht : b.trackPlayback startTime mono.length with
  | none => rw [ht] at h; cases h
  | some b1 =>
    rw [ht] at h
    simp only at h
    cases hr : b1.resample interp mono startTime with
    | none => rw [hr] at h; cases h
    | some res =>
      rw [hr] at h
      simp only at h
      split at h
      · cases h
      · simp only [Option.some.injEq] at h
        rw [← h]
        show res.1.downsampleRatio = _
        rw [← (trackPlayback_fields b b1 startTime _ ht).1]
        unfold Buff.resample at hr
        simp only at hr
        split at hr
        · cases hr
        · simp only [Option.some.injEq] at hr
          rw [← hr]

/-- C30 fails for the window that started at transport position 1000 with playhead time 7
(48000 Hz) and the stopping block of 10 samples at transport position 1500: `updateFrom`
closes the window with the end at transport position 1510 and playhead time 1500, so the
window spans 1493 on the playhead clock and 510 on the transport clock. -/
theorem closed_window_clock_mismatch :
    (playingBuff.justStopped.updateFrom (primedInterpolator 3 2 false) (List.replicate 10 0)
      ⟨48000, 1500, none⟩).map (fun b => b.playbackRegion) =
      some ⟨some ⟨48000, 1000, 7⟩, some ⟨48000, 1510, 1500⟩⟩ ∧
    (⟨48000, 1510, 1500⟩ : PlaybackTimePoint).playheadTime -
        (⟨48000, 1000, 7⟩ : PlaybackTimePoint).playheadTime ≠
      (⟨48000, 1510, 1500⟩ : PlaybackTimePoint).sampleCounter -
        (⟨48000, 1000, 7⟩ : PlaybackTimePoint).sampleCounter := by
  constructor
  · rw [updateFrom_exact playingBuff.justStopped _ _ _ 3 16000 resampler48k_ratio (by decide)
      (by decide) rfl (by decide) (by decide) (by intro p hp; cases hp; decide)
      (by decide) (by intro p hp; cases hp)]
    decide
  · decide

/-! ## `Buff`: start times of the resampled blocks -/

/-- C21 fails for a `Buff` from 48000 Hz to 16000 Hz (ratio 3, priming latency 2) whose
first block of 3 samples starts at transport position 1 and whose second block of 3 samples
starts at transport position 4. The first call consumes 1 sample, keeps 2 and appends the
resampled block of 1 sample with start 1, so that the next block should start at 2. In the
second call the resampled block of 1 sample has start 1 again: the condition asserted in
`recordWrite` is false on that append, and after both calls the write tracker holds two
writes with the newest sample still at sample counter 1. -/
theorem resampled_block_start_repeats :
    (resampler48k.updateFrom (primedInterpolator 3 2 true) [0, 0, 0] ⟨48000, 1, none⟩).map
      (fun b => (b.unconsumedSamples, b.interpPrimingSamples, b.circBuff.writeTracker)) =
      some (([0, 0] : List Int), some 2, (⟨8, true, 0, ⟨16000, 1, none⟩⟩ : WriteTracker)) ∧
    ((resampler48k.updateFrom (primedInterpolator 3 2 true) [0, 0, 0] ⟨48000, 1, none⟩).bind
      (fun b1 => (b1.resample (primedInterpolator 3 2 false) [0, 0, 0] ⟨48000, 4, none⟩).map
        (fun resampled => (resampled.2.1, resampled.2.2)))) =
      some (([0] : List Int), (⟨16000, 1, none⟩ : TimePoint)) ∧
    ¬ (⟨8, true, 0, ⟨16000, 1, none⟩⟩ : WriteTracker).sequentialAssertion ⟨16000, 1, none⟩ 0 ∧
    ((resampler48k.updateFrom (primedInterpolator 3 2 true) [0, 0, 0] ⟨48000, 1, none⟩).bind
      (fun b1 => b1.updateFrom (primedInterpolator 3 2 false) [0, 0, 0] ⟨48000, 4, none⟩)).map
      (fun b => b.circBuff.writeTracker) =
      some (⟨8, true, 1, ⟨16000, 1, none⟩⟩ : WriteTracker) := by
  have hexact := updateFrom_exact resampler48k (primedInterpolator 3 2 true) [0, 0, 0]
    ⟨48000, 1, none⟩ 3 16000 resampler48k_ratio (by decide)
    (by decide) rfl (by decide) (by decide) (by intro p hp; cases hp)
    (by decide) (by intro p hp; cases hp)
  obtain ⟨b1, hb1⟩ : ∃ b1, resampler48k.updateFrom (primedInterpolator 3 2 true) [0, 0, 0]
      ⟨48000, 1, none⟩ = some b1 := by
    apply Option.isSome_iff_exists.mp
    rw [hexact]
    decide
  have hratio := (updateFrom_ratio _ _ _ _ _ hb1).trans resampler48k_ratio
  rw [hexact] at hb1
  rw [hexact]
  have hu : b1.unconsumedSamples = [0, 0] := by
    have h := congrArg (Option.map (fun b => b.unconsumedSamples)) hb1
    exact Option.some.inj (h.symm.trans (by decide))
  have hp : b1.interpPrimingSamples = some 2 := by
    have h := congrArg (Option.map (fun b => b.interpPrimingSamples)) hb1
    exact Option.some.inj (h.symm.trans (by decide))
  have hresample := resample_eq_resampleExact b1 (primedInterpolator 3 2 false) [0, 0, 0]
    ⟨48000, 4, none⟩ 3 16000 hratio (by decide)
    (by decide) rfl (by decide) (by rw [hu]; decide)
    (by rw [hp]; intro p hp; cases hp; decide) (by decide) (by intro p hp; cases hp)
  have hexact2 := updateFrom_exact b1 (primedInterpolator 3 2 false) [0, 0, 0]
    ⟨48000, 4, none⟩ 3 16000 hratio (by decide)
    (by decide) rfl (by decide) (by rw [hu]; decide)
    (by rw [hp]; intro p hp; cases hp; decide) (by decide) (by intro p hp; cases hp)
  have hget : b1 = Option.getD _ resampler48k :=
    (congrArg (fun o => Option.getD o resampler48k) hb1).symm
  refine ⟨by decide, ?_, ?_, ?_⟩
  · rw [hb1, Option.some_bind, hresample]
    clear hexact hexact2 hresample hu hp hratio hb1
    subst hget
    decide
  · unfold WriteTracker.sequentialAssertion
    decide
  · rw [hb1, Option.some_bind, hexact2]
    clear hexact hexact2 hresample hu hp hratio hb1
    subst hget
    decide

end audio_plugin
